import Mathlib

/-!
# bitpit: elements of a patch and the local octree

Sources: `src/patchkernel/element.cpp` and `src/PABLO/LocalTree.hpp`.

A shallow embedding of the `Element` class and of its private `Tesselation`
helper, and a model of the local octree of PABLO, together with theorems about
them.

Conventions of the embedding

* `int` and `long` values are integers (`Int`); counters that only count up
  from zero are naturals.  The theorems on face streams are stated for streams
  of fewer than `2^31` entries, where no `int` of the code can overflow.
* `std::unique_ptr<long[]>` is an `Option (List Int)`: `none` is the null
  pointer, `some c` is a storage of `c.length` entries.  Reading or writing
  through a `long *` outside the storage has no defined behaviour in C++; the
  embedding of `Element` gives such an access no result (`none`).
* `ReferenceElementInfo` (`element_reference.hpp`) is a table from element
  types to reference data.  The table is a parameter `info` of every function
  that consults it: `info t = none` says that `t` has no reference element.
* Of the local octree the sources hold the class declaration only.  Its
  operations are modelled from the description of the specification; the
  definitions concerned say so.  Morton keys, coordinates and levels are
  naturals, and loops that search or iterate take a bound on their number of
  turns.
-/

namespace bitpit

/-- The element types (`element_type.hpp`). -/
inductive ElementType where
  | UNDEFINED
  | VERTEX
  | LINE
  | TRIANGLE
  | POLYGON
  | PIXEL
  | QUAD
  | TETRA
  | VOXEL
  | HEXAHEDRON
  | WEDGE
  | PYRAMID
  | POLYHEDRON
  deriving DecidableEq, Repr

/-- The part of `ReferenceElementInfo` used by `Element`. -/
structure ReferenceElementInfo where
  nVertices : Int
  nFaces : Int
  faceTypeStorage : List ElementType
  faceConnectStorage : List (List Int)
  deriving DecidableEq, Repr

/-- The table of the reference elements: `ReferenceElementInfo::getInfo`. -/
abbrev InfoTable := ElementType → Option ReferenceElementInfo

/-- `ReferenceElementInfo::hasInfo(type)`. -/
def hasInfo (info : InfoTable) (type : ElementType) : Bool :=
  (info type).isSome

/-- Reference data of the vertex, the line and the planar elements, to evaluate
the models on concrete elements.  The three-dimensional reference elements are
left out of this table. -/
def planarInfo : InfoTable
  | .VERTEX => some ⟨1, 1, [.VERTEX], [[0]]⟩
  | .LINE => some ⟨2, 2, [.VERTEX, .VERTEX], [[0], [1]]⟩
  | .TRIANGLE => some ⟨3, 3, [.LINE, .LINE, .LINE], [[0, 1], [1, 2], [2, 0]]⟩
  | .PIXEL => some ⟨4, 4, [.LINE, .LINE, .LINE, .LINE], [[2, 0], [1, 3], [0, 1], [3, 2]]⟩
  | .QUAD => some ⟨4, 4, [.LINE, .LINE, .LINE, .LINE], [[0, 1], [1, 2], [2, 3], [3, 0]]⟩
  | _ => none

/-! ## Tesselation -/

/-- How an operation can fail: a C++ exception that was thrown, or the program
stopped by a diagnostic. -/
inductive Failure where
  | runtime_error (what : String)
  | aborted (what : String)
  deriving DecidableEq, Repr

/-- The arithmetic on `std::array<double, 3>` used to evaluate centroids.
Floating point is not modelled: the operations are parameters. -/
structure PointArith (P : Type) where
  zero : P
  add : P → P → P
  divide : P → Int → P

/-- State of `Element::Tesselation`.  The `std::vector` members are lists; an
access `v[i]` outside a vector, which has no defined behaviour in C++, reads a
default value and writes nothing. -/
structure Tesselation (P : Type) where
  m_nTiles : Nat
  m_types : List ElementType
  m_connects : List (List Int)
  m_coordinates : List P

/-- `std::vector::resize(n, value)`. -/
def vecResize {α : Type} (v : List α) (n : Nat) (value : α) : List α :=
  v.take n ++ List.replicate (n - v.length) value

/-- `v[i]` for an `int` index. -/
def vecGet {α : Type} (v : List α) (i : Int) (dflt : α) : α :=
  if 0 ≤ i then v.getD i.toNat dflt else dflt

/-- `v[i] = x` for an `int` index. -/
def vecSet {α : Type} (v : List α) (i : Int) (x : α) : List α :=
  if 0 ≤ i then v.set i.toNat x else v

/-- `std::swap(v[a], v[b])`. -/
def vecSwap (v : List Int) (a b : Nat) : List Int :=
  if a < v.length ∧ b < v.length then (v.set a (v.getD b 0)).set b (v.getD a 0) else v

/-- `ReferenceElementInfo::getInfo(type)` as used by the tesselation: a type
without reference element is an error. -/
def getInfoE (info : InfoTable) (type : ElementType) : Except Failure ReferenceElementInfo :=
  match info type with
  | some r => .ok r
  | none => .error (.runtime_error "Unsupported element")

/-- Sum of the coordinates `m_coordinates[vertexIds[k]]`, divided by the number
of vertices. -/
def evalTileCentroid {P : Type} (ar : PointArith P) (coordinates : List P)
    (vertexIds : List Int) : P :=
  ar.divide (vertexIds.foldl (fun c id => ar.add c (vecGet coordinates id ar.zero)) ar.zero)
    vertexIds.length

/-- `Tesselation::importVertexCoordinates(std::array<double, 3> &&)`: stores the
point and returns its id. -/
def Tesselation.importVertexCoordinates {P : Type} (t : Tesselation P) (p : P) :
    Tesselation P × Int :=
  ({ t with m_coordinates := t.m_coordinates ++ [p] }, (t.m_coordinates.length : Int))

/-- One turn of the loop over the sides of `importPolygon`: the tile `m_nTiles`
(after the increment, `m_nTiles - 1`) gets the two vertices of side `i` and the
centroid. -/
def importPolygonSide {P : Type} (vertexIds : List Int) (nSideVertices : Int) (centroidId : Int)
    (i : Nat) (t : Tesselation P) : Tesselation P :=
  let nTiles := t.m_nTiles + 1
  let nVertices : Int := vertexIds.length
  let tile := t.m_connects.getD (nTiles - 1) []
  let tile1 := (List.range nSideVertices.toNat).foldl
    (fun c k => vecSet c k (vecGet vertexIds (((i : Int) + (k : Int)) % nVertices) 0)) tile
  let tile2 := vecSet tile1 nSideVertices centroidId
  { t with m_nTiles := nTiles, m_connects := t.m_connects.set (nTiles - 1) tile2 }

/-- `Tesselation::importPolygon`. -/
def Tesselation.importPolygon {P : Type} (info : InfoTable) (ar : PointArith P)
    (t : Tesselation P) (vertexIds : List Int) : Except Failure (Tesselation P) :=
  let nVertices := vertexIds.length
  if nVertices = 3 ∨ nVertices = 4 then
    .ok { t with
      m_nTiles := t.m_nTiles + 1
      m_types := t.m_types ++ [if nVertices = 3 then ElementType.TRIANGLE else ElementType.QUAD]
      m_connects := t.m_connects ++ [vertexIds] }
  else do
    let centroid := evalTileCentroid ar t.m_coordinates vertexIds
    let (t1, centroidId) := t.importVertexCoordinates centroid
    let tileType := ElementType.TRIANGLE
    let nTileVertices := (← getInfoE info tileType).nVertices
    let nSideVertices := (← getInfoE info ElementType.LINE).nVertices
    let nSides := nVertices
    let t2 : Tesselation P := { t1 with
      m_types := vecResize t1.m_types (t1.m_nTiles + nSides) tileType
      m_connects := vecResize t1.m_connects (t1.m_nTiles + nSides)
        (List.replicate nTileVertices.toNat 0) }
    .ok ((List.range nSides).foldl
      (fun s i => importPolygonSide vertexIds nSideVertices centroidId i s) t2)

/-- The surface tesselation of `importPolyhedron`: `importPolygon` on every
face, in order. -/
def importFaces {P : Type} (info : InfoTable) (ar : PointArith P) :
    Tesselation P → List (List Int) → Except Failure (Tesselation P)
  | t, [] => .ok t
  | t, face :: faces => do
    let t1 ← t.importPolygon info ar face
    importFaces info ar t1 faces

/-- Body of the conversion loop of `importPolyhedron` for the tile `i`.
`unreachable` is the macro `BITPIT_UNREACHABLE`, a parameter. -/
def convertTile {P : Type} (unreachable : String → Except Failure Unit) (centroidId : Int)
    (i : Nat) (t : Tesselation P) : Except Failure (Tesselation P) := do
  let oldType := t.m_types.getD i ElementType.UNDEFINED
  let tileType ←
    if oldType = ElementType.TRIANGLE then
      pure ElementType.TETRA
    else if oldType = ElementType.QUAD then
      pure ElementType.PYRAMID
    else do
      unreachable "Unsupported tile"
      throw (Failure.runtime_error "Unsupported tile")
  let connect := t.m_connects.getD i []
  let connect1 :=
    if tileType = ElementType.TETRA then vecSwap connect 0 2
    else if tileType = ElementType.PYRAMID then vecSwap connect 1 3
    else connect
  pure { t with
    m_types := t.m_types.set i tileType
    m_connects := t.m_connects.set i (connect1 ++ [centroidId]) }

/-- The loop `for (int i = nInitialTiles; i < nFinalTiles; ++i)`, with `n` turns
left and the next tile `i`. -/
def convertTiles {P : Type} (unreachable : String → Except Failure Unit) (centroidId : Int) :
    Nat → Nat → Tesselation P → Except Failure (Tesselation P)
  | 0, _, t => .ok t
  | n + 1, i, t => do
    let t1 ← convertTile unreachable centroidId i t
    convertTiles unreachable centroidId n (i + 1) t1

/-- `Tesselation::importPolyhedron`. -/
def Tesselation.importPolyhedron {P : Type} (info : InfoTable) (ar : PointArith P)
    (unreachable : String → Except Failure Unit) (t : Tesselation P)
    (vertexIds : List Int) (faceVertexIds : List (List Int)) :
    Except Failure (Tesselation P) := do
  let nInitialTiles := t.m_nTiles
  let t1 ← importFaces info ar t faceVertexIds
  let nFinalTiles := t1.m_nTiles
  let centroid := evalTileCentroid ar t1.m_coordinates vertexIds
  let (t2, centroidTesselationId) := t1.importVertexCoordinates centroid
  convertTiles unreachable centroidTesselationId (nFinalTiles - nInitialTiles) nInitialTiles t2

/-- What the `else` branch of the conversion loop does: the diagnostic macro,
then the exception. -/
def unsupportedTile {P : Type} (unreachable : String → Except Failure Unit) :
    Except Failure (Tesselation P) := do
  unreachable "Unsupported tile"
  throw (Failure.runtime_error "Unsupported tile")

/-- A tesselation whose vector of types holds a stale entry ahead of the tile
counter. -/
def staleTesselation : Tesselation Unit :=
  { m_nTiles := 0, m_types := [ElementType.HEXAHEDRON], m_connects := [[0, 1, 2]],
    m_coordinates := [(), (), ()] }

/-- The tesselation `staleTesselation` after the import of the triangle with the
vertices 0, 1 and 2. -/
def staleSurface : Tesselation Unit :=
  { m_nTiles := 1, m_types := [ElementType.HEXAHEDRON, ElementType.TRIANGLE],
    m_connects := [[0, 1, 2], [0, 1, 2]], m_coordinates := [(), (), ()] }

/-- The arithmetic of points without coordinates. -/
def unitArith : PointArith Unit :=
  ⟨(), fun _ _ => (), fun _ _ => ()⟩

/-! ## Element -/

/-- State of an `Element`: `m_id`, `m_type`, `m_pid` and the connectivity
storage `m_connect`. -/
structure Element where
  m_id : Int
  m_type : ElementType
  m_pid : Int
  m_connect : Option (List Int)
  deriving DecidableEq, Repr

/-- `connectivity[i]`, read through a pointer to a storage. -/
def readAt (connectivity : List Int) (i : Int) : Option Int :=
  if 0 ≤ i then connectivity[i.toNat]? else none

/-- `connectivity[i] = x`, written through a pointer to a storage. -/
def writeAt (connectivity : List Int) (i : Int) (x : Int) : Option (List Int) :=
  if 0 ≤ i ∧ i < connectivity.length then some (connectivity.set i.toNat x) else none

/-- `n` turns of a loop `for (int k = first; ...; ++k)` whose body may have no
result. -/
def forRange {σ : Type} (body : Int → σ → Option σ) : Nat → Int → σ → Option σ
  | 0, _, s => some s
  | n + 1, k, s => (body k s).bind (forRange body n (k + 1))

/-- The loop `for (int k = first; k < last; ++k)`. -/
def forLoop {σ : Type} (first last : Int) (body : Int → σ → Option σ) (s : σ) : Option σ :=
  forRange body (last - first).toNat first s

/-- A `ConstProxyVector<long>(data + first, size)`: the `size` entries of the
storage from `first` on. -/
def proxyVector (c : List Int) (first size : Int) : Option (List Int) :=
  if 0 ≤ first ∧ 0 ≤ size ∧ first + size ≤ c.length then
    some ((c.drop first.toNat).take size.toNat)
  else none

/-- The `assert(type != ElementType::UNDEFINED)` of the `default` cases: the
function has no result on an undefined type. -/
def assertDefined (type : ElementType) : Option Unit :=
  if type = ElementType.UNDEFINED then none else some ()

/-- A `long` value converted to `int`: the value modulo `2^32`, in
`[-2^31, 2^31)`. -/
def narrowToInt (x : Int) : Int :=
  (x + 2 ^ 31) % 2 ^ 32 - 2 ^ 31

/-- The sum of two `long` values; there is no result when the sum is not a
`long`. -/
def longAdd (a b : Int) : Option Int :=
  if -(2 ^ 63 : Int) ≤ a + b ∧ a + b < 2 ^ 63 then some (a + b) else none

/-- The body `position += 1 + connectivity[position]` of the loop of
`getFaceStreamPosition`: the two sums are formed in `long`, and the result is
stored in the `int position`. -/
def nextFacePosition (connectivity : List Int) (position : Int) : Option Int := do
  let n ← readAt connectivity position
  let step ← longAdd 1 n
  let sum ← longAdd position step
  pure (narrowToInt sum)

/-- `Element::getFaceStreamPosition(const long *connectivity, int face)`. -/
def getFaceStreamPosition (connectivity : List Int) (face : Int) : Option Int :=
  forLoop 0 face (fun _ position => nextFacePosition connectivity position) 1

/-- `Element::countPolygonVertices`. -/
def countPolygonVertices (connectivity : List Int) : Option Int :=
  readAt connectivity 0

/-- `Element::countPolygonFaces`. -/
def countPolygonFaces (connectivity : List Int) : Option Int :=
  countPolygonVertices connectivity

/-- `Element::countPolyhedronFaces`. -/
def countPolyhedronFaces (connectivity : List Int) : Option Int :=
  readAt connectivity 0

/-- The body of the loop over `vertexPos` in `getVertexIds`: a vertex id that
is not yet a key of `uniqueVertexIds` is inserted with the current size of the
map as its sort index. -/
def insertUniqueVertex (connectivity : List Int) (vertexPos : Int)
    (uniqueVertexIds : List (Int × Nat)) : Option (List (Int × Nat)) := do
  let vertexId ← readAt connectivity vertexPos
  if (uniqueVertexIds.lookup vertexId).isSome then
    pure uniqueVertexIds
  else
    pure (uniqueVertexIds ++ [(vertexId, uniqueVertexIds.length)])

/-- The first loop of the POLYHEDRON case of `getVertexIds`: the map
`uniqueVertexIds`, an association list from vertex id to sort index. -/
def collectUniqueVertexIds (connectivity : List Int) (nFaces : Int) :
    Option (List (Int × Nat)) :=
  forLoop 0 nFaces (fun i uniqueVertexIds => do
    let facePos ← getFaceStreamPosition connectivity i
    let beginVertexPos := facePos + 1
    let endVertexPos := facePos + 1 + (← readAt connectivity facePos)
    forLoop beginVertexPos endVertexPos (insertUniqueVertex connectivity) uniqueVertexIds) []

/-- The second loop of the POLYHEDRON case of `getVertexIds`: every entry of the
map is stored at its sort index.  The order in which a `std::unordered_map` is
traversed is not specified; the entries are traversed here in the order of
their insertion, and `fillVertexIds_any_order` shows that any other order gives
the same list. -/
def fillVertexIds (uniqueVertexIds : List (Int × Nat)) : Option (List Int) :=
  uniqueVertexIds.foldlM (fun storage entry => writeAt storage entry.2 entry.1)
    (List.replicate uniqueVertexIds.length 0)

/-- `Element::getVertexIds(ElementType type, const long *connectivity)`. -/
def getVertexIdsOf (info : InfoTable) (type : ElementType) (connectivity : List Int) :
    Option (List Int) :=
  match type with
  | .POLYGON => do
    proxyVector connectivity 1 (← countPolygonVertices connectivity)
  | .POLYHEDRON => do
    let nFaces ← countPolyhedronFaces connectivity
    let uniqueVertexIds ← collectUniqueVertexIds connectivity nFaces
    fillVertexIds uniqueVertexIds
  | _ => do
    assertDefined type
    proxyVector connectivity 0 (← info type).nVertices

namespace Element

/-- `Element::getVertexIds() const`. -/
def getVertexIds (info : InfoTable) (e : Element) : Option (List Int) := do
  getVertexIdsOf info e.m_type (← e.m_connect)

/-- `Element::getVertexCount`. -/
def getVertexCount (info : InfoTable) (e : Element) : Option Int :=
  match e.m_type with
  | .POLYGON => do
    countPolygonVertices (← e.m_connect)
  | .POLYHEDRON => do
    pure ((← e.getVertexIds info).length : Int)
  | _ => do
    assertDefined e.m_type
    pure (← info e.m_type).nVertices

/-- `Element::getVertexId`. -/
def getVertexId (info : InfoTable) (e : Element) (vertex : Int) : Option Int :=
  match e.m_type with
  | .POLYGON | .POLYHEDRON => do
    let vertexIds ← e.getVertexIds info
    readAt vertexIds vertex
  | _ => do
    assertDefined e.m_type
    let connectivity ← e.m_connect
    readAt connectivity vertex

/-- `Element::findVertex`. -/
def findVertex (info : InfoTable) (e : Element) (vertexId : Int) : Option Int := do
  let cellVertexIds ← e.getVertexIds info
  let localVertexId : Int := (cellVertexIds.indexOf vertexId : Nat)
  if localVertexId ≥ (cellVertexIds.length : Int) then
    pure (-1)
  else
    pure localVertexId

/-- `Element::getFaceCount`. -/
def getFaceCount (info : InfoTable) (e : Element) : Option Int :=
  match e.m_type with
  | .POLYGON => do
    countPolygonFaces (← e.m_connect)
  | .POLYHEDRON => do
    countPolyhedronFaces (← e.m_connect)
  | _ => do
    assertDefined e.m_type
    pure (← info e.m_type).nFaces

/-- `Element::getFaceStreamPosition(int face) const`. -/
def getFaceStreamPosition (e : Element) (face : Int) : Option Int := do
  bitpit.getFaceStreamPosition (← e.m_connect) face

/-- `Element::getFaceStreamSize`. -/
def getFaceStreamSize (info : InfoTable) (e : Element) : Option Int := do
  let nFaces ← e.getFaceCount info
  let size := 1 + ((← e.getFaceStreamPosition nFaces) - 1)
  pure size

/-- `Element::getConnectSize`. -/
def getConnectSize (info : InfoTable) (e : Element) : Option Int :=
  match e.m_type with
  | .POLYGON => do
    pure (1 + (← e.getVertexCount info))
  | .POLYHEDRON =>
    e.getFaceStreamSize info
  | _ => do
    assertDefined e.m_type
    e.getVertexCount info

/-- The POLYHEDRON case of `Element::getFaceVertexCount`: the entry of the face
stream at the position of the face. -/
def polyhedronFaceVertexCount (e : Element) (face : Int) : Option Int := do
  let connectivity ← e.m_connect
  let facePos ← bitpit.getFaceStreamPosition connectivity face
  readAt connectivity facePos

/-- `Element::getFaceType`. -/
def getFaceType (info : InfoTable) (e : Element) (face : Int) : Option ElementType :=
  match e.m_type with
  | .POLYGON => pure ElementType.LINE
  | .POLYHEDRON => do
    let nFaceVertices ← e.polyhedronFaceVertexCount face
    if nFaceVertices = 3 then pure ElementType.TRIANGLE
    else if nFaceVertices = 4 then pure ElementType.QUAD
    else pure ElementType.POLYGON
  | _ => do
    assertDefined e.m_type
    let storage := (← info e.m_type).faceTypeStorage
    if 0 ≤ face then storage[face.toNat]? else none

/-- `Element::getFaceVertexCount`. -/
def getFaceVertexCount (info : InfoTable) (e : Element) (face : Int) : Option Int :=
  match e.m_type with
  | .POLYHEDRON => e.polyhedronFaceVertexCount face
  | _ => do
    assertDefined e.m_type
    let faceType ← e.getFaceType info face
    pure (← info faceType).nVertices

/-- The copy made by the POLYGON case of `getFaceConnect` when the face wraps
around the end of the connectivity. -/
def polygonWrappedFaceConnect (connectivity : List Int) (connectSize facePos faceConnectSize : Int) :
    Option (List Int) :=
  if faceConnectSize < 0 then none
  else (List.range faceConnectSize.toNat).mapM (fun i => do
    let position := facePos + (i : Int)
    if position ≥ connectSize then
      if connectSize = 0 then none
      else readAt connectivity (Int.tmod position connectSize + 1)
    else readAt connectivity position)

/-- `Element::getFaceConnect`. -/
def getFaceConnect (info : InfoTable) (e : Element) (face : Int) : Option (List Int) := do
  let connectivity ← e.m_connect
  match e.m_type with
  | .POLYGON =>
    let connectSize ← e.getConnectSize info
    let facePos := 1 + face
    let faceConnectSize ← e.getFaceVertexCount info face
    if facePos + faceConnectSize ≤ connectSize then
      proxyVector connectivity facePos faceConnectSize
    else
      polygonWrappedFaceConnect connectivity connectSize facePos faceConnectSize
  | .POLYHEDRON =>
    let faceType ← e.getFaceType info face
    let facePos ← bitpit.getFaceStreamPosition connectivity face
    let faceConnectSize ← readAt connectivity facePos
    let faceConnectBegin := facePos + 1
    if !hasInfo info faceType then
      proxyVector connectivity (faceConnectBegin - 1) (faceConnectSize + 1)
    else
      proxyVector connectivity faceConnectBegin faceConnectSize
  | _ =>
    assertDefined e.m_type
    let faceConnectSize ← e.getFaceVertexCount info face
    let faceConnectStorage := (← info e.m_type).faceConnectStorage
    let localFaceConnect ← (if 0 ≤ face then faceConnectStorage[face.toNat]? else none)
    if faceConnectSize < 0 then none
    else (List.range faceConnectSize.toNat).mapM (fun k => do
      let localVertexId ← localFaceConnect[k]?
      readAt connectivity localVertexId)

/-- `Element::getFaceVertexIds`. -/
def getFaceVertexIds (info : InfoTable) (e : Element) (face : Int) : Option (List Int) := do
  let vertexIds ← e.getFaceConnect info face
  if e.m_type = ElementType.POLYHEDRON then
    let faceType ← e.getFaceType info face
    if faceType = ElementType.POLYGON then
      pure (vertexIds.drop 1)
    else pure vertexIds
  else pure vertexIds

/-- The inner loop of `getFaceStream`: the vertex ids of a face are written
one after the other, the position is advanced before every write. -/
def writeFaceVertexIds (faceVertexIds : List Int) (k : Int) (st : Int × List Int) :
    Option (Int × List Int) := do
  let pos := st.1 + 1
  let vertexId ← readAt faceVertexIds k
  let faceStream ← writeAt st.2 pos vertexId
  pure (pos, faceStream)

/-- `Element::getFaceStream`.  The state of the loops is the pair of `pos` and
of the vector `faceStream`, created with `faceStreamSize` zero entries. -/
def getFaceStream (info : InfoTable) (e : Element) : Option (List Int) := do
  let nFaces ← e.getFaceCount info
  let faceStreamSize ← e.getFaceStreamSize info
  if faceStreamSize < 0 then none
  else
    let faceStream ← writeAt (List.replicate faceStreamSize.toNat 0) 0 nFaces
    let final ← forLoop 0 nFaces (fun i st => do
      let faceVertexIds ← e.getFaceVertexIds info i
      let nFaceVertices : Int := faceVertexIds.length
      let pos := st.1 + 1
      let faceStream ← writeAt st.2 pos (← e.getFaceVertexCount info i)
      forLoop 0 nFaceVertices (writeFaceVertexIds faceVertexIds) (pos, faceStream)) (0, faceStream)
    pure final.2

/-- The body shared by the loops of `renumberVertices`: the entry `k` of the
connectivity is replaced when it is a key of the map. -/
def renumberEntry (map : Int → Option Int) (k : Int) (connectivity : List Int) :
    Option (List Int) := do
  match map (← readAt connectivity k) with
  | some newId => writeAt connectivity k newId
  | none => pure connectivity

/-- `Element::renumberVertices`.  The map is given by its `find`. -/
def renumberVertices (info : InfoTable) (map : Int → Option Int) (e : Element) :
    Option Element :=
  match e.m_type with
  | .POLYGON => do
    let nVertices ← e.getVertexCount info
    let connectivity ← e.m_connect
    let connectivity ← forLoop 1 (nVertices + 1) (renumberEntry map) connectivity
    pure { e with m_connect := some connectivity }
  | .POLYHEDRON => do
    let nFaces ← e.getFaceCount info
    let connectivity ← e.m_connect
    let connectivity ← forLoop 0 nFaces (fun i connectivity => do
      let facePos ← bitpit.getFaceStreamPosition connectivity i
      let beginVertexPos := facePos + 1
      let endVertexPos := facePos + 1 + (← readAt connectivity facePos)
      forLoop beginVertexPos endVertexPos (renumberEntry map) connectivity) connectivity
    pure { e with m_connect := some connectivity }
  | _ => do
    assertDefined e.m_type
    let nVertices ← e.getVertexCount info
    let connectivity ← e.m_connect
    let connectivity ← forLoop 0 nVertices (renumberEntry map) connectivity
    pure { e with m_connect := some connectivity }

/-- The inner loop of `renumberFaceStream`: the position is advanced, then the
entry is replaced when it is a key of the map. -/
def renumberStreamEntry (map : Int → Option Int) (_k : Int) (st : Int × List Int) :
    Option (Int × List Int) := do
  let pos := st.1 + 1
  match map (← readAt st.2 pos) with
  | some newId => pure (pos, ← writeAt st.2 pos newId)
  | none => pure (pos, st.2)

/-- `Element::renumberFaceStream`.  The map is given by its `find`. -/
def renumberFaceStream (map : Int → Option Int) (faceStream : List Int) : Option (List Int) := do
  let nFaces ← readAt faceStream 0
  let final ← forLoop 0 nFaces (fun _i st => do
    let pos := st.1 + 1
    let nFaceVertices ← readAt st.2 pos
    forLoop 0 nFaceVertices (renumberStreamEntry map) (pos, st.2)) (0, faceStream)
  pure final.2

end Element

/-! ## Binary streams

`operator<<` and `operator>>` of `bitpit::OBinaryStream` and
`bitpit::IBinaryStream` (`binary_stream.hpp`) copy the object representation of
a value to and from a buffer of bytes.  The representation is fixed here to the
usual one: two's complement, little endian, four bytes for `int` and for the
`ElementType` enumeration, eight bytes for `long`.  The numeric values of the
enumeration (`element_type.hpp`) are a parameter `typeCode`.  An output stream
is the list of the bytes written so far; an input stream is the list of the
bytes still to be read, and reading past its end has no result. -/

/-- The `width` low bytes of a natural number, least significant first. -/
def toBytes : Nat → Nat → List Nat
  | 0, _ => []
  | width + 1, x => x % 256 :: toBytes width (x / 256)

/-- The natural number of a list of bytes, least significant first. -/
def ofBytes : List Nat → Nat
  | [] => 0
  | b :: bytes => b + 256 * ofBytes bytes

/-- Object representation of a signed integer of `width` bytes. -/
def encodeSigned (width : Nat) (x : Int) : List Nat :=
  toBytes width (x % (256 ^ width : Int)).toNat

/-- The signed integer of `width` bytes with the given object representation. -/
def decodeSigned (width : Nat) (bytes : List Nat) : Int :=
  if ofBytes bytes < 256 ^ width / 2 then (ofBytes bytes : Int)
  else (ofBytes bytes : Int) - (256 ^ width : Int)

/-- `IBinaryStream::read(data, n)`: the next `n` bytes and the rest. -/
def readBytes (n : Nat) (buffer : List Nat) : Option (List Nat × List Nat) :=
  if n ≤ buffer.length then some (buffer.take n, buffer.drop n) else none

/-- `buffer >> value` for an `int`. -/
def readInt (buffer : List Nat) : Option (Int × List Nat) := do
  let (bytes, rest) ← readBytes 4 buffer
  pure (decodeSigned 4 bytes, rest)

/-- `buffer >> value` for a `long`. -/
def readLong (buffer : List Nat) : Option (Int × List Nat) := do
  let (bytes, rest) ← readBytes 8 buffer
  pure (decodeSigned 8 bytes, rest)

/-- `buffer.read(data, n * sizeof(long))` seen as `n` values of type `long`. -/
def readLongs : Nat → List Nat → Option (List Int × List Nat)
  | 0, buffer => some ([], buffer)
  | n + 1, buffer => do
    let (x, rest) ← readLong buffer
    let (xs, rest) ← readLongs n rest
    pure (x :: xs, rest)

/-- The enumerators of `ElementType`. -/
def allElementTypes : List ElementType :=
  [.UNDEFINED, .VERTEX, .LINE, .TRIANGLE, .POLYGON, .PIXEL, .QUAD, .TETRA, .VOXEL,
    .HEXAHEDRON, .WEDGE, .PYRAMID, .POLYHEDRON]

/-- `buffer >> type`: the enumerator whose value was read. -/
def readType (typeCode : ElementType → Int) (buffer : List Nat) :
    Option (ElementType × List Nat) := do
  let (code, rest) ← readInt buffer
  let type ← allElementTypes.find? (fun t => typeCode t = code)
  pure (type, rest)

/-- Numeric values of the enumeration used to evaluate the models. -/
def sampleTypeCode : ElementType → Int
  | .UNDEFINED => -1
  | .VERTEX => 1
  | .LINE => 3
  | .TRIANGLE => 5
  | .POLYGON => 7
  | .PIXEL => 8
  | .QUAD => 9
  | .TETRA => 10
  | .VOXEL => 11
  | .HEXAHEDRON => 12
  | .WEDGE => 13
  | .PYRAMID => 14
  | .POLYHEDRON => 42

namespace Element

/-- `Element::_initialize(long id, ElementType type, std::unique_ptr<long[]> &&)`. -/
def _initializeStorage (_e : Element) (id : Int) (type : ElementType)
    (connectStorage : Option (List Int)) : Element :=
  { m_id := id, m_type := type, m_pid := 0, m_connect := connectStorage }

/-- `Element::_initialize(long id, ElementType type, int connectSize)`.  The
content of a storage obtained from `new long[connectSize]` is not specified: it
is the parameter `junk`. -/
def _initialize (info : InfoTable) (junk : Nat → Int) (e : Element) (id : Int)
    (type : ElementType) (connectSize : Int) : Option Element := do
  let previousConnectSize ←
    (if e.m_connect.isSome then
      if hasInfo info e.m_type then (info e.m_type).map (fun r => r.nVertices)
      else some 0
    else some 0 : Option Int)
  let connectSize ←
    (if hasInfo info type then (info type).map (fun r => r.nVertices)
    else some connectSize : Option Int)
  let connectStorage ←
    (if connectSize ≠ previousConnectSize then
      if connectSize < 0 then none
      else some (some ((List.range connectSize.toNat).map junk))
    else some e.m_connect : Option (Option (List Int)))
  pure (e._initializeStorage id type connectStorage)

/-- `Element::setPID`. -/
def setPID (e : Element) (pid : Int) : Element :=
  { e with m_pid := pid }

/-- The entries copied by `buffer.read` into the storage of the element. -/
def overwriteConnect (storage : Option (List Int)) (data : List Int) : Option (Option (List Int)) :=
  match storage with
  | none => if data = [] then some none else none
  | some s => if data.length ≤ s.length then some (some (data ++ s.drop data.length)) else none

end Element

/-- The output operator of `Element`:
`operator<<(OBinaryStream &buffer, const Element &element)`. -/
def writeElement (info : InfoTable) (typeCode : ElementType → Int) (buffer : List Nat)
    (element : Element) : Option (List Nat) := do
  let buffer := buffer ++ encodeSigned 4 (typeCode element.m_type)
  let buffer := buffer ++ encodeSigned 8 element.m_id
  let connectSize ← element.getConnectSize info
  let buffer := if !hasInfo info element.m_type then buffer ++ encodeSigned 4 connectSize else buffer
  let data ←
    match element.m_connect with
    | none => if connectSize = 0 then some [] else none
    | some storage => proxyVector storage 0 connectSize
  let buffer := buffer ++ (data.map (encodeSigned 8)).flatten
  let buffer := buffer ++ encodeSigned 4 element.m_pid
  pure buffer

/-- The input operator of `Element`:
`operator>>(IBinaryStream &buffer, Element &element)`.  The result is the rest of
the stream and the element read. -/
def readElement (info : InfoTable) (typeCode : ElementType → Int) (junk : Nat → Int)
    (buffer : List Nat) (element : Element) : Option (List Nat × Element) := do
  let (type, buffer) ← readType typeCode buffer
  let (id, buffer) ← readLong buffer
  let (connectSize, buffer, element) ←
    if hasInfo info type then do
      let element ← element._initialize info junk id type 0
      let connectSize ← element.getConnectSize info
      pure (connectSize, buffer, element)
    else do
      let (connectSize, buffer) ← readInt buffer
      let element ← element._initialize info junk id type connectSize
      pure (connectSize, buffer, element)
  if connectSize < 0 then none
  else
    let (data, buffer) ← readLongs connectSize.toNat buffer
    let storage ← Element.overwriteConnect element.m_connect data
    let element := { element with m_connect := storage }
    let (pid, buffer) ← readInt buffer
    let element := element.setPID pid
    pure (buffer, element)

/-- The values of an element fit their C++ types: `long` for the id and for the
entries of the connectivity, `int` for the PID. -/
def Element.Representable (e : Element) : Prop :=
  -(2 ^ 63 : Int) ≤ e.m_id ∧ e.m_id < 2 ^ 63 ∧ -(2 ^ 31 : Int) ≤ e.m_pid ∧ e.m_pid < 2 ^ 31 ∧
  ∀ connectivity, e.m_connect = some connectivity →
    ∀ x ∈ connectivity, -(2 ^ 63 : Int) ≤ x ∧ x < 2 ^ 63

/-- The storage of an element fits its type: when the storage is set and the
type has a reference element, the storage has as many entries as the reference
element has vertices.  This is what `_initialize` relies on when it keeps a
storage. -/
def Element.StorageFits (info : InfoTable) (e : Element) : Prop :=
  ∀ (storage : List Int) (r : ReferenceElementInfo),
    e.m_connect = some storage → info e.m_type = some r → r.nVertices = (storage.length : Int)

/-! ## Face streams -/

/-- The entries of a face stream after the face count: for each face its
number of vertices, then its vertex ids. -/
def encodeFaces : List (List Int) → List Int
  | [] => []
  | face :: faces => (face.length : Int) :: (face ++ encodeFaces faces)

/-- The face stream of a list of faces: the number of faces, then the faces. -/
def faceStreamOf (faces : List (List Int)) : List Int :=
  (faces.length : Int) :: encodeFaces faces

/-- Position of the vertex count of face `f` in the face stream: one plus the
entries taken by the faces before it. -/
def facePosition (faces : List (List Int)) (f : Nat) : Nat :=
  1 + ((faces.take f).map (fun face => 1 + face.length)).sum

/-- An element of defined type whose connectivity is set: a type with a
reference element and a storage of as many entries as the reference element has
vertices; a POLYGON whose storage is the number of vertices followed by the
vertex ids; a POLYHEDRON whose storage is a face stream.  The storage is short
enough for the `int` positions of the code. -/
def Element.WellFormed (info : InfoTable) (e : Element) : Prop :=
  match e.m_type with
  | .UNDEFINED => False
  | .POLYGON => ∃ vertices : List Int,
      e.m_connect = some ((vertices.length : Int) :: vertices) ∧ vertices.length + 1 < 2 ^ 31
  | .POLYHEDRON => ∃ faces : List (List Int),
      e.m_connect = some (faceStreamOf faces) ∧ (faceStreamOf faces).length < 2 ^ 31
  | type => ∃ (r : ReferenceElementInfo) (connectivity : List Int),
      info type = some r ∧ e.m_connect = some connectivity ∧
      r.nVertices = (connectivity.length : Int) ∧ connectivity.length < 2 ^ 31

/-- What a map does to a vertex id: the value of the id when it is a key, the
id itself otherwise. -/
def translate (map : Int → Option Int) (v : Int) : Int :=
  (map v).getD v

/-- The map `uniqueVertexIds` of `getVertexIds` once the vertex ids of `l` have
been visited in order. -/
def uniqueAfter (l : List Int) : List (Int × Nat) :=
  l.foldl (fun u v => if (u.lookup v).isSome then u else u ++ [(v, u.length)]) []

/-- A map with the keys 5 and 6, the value of 5 being itself a key. -/
def sampleMap (v : Int) : Option Int :=
  if v = 5 then some 6 else if v = 6 then some 100 else none

/-- The vector `faceStream` of `getFaceStream` while it is written: the first
`m` entries are those of the stream, the entries after them are still zero. -/
def filledUpTo (stream : List Int) (m : Nat) : List Int :=
  stream.take m ++ List.replicate (stream.length - m) 0

/-- A polyhedron with a face of five and a face of six vertices: the vertex
counts 5 and 6 are keys of `sampleMap`. -/
def sampleFaces : List (List Int) :=
  [[5, 6, 1, 2, 3], [6, 5, 7, 8, 9, 10]]

/-- The size of the face stream of an element counted face by face: one for the
number of faces, then for each of the `getFaceCount()` faces one plus
`getFaceVertexCount(face)`. -/
def Element.faceStreamSizeByFaces (info : InfoTable) (e : Element) : Option Int := do
  let nFaces ← e.getFaceCount info
  let counts ← (List.range nFaces.toNat).mapM (fun face => e.getFaceVertexCount info face)
  pure (1 + (counts.map (fun n => 1 + n)).sum)

/-- A triangle with the vertices 10, 11 and 12. -/
def sampleTriangle : Element :=
  ⟨1, ElementType.TRIANGLE, 0, some [10, 11, 12]⟩

/-- A polygon with the two vertices 0 and 5. -/
def sampleDigon : Element :=
  ⟨1, ElementType.POLYGON, 0, some [2, 0, 5]⟩

/-! ## Size, initialisation and copy of an element -/

/-- `Element::initialize(long id, ElementType type, int connectSize)`. -/
def Element.initialize (info : InfoTable) (junk : Nat → Int) (e : Element) (id : Int)
    (type : ElementType) (connectSize : Int) : Option Element :=
  e._initialize info junk id type connectSize

/-- `Element::unsetConnect`. -/
def Element.unsetConnect (e : Element) : Element :=
  { e with m_connect := none }

/-- The copy constructor `Element::Element(const Element &other)`.  Before the
body runs the storage of the new element is null and its other members have
values that are not specified: they are those of the parameter `raw`.  The
result is the new element; `other` is a constant reference. -/
def Element.copy (info : InfoTable) (junk : Nat → Int) (raw : Element) (other : Element) :
    Option Element := do
  let connectSize ←
    (match other.m_connect with
    | some _ => other.getConnectSize info
    | none => some 0 : Option Int)
  let element ← Element._initialize info junk { raw with m_connect := none }
    other.m_id other.m_type connectSize
  let element := { element with m_pid := other.m_pid }
  match other.m_connect with
  | some storage =>
    let data ← proxyVector storage 0 connectSize
    let connect ← Element.overwriteConnect element.m_connect data
    pure { element with m_connect := connect }
  | none => pure element

/-- The loop of `hasSameConnect`: `n` entries from `k` on are compared, the
first difference ends the comparison. -/
def sameEntries (cellConnect otherConnect : List Int) : Nat → Int → Option Bool
  | 0, _ => some true
  | n + 1, k => do
    if (← readAt cellConnect k) ≠ (← readAt otherConnect k) then
      pure false
    else
      sameEntries cellConnect otherConnect n (k + 1)

/-- `Element::hasSameConnect`. -/
def Element.hasSameConnect (info : InfoTable) (e other : Element) : Option Bool := do
  let cellConnectSize ← e.getConnectSize info
  if (← other.getConnectSize info) ≠ cellConnectSize then
    pure false
  else
    match e.m_connect, other.m_connect with
    | some cellConnect, some otherConnect =>
      sameEntries cellConnect otherConnect cellConnectSize.toNat 0
    | _, _ => if cellConnectSize ≤ 0 then pure true else none

/-- A triangle whose connectivity was removed with `unsetConnect`. -/
def unsetTriangle : Element :=
  sampleTriangle.unsetConnect

/-! ## PABLO local tree

Of the local octree only the declarations of `LocalTree.hpp` are among the
sources: `Octant.hpp`, `tree_constants.hpp` and the bodies of the member
functions are not.  The definitions of this section follow the description of
the specification (its sections 3, 4 and 7) and keep the names of the
declarations.  Morton keys are natural numbers. -/

/-- Modelled from the spec: the immutable configuration object constructed once
per dimension (`tree_constants.hpp` is missing): the space dimension and the
`maxLevel` that bounds the level of an octant. -/
structure TreeConstants where
  dim : Nat
  maxLevel : Nat
  deriving DecidableEq, Repr

/-- Modelled from the spec: the construction of the constants (the body is
missing).  "Dimension must be 2 or 3; any other value is a fatal configuration
error detected at construction." -/
def TreeConstants.forDimension (maxLevel dim : Nat) : Except Failure TreeConstants :=
  if dim = 2 ∨ dim = 3 then
    Except.ok ⟨dim, maxLevel⟩
  else
    Except.error (Failure.aborted "the dimension of the tree must be 2 or 3")

/-- Modelled from the spec: the `Octant` value (`Octant.hpp` is missing): the
anchor `(x, y, z)` in units of the finest representable resolution, the level,
the refinement marker, whether the octant participates in the 2:1 enforcement,
and whether it was created by the last change of the tree. -/
structure Octant where
  x : Nat
  y : Nat
  z : Nat
  level : Nat
  marker : Int
  balanceEligible : Bool
  isNew : Bool
  deriving DecidableEq, Repr

/-- Modelled from the spec: the anchor and the level of an octant, which
determine its cell. -/
def Octant.position (o : Octant) : Nat × Nat × Nat × Nat :=
  (o.x, o.y, o.z, o.level)

/-- Modelled from the spec: the edge length of the cell in units of the finest
resolution, `2^(maxLevel - level)`. -/
def Octant.getLogicalSize (tc : TreeConstants) (o : Octant) : Nat :=
  2 ^ (tc.maxLevel - o.level)

/-- Modelled from the spec: a valid (anchor, level) pair: the level is in
`[0, maxLevel]` and the anchor is the corner of a cell of that level contained
in the domain (in two dimensions the third coordinate is zero). -/
def Octant.Valid (tc : TreeConstants) (o : Octant) : Prop :=
  o.level ≤ tc.maxLevel ∧
  o.x < 2 ^ tc.maxLevel ∧ o.y < 2 ^ tc.maxLevel ∧ o.z < 2 ^ tc.maxLevel ∧
  o.x % 2 ^ (tc.maxLevel - o.level) = 0 ∧ o.y % 2 ^ (tc.maxLevel - o.level) = 0 ∧
  o.z % 2 ^ (tc.maxLevel - o.level) = 0 ∧
  (tc.dim = 2 → o.z = 0)

instance (tc : TreeConstants) (o : Octant) : Decidable (o.Valid tc) := by
  unfold Octant.Valid
  infer_instance

/-- Modelled from the spec: the index of a cell of the finest level along the
space-filling curve (the Z-curve): the bits of the coordinates interleaved, `n`
bits of each. -/
def interleave (dim : Nat) : Nat → Nat → Nat → Nat → Nat
  | 0, _, _, _ => 0
  | n + 1, x, y, z =>
    x % 2 + 2 * (y % 2) + (if dim = 3 then 4 * (z % 2) else 0) +
      2 ^ dim * interleave dim n (x / 2) (y / 2) (z / 2)

/-- Modelled from the spec: the coordinates of the cell of the finest level with
a given index along the curve. -/
def deinterleave (dim : Nat) : Nat → Nat → Nat × Nat × Nat
  | 0, _ => (0, 0, 0)
  | n + 1, index =>
    let rest := deinterleave dim n (index / 2 ^ dim)
    let digit := index % 2 ^ dim
    (digit % 2 + 2 * rest.1, digit / 2 % 2 + 2 * rest.2.1,
      (if dim = 3 then digit / 4 % 2 else 0) + 2 * rest.2.2)

/-- Modelled from the spec: the index along the curve of the first descendant of
the finest level of an octant. -/
def Octant.curveIndex (tc : TreeConstants) (o : Octant) : Nat :=
  interleave tc.dim tc.maxLevel o.x o.y o.z

/-- Modelled from the spec: the number of cells of the finest level nested in an
octant. -/
def Octant.descendantCount (tc : TreeConstants) (o : Octant) : Nat :=
  (2 ^ tc.dim) ^ (tc.maxLevel - o.level)

/-- Modelled from the spec: `encode(anchor, level) -> key` (the body of
`Octant::computeMorton` is missing): the position along the curve, then the
level. -/
def Octant.computeMorton (tc : TreeConstants) (o : Octant) : Nat :=
  o.curveIndex tc * (tc.maxLevel + 1) + o.level

/-- Modelled from the spec: `decode`, the anchor and the level of a key. -/
def decodeMorton (tc : TreeConstants) (key : Nat) : Nat × Nat × Nat × Nat :=
  let anchor := deinterleave tc.dim tc.maxLevel (key / (tc.maxLevel + 1))
  (anchor.1, anchor.2.1, anchor.2.2, key % (tc.maxLevel + 1))

/-! ### Sorted index and search -/

/-- Modelled from the spec: the binary search of `findLowerBound` between the
positions `lo` and `hi`; `fuel` bounds the number of turns. -/
def lowerBoundLoop (keys : List Nat) (target : Nat) : Nat → Nat → Nat → Nat
  | 0, lo, _ => lo
  | fuel + 1, lo, hi =>
    if lo < hi then
      if keys.getD (lo + (hi - lo) / 2) 0 < target then
        lowerBoundLoop keys target fuel (lo + (hi - lo) / 2 + 1) hi
      else
        lowerBoundLoop keys target fuel lo (lo + (hi - lo) / 2)
    else lo

/-- Modelled from the spec: the binary search of `findUpperBound`. -/
def upperBoundLoop (keys : List Nat) (target : Nat) : Nat → Nat → Nat → Nat
  | 0, lo, _ => lo
  | fuel + 1, lo, hi =>
    if lo < hi then
      if keys.getD (lo + (hi - lo) / 2) 0 ≤ target then
        upperBoundLoop keys target fuel (lo + (hi - lo) / 2 + 1) hi
      else
        upperBoundLoop keys target fuel lo (lo + (hi - lo) / 2)
    else lo

/-- Modelled from the spec: `findLowerBound(key, sequence) -> (index,
keyAtIndex)`, the body of `LocalTree::findMortonLowerBound`: the first element
with key at least the target.  The index is the size of the sequence, and there
is no key, when no element qualifies. -/
def findMortonLowerBound (tc : TreeConstants) (targetMorton : Nat) (octants : List Octant) :
    Nat × Option Nat :=
  let keys := octants.map (Octant.computeMorton tc)
  let lowerBoundIdx := lowerBoundLoop keys targetMorton keys.length 0 keys.length
  (lowerBoundIdx, keys[lowerBoundIdx]?)

/-- Modelled from the spec: `findUpperBound(key, sequence) -> (index,
keyAtIndex)`, the body of `LocalTree::findMortonUpperBound`: the first element
with key greater than the target. -/
def findMortonUpperBound (tc : TreeConstants) (targetMorton : Nat) (octants : List Octant) :
    Nat × Option Nat :=
  let keys := octants.map (Octant.computeMorton tc)
  let upperBoundIdx := upperBoundLoop keys targetMorton keys.length 0 keys.length
  (upperBoundIdx, keys[upperBoundIdx]?)

/-- Modelled from the spec: `findExact(key, sequence) -> index | NOT_FOUND`, the
body of `LocalTree::findMorton(targetMorton, octants)`: a binary search for the
first key at least the target, which is the answer when it is the target;
`none` is `NOT_FOUND`. -/
def findMorton (tc : TreeConstants) (targetMorton : Nat) (octants : List Octant) : Option Nat :=
  let found := findMortonLowerBound tc targetMorton octants
  if found.2 = some targetMorton then some found.1 else none

/-! ### Refinement and coarsening -/

/-- Modelled from the spec: the child of index `i` of an octant, in the fixed
enumeration order of the children: "markers reset, `marker-1` carried over if
still positive, `balanceEligible` inherited". -/
def Octant.buildChild (tc : TreeConstants) (o : Octant) (i : Nat) : Octant :=
  { x := o.x + i % 2 * 2 ^ (tc.maxLevel - o.level - 1)
    y := o.y + i / 2 % 2 * 2 ^ (tc.maxLevel - o.level - 1)
    z := o.z + i / 4 % 2 * 2 ^ (tc.maxLevel - o.level - 1)
    level := o.level + 1
    marker := if 0 < o.marker - 1 then o.marker - 1 else 0
    balanceEligible := o.balanceEligible
    isNew := true }

/-- Modelled from the spec: the `2^dim` children of an octant. -/
def Octant.buildChildren (tc : TreeConstants) (o : Octant) : List Octant :=
  (List.range (2 ^ tc.dim)).map (o.buildChild tc)

/-- Modelled from the spec: the parent of an octant, as created by a merge
("marker reset"). -/
def Octant.buildFather (tc : TreeConstants) (o : Octant) : Octant :=
  { x := o.x - o.x % 2 ^ (tc.maxLevel - o.level + 1)
    y := o.y - o.y % 2 ^ (tc.maxLevel - o.level + 1)
    z := o.z - o.z % 2 ^ (tc.maxLevel - o.level + 1)
    level := o.level - 1
    marker := 0
    balanceEligible := o.balanceEligible
    isNew := true }

/-- Modelled from the spec: an octant that is not split by `refine`: at
`maxLevel` a request of refinement is a no-op, "marker silently clamped". -/
def Octant.clampRefinement (tc : TreeConstants) (o : Octant) : Octant :=
  if 0 < o.marker ∧ tc.maxLevel ≤ o.level then { o with marker := 0 } else o

/-- Modelled from the spec: an octant that is not merged by `coarse`: at level 0
a request of coarsening is a no-op, "marker silently clamped". -/
def Octant.clampCoarsening (o : Octant) : Octant :=
  if o.marker < 0 ∧ o.level = 0 then { o with marker := 0 } else o

/-- Modelled from the spec: the sequence rewritten by `refine`: "for every
octant with `marker > 0` and `level < maxLevel`, replace its slot with its
`2^dim` children". -/
def refineOctants (tc : TreeConstants) : List Octant → List Octant
  | [] => []
  | o :: rest =>
    (if 0 < o.marker ∧ o.level < tc.maxLevel then o.buildChildren tc
      else [o.clampRefinement tc]) ++ refineOctants tc rest

/-- Modelled from the spec: a family: "a full set of `2^dim` siblings, contiguous
in Morton order, sharing the same parent, all with `marker < 0`". -/
def isFamily (tc : TreeConstants) (family : List Octant) : Bool :=
  match family with
  | [] => false
  | o :: _ =>
    decide (0 < o.level) && family.all (fun sibling => decide (sibling.marker < 0)) &&
      (family.map Octant.position ==
        ((o.buildFather tc).buildChildren tc).map Octant.position)

/-- Modelled from the spec: the sequence rewritten by `coarse`: the scan for
families, each replaced by its parent; `fuel` bounds the number of slots
scanned. -/
def coarseOctants (tc : TreeConstants) : Nat → List Octant → List Octant
  | 0, octants => octants
  | _ + 1, [] => []
  | fuel + 1, o :: rest =>
    if isFamily tc ((o :: rest).take (2 ^ tc.dim)) then
      o.buildFather tc :: coarseOctants tc fuel (rest.drop (2 ^ tc.dim - 1))
    else
      o.clampCoarsening :: coarseOctants tc fuel rest

/-- Constants of a two-dimensional tree with levels 0, 1 and 2, to evaluate the
models on concrete trees. -/
def sampleConstants : TreeConstants :=
  ⟨2, 2⟩

/-- The four quadrants of level 1 of the two-dimensional sample tree, in Morton
order. -/
def sampleQuadrants : List Octant :=
  [⟨0, 0, 0, 1, 0, true, false⟩, ⟨2, 0, 0, 1, 0, true, false⟩, ⟨0, 2, 0, 1, 0, true, false⟩,
    ⟨2, 2, 0, 1, 0, true, false⟩]

/-! ### The local tree -/

/-- State of a `LocalTree`: the members of the class declaration that the
operations on the octants read or write.  `m_sizeOctants` and `m_sizeGhosts`
are the lengths of the sequences. -/
structure LocalTree where
  m_octants : List Octant
  m_ghosts : List Octant
  m_globalIdxGhosts : List Nat
  m_firstDescMorton : Nat
  m_lastDescMorton : Nat
  m_localMaxDepth : Nat
  m_balanceCodim : Nat
  m_dim : Nat
  m_treeConstants : TreeConstants
  m_periodic : List Bool
  deriving DecidableEq, Repr

/-- Modelled from the spec: `LocalTree::getMorton(idx)` (the body is missing):
the key of the local octant of index `idx`. -/
def LocalTree.getMorton (t : LocalTree) (idx : Nat) : Option Nat :=
  (t.m_octants[idx]?).map (Octant.computeMorton t.m_treeConstants)

/-- Modelled from the spec: `LocalTree::updateLocalMaxDepth` (the body is
missing): the "highest `level` currently present among `octants`; derived,
recomputed after any mutation". -/
def LocalTree.updateLocalMaxDepth (t : LocalTree) : LocalTree :=
  { t with m_localMaxDepth := (t.m_octants.map (fun o => o.level)).foldl max 0 }

/-- Modelled from the spec: `LocalTree::refine` (the body is missing), without
the index remap it produces. -/
def LocalTree.refine (t : LocalTree) : LocalTree :=
  LocalTree.updateLocalMaxDepth
    { t with m_octants := refineOctants t.m_treeConstants t.m_octants }

/-- Modelled from the spec: `LocalTree::coarse` (the body is missing), without
the index remap it produces: the families whose siblings are all local octants
are merged. -/
def LocalTree.coarse (t : LocalTree) : LocalTree :=
  LocalTree.updateLocalMaxDepth
    { t with m_octants := coarseOctants t.m_treeConstants t.m_octants.length t.m_octants }

/-- Modelled from the spec: `LocalTree::globalRefine` (the body is missing):
the "unconditional variant applied uniformly regardless of `marker`". -/
def LocalTree.globalRefine (t : LocalTree) : LocalTree :=
  LocalTree.refine { t with m_octants := t.m_octants.map (fun o => { o with marker := 1 }) }

/-- Modelled from the spec: `LocalTree::globalCoarse` (the body is missing):
the "unconditional variant applied uniformly regardless of `marker`". -/
def LocalTree.globalCoarse (t : LocalTree) : LocalTree :=
  LocalTree.coarse { t with m_octants := t.m_octants.map (fun o => { o with marker := -1 }) }

/-- The four operations of the mutation engine. -/
inductive Adaption where
  | refine
  | coarse
  | globalRefine
  | globalCoarse
  deriving DecidableEq, Repr

/-- One operation of the mutation engine applied to a tree. -/
def LocalTree.adapt (t : LocalTree) : Adaption → LocalTree
  | .refine => t.refine
  | .coarse => t.coarse
  | .globalRefine => t.globalRefine
  | .globalCoarse => t.globalCoarse

/-- Modelled from the spec: octants in the order of the curve whose cells do not
overlap: each is valid and starts, along the curve, where the one before it
ends or later; the first starts at `lo` or later, the last ends at `hi` or
before. -/
def Packed (tc : TreeConstants) : Nat → List Octant → Nat → Prop
  | lo, [], hi => lo ≤ hi
  | lo, o :: rest, hi =>
    o.Valid tc ∧ lo ≤ o.curveIndex tc ∧
      Packed tc (o.curveIndex tc + o.descendantCount tc) rest hi

/-- Modelled from the spec: a local tree whose octants are valid cells of the
domain that do not overlap, in the order of the curve, for a dimension of 2 or
3. -/
def LocalTree.Linear (t : LocalTree) : Prop :=
  (t.m_treeConstants.dim = 2 ∨ t.m_treeConstants.dim = 3) ∧
  Packed t.m_treeConstants 0 t.m_octants
    ((2 ^ t.m_treeConstants.dim) ^ t.m_treeConstants.maxLevel)

/-- The tree of the four quadrants of level 1, the second one marked for
refinement. -/
def sampleTree : LocalTree :=
  { m_octants := [⟨0, 0, 0, 1, 0, true, false⟩, ⟨2, 0, 0, 1, 1, true, false⟩,
      ⟨0, 2, 0, 1, 0, true, false⟩, ⟨2, 2, 0, 1, 0, true, false⟩]
    m_ghosts := []
    m_globalIdxGhosts := []
    m_firstDescMorton := 2
    m_lastDescMorton := 47
    m_localMaxDepth := 1
    m_balanceCodim := 1
    m_dim := 2
    m_treeConstants := sampleConstants
    m_periodic := [false, false, false, false] }

instance Packed.instDecidable (tc : TreeConstants) :
    (lo : Nat) → (octants : List Octant) → (hi : Nat) → Decidable (Packed tc lo octants hi)
  | lo, [], hi => inferInstanceAs (Decidable (lo ≤ hi))
  | lo, o :: rest, hi =>
    have := Packed.instDecidable tc (o.curveIndex tc + o.descendantCount tc) rest hi
    inferInstanceAs (Decidable (o.Valid tc ∧ lo ≤ o.curveIndex tc ∧
      Packed tc (o.curveIndex tc + o.descendantCount tc) rest hi))

instance (t : LocalTree) : Decidable t.Linear := by
  unfold LocalTree.Linear
  infer_instance

/-- The position along the curve where the last octant of a sequence ends; `lo`
for the empty sequence. -/
def curveEnd (tc : TreeConstants) (lo : Nat) : List Octant → Nat
  | [] => lo
  | o :: rest => curveEnd tc (o.curveIndex tc + o.descendantCount tc) rest

/-! ### Construction -/

/-- Modelled from the spec: `LocalTree::initialize(uint8_t dim)` (the body is
missing): the constants of the dimension are obtained, which fails for a
dimension other than 2 and 3, and the tree is empty.  `maxLevel` is a constant
of the missing `tree_constants.hpp`. -/
def LocalTree.initialize (maxLevel dim : Nat) : Except Failure LocalTree := do
  let treeConstants ← TreeConstants.forDimension maxLevel dim
  pure
    { m_octants := []
      m_ghosts := []
      m_globalIdxGhosts := []
      m_firstDescMorton := 0
      m_lastDescMorton := 0
      m_localMaxDepth := 0
      m_balanceCodim := 1
      m_dim := dim
      m_treeConstants := treeConstants
      m_periodic := List.replicate (2 * dim) false }

/-- Modelled from the spec: `LocalTree::reset(bool createRoot)` (the body is
missing): the octants and the ghosts are removed; with `createRoot` the tree is
seeded with the octant of level 0. -/
def LocalTree.reset (t : LocalTree) (createRoot : Bool) : LocalTree :=
  LocalTree.updateLocalMaxDepth
    { t with
      m_octants := if createRoot then [⟨0, 0, 0, 0, 0, true, false⟩] else []
      m_ghosts := []
      m_globalIdxGhosts := [] }

/-- Modelled from the spec: the constructor `LocalTree::LocalTree(uint8_t dim)`
(the body is missing): the tree is initialized for the dimension and seeded. -/
def LocalTree.construct (maxLevel dim : Nat) : Except Failure LocalTree := do
  let tree ← LocalTree.initialize maxLevel dim
  pure (tree.reset true)

/-! ### Neighbour search -/

/-- Modelled from the spec: whether an octant lies on the boundary face `iface`
of the domain (the boundary flags of the octant): face `2a` is the face of axis
`a` on the side of the origin, face `2a + 1` the opposite one. -/
def Octant.getBound (tc : TreeConstants) (o : Octant) (iface : Nat) : Bool :=
  match iface with
  | 0 => o.x == 0
  | 1 => o.x + o.getLogicalSize tc == 2 ^ tc.maxLevel
  | 2 => o.y == 0
  | 3 => o.y + o.getLogicalSize tc == 2 ^ tc.maxLevel
  | 4 => o.z == 0
  | 5 => o.z + o.getLogicalSize tc == 2 ^ tc.maxLevel
  | _ => false

/-- Modelled from the spec: `LocalTree::isPeriodic(oct, iface)` (the body is
missing): the octant lies on the boundary face `iface` and that face is
flagged periodic. -/
def LocalTree.isPeriodic (t : LocalTree) (oct : Octant) (iface : Nat) : Bool :=
  oct.getBound t.m_treeConstants iface && t.m_periodic.getD iface false

/-- Modelled from the spec: the translation along the axes of the face `iface`,
`none` when the tree has no such face. -/
def faceDirection (dim iface : Nat) : Option (Int × Int × Int) :=
  if iface < 2 * dim then
    match iface with
    | 0 => some (-1, 0, 0)
    | 1 => some (1, 0, 0)
    | 2 => some (0, -1, 0)
    | 3 => some (0, 1, 0)
    | 4 => some (0, 0, -1)
    | 5 => some (0, 0, 1)
    | _ => none
  else none

/-- Modelled from the spec: steps 1 and 2 of the neighbour search along one
axis: the coordinate of the octant translated by its own edge length; when the
translation exits the domain, the coordinate wrapped modulo the domain extent
if the face is flagged periodic, and otherwise no coordinate (physical
boundary). -/
def translateAxis (tc : TreeConstants) (periodic : List Bool) (axis : Nat) (coordinate size : Nat)
    (step : Int) : Option Nat :=
  if 0 ≤ (coordinate : Int) + step * size ∧ (coordinate : Int) + step * size < 2 ^ tc.maxLevel then
    some ((coordinate : Int) + step * size).toNat
  else if periodic.getD (2 * axis + (if 0 < step then 1 else 0)) false then
    some (((coordinate : Int) + step * size) % 2 ^ tc.maxLevel).toNat
  else none

/-- Modelled from the spec: the same-size virtual neighbour of an octant in a
direction, `none` on a physical boundary. -/
def virtualNeighbour (tc : TreeConstants) (periodic : List Bool) (oct : Octant)
    (direction : Int × Int × Int) : Option Octant := do
  let x ← translateAxis tc periodic 0 oct.x (oct.getLogicalSize tc) direction.1
  let y ← translateAxis tc periodic 1 oct.y (oct.getLogicalSize tc) direction.2.1
  let z ← translateAxis tc periodic 2 oct.z (oct.getLogicalSize tc) direction.2.2
  pure { oct with x := x, y := y, z := z }

/-- Modelled from the spec: whether a candidate nested in the virtual neighbour
covers part of the probed face, edge or node, along one axis. -/
def touchesAxis (step : Int) (virtualCoordinate virtualSize coordinate size : Nat) : Bool :=
  if 0 < step then coordinate == virtualCoordinate
  else if step < 0 then coordinate + size == virtualCoordinate + virtualSize
  else true

/-- Modelled from the spec: whether a candidate nested in the virtual neighbour
covers part of the probed face, edge or node. -/
def touches (tc : TreeConstants) (direction : Int × Int × Int) (virtual candidate : Octant) : Bool :=
  touchesAxis direction.1 virtual.x (virtual.getLogicalSize tc) candidate.x
      (candidate.getLogicalSize tc) &&
    touchesAxis direction.2.1 virtual.y (virtual.getLogicalSize tc) candidate.y
      (candidate.getLogicalSize tc) &&
    touchesAxis direction.2.2 virtual.z (virtual.getLogicalSize tc) candidate.z
      (candidate.getLogicalSize tc)

/-- Modelled from the spec: steps 3 and 4 of the neighbour search in one
sequence: the binary search of the key of the virtual neighbour, then the walk
backward from the lower bound over the candidates whose descendant range still
reaches the virtual neighbour (a coarser neighbour), and forward over the
candidates that start inside it (same-level or finer neighbours), of which those
on the probed face are kept. -/
def resolveIn (tc : TreeConstants) (direction : Int × Int × Int) (virtual : Octant)
    (octants : List Octant) : List Nat :=
  let lowerBoundIdx := (findMortonLowerBound tc (virtual.computeMorton tc) octants).1
  let backward := (List.range lowerBoundIdx).reverse.takeWhile (fun idx =>
    match octants[idx]? with
    | some candidate =>
      decide (virtual.curveIndex tc < candidate.curveIndex tc + candidate.descendantCount tc)
    | none => false)
  let forward := ((List.range' lowerBoundIdx (octants.length - lowerBoundIdx)).takeWhile
    (fun idx =>
      match octants[idx]? with
      | some candidate =>
        decide (candidate.curveIndex tc < virtual.curveIndex tc + virtual.descendantCount tc)
      | none => false)).filter (fun idx =>
        match octants[idx]? with
        | some candidate => touches tc direction virtual candidate
        | none => false)
  backward.reverse ++ forward

/-- Modelled from the spec: the neighbour search in a direction, over the local
octants and, unless `onlyinternal`, over the ghosts: the indices of the
neighbours and whether each is a ghost.  On a physical boundary both lists are
empty. -/
def LocalTree.resolveNeighbours (t : LocalTree) (oct : Octant) (direction : Int × Int × Int)
    (onlyinternal : Bool) : List Nat × List Bool :=
  match virtualNeighbour t.m_treeConstants t.m_periodic oct direction with
  | none => ([], [])
  | some virtual =>
    let internal := resolveIn t.m_treeConstants direction virtual t.m_octants
    let ghosts := if onlyinternal then [] else resolveIn t.m_treeConstants direction virtual t.m_ghosts
    (internal ++ ghosts, internal.map (fun _ => false) ++ ghosts.map (fun _ => true))

/-- Modelled from the spec: `LocalTree::findNeighbours(oct, iface, neighbours,
isghost, onlyinternal)` (the body is missing): the neighbour search through the
face `iface`.  There is no result for a face that the tree does not have. -/
def LocalTree.findNeighbours (t : LocalTree) (oct : Octant) (iface : Nat) (onlyinternal : Bool) :
    Option (List Nat × List Bool) := do
  let direction ← faceDirection t.m_dim iface
  pure (t.resolveNeighbours oct direction onlyinternal)
/-! ### The 2:1 balance -/

/-- Modelled from the spec: the number of translation directions combined in a
direction: 1 for a face, 2 for an edge, 3 for a node. -/
def codimension (direction : Int × Int × Int) : Nat :=
  (if direction.1 = 0 then 0 else 1) + (if direction.2.1 = 0 then 0 else 1) +
    (if direction.2.2 = 0 then 0 else 1)

/-- Modelled from the spec: the directions of the adjacencies that the balance
enforces: those of codimension at most `balanceCodimension` (1 = faces only,
2 = faces and edges, 3 = faces, edges and nodes). -/
def balanceDirections (dim codim : Nat) : List (Int × Int × Int) :=
  (([-1, 0, 1] : List Int).flatMap (fun dx =>
    ([-1, 0, 1] : List Int).flatMap (fun dy =>
      (if dim = 3 then ([-1, 0, 1] : List Int) else [0]).map (fun dz => (dx, dy, dz))))).filter
    (fun direction => decide (1 ≤ codimension direction ∧ codimension direction ≤ codim))

/-- Modelled from the spec: the levels of the neighbours found for an octant in
a direction, local and ghost. -/
def LocalTree.neighbourLevels (t : LocalTree) (oct : Octant) (direction : Int × Int × Int) :
    List Nat :=
  let found := t.resolveNeighbours oct direction false
  (found.1.zip found.2).filterMap (fun neighbour =>
    ((if neighbour.2 then t.m_ghosts else t.m_octants)[neighbour.1]?).map (fun o => o.level))

/-- Modelled from the spec: whether a neighbour found for an octant, through an
adjacency that the balance enforces, is a ghost. -/
def LocalTree.hasGhostNeighbour (t : LocalTree) (oct : Octant) : Bool :=
  (balanceDirections t.m_dim t.m_balanceCodim).any (fun direction =>
    (t.resolveNeighbours oct direction false).2.any (fun isghost => isghost))

/-- Modelled from the spec: the candidates scanned by `localBalance`: the
octants that participate in the 2:1 enforcement, "restricted to newly touched
ones if `doNew`, including interior octants with no ghost dependency only if
`doInterior`". -/
def LocalTree.isCandidate (t : LocalTree) (doNew doInterior : Bool) (oct : Octant) : Bool :=
  oct.balanceEligible && (!doNew || oct.isNew) && (doInterior || t.hasGhostNeighbour oct)

/-- Modelled from the spec: whether a neighbour found for the octant is more
than one level finer. -/
def LocalTree.needsRefinement (t : LocalTree) (oct : Octant) : Bool :=
  (balanceDirections t.m_dim t.m_balanceCodim).any (fun direction =>
    (t.neighbourLevels oct direction).any (fun level => decide (oct.level + 1 < level)))

/-- Modelled from the spec: the scan of the candidates, "raising `marker` on any
octant whose neighbor is more than one level finer". -/
def LocalTree.raiseMarkers (t : LocalTree) (doNew doInterior : Bool) : LocalTree :=
  { t with m_octants := t.m_octants.map (fun oct =>
      if t.isCandidate doNew doInterior oct && t.needsRefinement oct && decide (oct.marker < 1) then
        { oct with marker := 1 }
      else oct) }

/-- Modelled from the spec: whether a scan of the candidates produces markers. -/
def LocalTree.producesMarkers (t : LocalTree) (doNew doInterior : Bool) : Bool :=
  t.m_octants.any (fun oct => t.isCandidate doNew doInterior oct && t.needsRefinement oct)

/-- Modelled from the spec: `LocalTree::localBalance(doNew, doInterior)` (the
body is missing): the candidates are scanned, the pending refine markers are
applied and the neighbours recomputed, until a pass produces no markers.  `fuel`
bounds the number of passes: there is no result when it does not suffice to
converge. -/
def LocalTree.localBalance : Nat → LocalTree → Bool → Bool → Option LocalTree
  | 0, _, _, _ => none
  | fuel + 1, t, doNew, doInterior =>
    if t.producesMarkers doNew doInterior then
      LocalTree.localBalance fuel (t.raiseMarkers doNew doInterior).refine doNew doInterior
    else some t

/-- Constants of a two-dimensional tree with the levels 0 to 3. -/
def deepConstants : TreeConstants :=
  ⟨2, 3⟩

/-- A two-dimensional tree with an octant of level 1 next to octants of level 3,
which are the children of the first child of the quadrant at `(4, 0)`. -/
def steepTree : LocalTree :=
  { m_octants := [⟨0, 0, 0, 1, 0, true, false⟩, ⟨4, 0, 0, 3, 0, true, false⟩,
      ⟨5, 0, 0, 3, 0, true, false⟩, ⟨4, 1, 0, 3, 0, true, false⟩, ⟨5, 1, 0, 3, 0, true, false⟩,
      ⟨6, 0, 0, 2, 0, true, false⟩, ⟨4, 2, 0, 2, 0, true, false⟩, ⟨6, 2, 0, 2, 0, true, false⟩,
      ⟨0, 4, 0, 1, 0, true, false⟩, ⟨4, 4, 0, 1, 0, true, false⟩]
    m_ghosts := []
    m_globalIdxGhosts := []
    m_firstDescMorton := 3
    m_lastDescMorton := 255
    m_localMaxDepth := 3
    m_balanceCodim := 1
    m_dim := 2
    m_treeConstants := deepConstants
    m_periodic := [false, false, false, false] }

/-- The tree `steepTree` after one pass of the balance: the octant of level 1 is
replaced by its children. -/
def balancedTree : LocalTree :=
  (steepTree.raiseMarkers false true).refine

/-- A bound on the number of passes that `localBalance` can still make: each
octant counts for `(2^dim + 1)^(maxLevel - level)`, which is more than its
children count for together. -/
def refinementWeight (tc : TreeConstants) (octants : List Octant) : Nat :=
  (octants.map (fun o => (2 ^ tc.dim + 1) ^ (tc.maxLevel - o.level))).sum

/-- Modelled from the spec: `LocalTree::preBalance21(bool internal)` (the body
is missing): it "seeds markers by comparing every newly created/modified octant
against its current neighbors" and "raising `marker` on any octant whose
neighbor is more than one level finer"; the octants with no ghost dependency
are compared only if `internal`. -/
def LocalTree.preBalance21 (t : LocalTree) (internal : Bool) : LocalTree :=
  t.raiseMarkers true internal

/-- Modelled from the spec: `LocalTree::preBalance21(u32vector & newmodified)`
(the body is missing): the same seeding, where the newly created or modified
octants are those whose index is in `newmodified`.  What the function writes
to the list is not modelled. -/
def LocalTree.preBalance21Modified (t : LocalTree) (newmodified : List Nat) : LocalTree :=
  { t with m_octants := t.m_octants.enum.map (fun entry =>
      if newmodified.contains entry.1 && entry.2.balanceEligible &&
          t.needsRefinement entry.2 && decide (entry.2.marker < 1) then
        { entry.2 with marker := 1 }
      else entry.2) }

/-- The tree `steepTree` with two ghosts and their global indices, its octants
flagged as newly created. -/
def borderTree : LocalTree :=
  { steepTree with
    m_octants := steepTree.m_octants.map (fun o => { o with isNew := true })
    m_ghosts := [⟨0, 0, 0, 3, 0, true, false⟩, ⟨1, 0, 0, 3, -1, false, true⟩]
    m_globalIdxGhosts := [17, 18] }

/-- A triangle whose storage has one entry. -/
def shortTriangle : Element :=
  ⟨0, ElementType.TRIANGLE, 5, some [7]⟩

/-- A tree whose sequence holds the octant of level 0, marked for refinement,
and its first child. -/
def overlappingTree : LocalTree :=
  { sampleTree with
    m_octants := [⟨0, 0, 0, 0, 1, true, false⟩, ⟨0, 0, 0, 1, 0, true, false⟩] }

/-! ## Theorems -/

theorem unsupportedTile_fails {P : Type} (unreachable : String → Except Failure Unit) :
    ∃ f, (unsupportedTile unreachable : Except Failure (Tesselation P)) = .error f ∧
      (unreachable "Unsupported tile" = .ok () → f = Failure.runtime_error "Unsupported tile") := by
  unfold unsupportedTile
  cases h : unreachable "Unsupported tile" with
  | error e => exact ⟨e, rfl, fun h' => by cases h'⟩
  | ok u => exact ⟨_, rfl, fun _ => rfl⟩

theorem convertTile_bad {P : Type} (unreachable : String → Except Failure Unit) (centroidId : Int)
    (i : Nat) (t : Tesselation P) (ty : ElementType) (hty : t.m_types[i]? = some ty)
    (h3 : ty ≠ ElementType.TRIANGLE) (h4 : ty ≠ ElementType.QUAD) :
    convertTile unreachable centroidId i t = unsupportedTile unreachable := by
  have hget : t.m_types.getD i ElementType.UNDEFINED = ty := by
    simp [List.getD, hty]
  unfold convertTile unsupportedTile
  simp only [hget, h3, h4, if_false]
  cases h : unreachable "Unsupported tile" <;> rfl

theorem convertTile_good {P : Type} (unreachable : String → Except Failure Unit) (centroidId : Int)
    (i : Nat) (t : Tesselation P) :
    convertTile unreachable centroidId i t = unsupportedTile unreachable ∨
    ∃ t1, convertTile unreachable centroidId i t = .ok t1 ∧
      ∀ j, j ≠ i → t1.m_types[j]? = t.m_types[j]? := by
  unfold convertTile unsupportedTile
  by_cases h3 : t.m_types.getD i ElementType.UNDEFINED = ElementType.TRIANGLE
  · right
    refine ⟨_, by simp only [h3, if_true]; rfl, ?_⟩
    intro j hj
    simp [List.getElem?_set, Ne.symm hj]
  · by_cases h4 : t.m_types.getD i ElementType.UNDEFINED = ElementType.QUAD
    · right
      refine ⟨_, by simp only [h4, if_true]; rfl, ?_⟩
      intro j hj
      simp [List.getElem?_set, Ne.symm hj]
    · left
      simp only [h3, h4, if_false]
      cases h : unreachable "Unsupported tile" <;> rfl

theorem convertTiles_bad {P : Type} (unreachable : String → Except Failure Unit) (centroidId : Int)
    (n : Nat) : ∀ (i : Nat) (t : Tesselation P) (j : Nat) (ty : ElementType),
    i ≤ j → j < i + n → t.m_types[j]? = some ty →
    ty ≠ ElementType.TRIANGLE → ty ≠ ElementType.QUAD →
    convertTiles unreachable centroidId n i t = unsupportedTile unreachable := by
  induction n with
  | zero => intro i t j ty h1 h2; omega
  | succ n ih =>
    intro i t j ty h1 h2 hty h3 h4
    unfold convertTiles
    by_cases hij : j = i
    · subst hij
      rw [convertTile_bad unreachable centroidId j t ty hty h3 h4]
      unfold unsupportedTile
      cases h : unreachable "Unsupported tile" <;> rfl
    · rcases convertTile_good unreachable centroidId i t with h | ⟨t1, h, hk⟩
      · rw [h]
        unfold unsupportedTile
        cases h : unreachable "Unsupported tile" <;> rfl
      · rw [h]
        have := ih (i + 1) t1 j ty (by omega) (by omega) (by rw [hk j hij]; exact hty) h3 h4
        simpa [bind, Except.bind] using this

/-- C1: when the surface tesselation made by `importPolyhedron` holds a tile
whose type is neither TRIANGLE nor QUAD, `importPolyhedron` fails: it does not
return a tesselation, and once the diagnostic macro `BITPIT_UNREACHABLE` lets
the control through, the failure is the exception
`std::runtime_error("Unsupported tile")`. -/
theorem importPolyhedron_unsupported_tile {P : Type} (info : InfoTable) (ar : PointArith P)
    (unreachable : String → Except Failure Unit) (t t1 : Tesselation P)
    (vertexIds : List Int) (faceVertexIds : List (List Int))
    (hsurface : importFaces info ar t faceVertexIds = .ok t1)
    (i : Nat) (ty : ElementType) (hlo : t.m_nTiles ≤ i) (hhi : i < t1.m_nTiles)
    (hty : t1.m_types[i]? = some ty)
    (h3 : ty ≠ ElementType.TRIANGLE) (h4 : ty ≠ ElementType.QUAD) :
    ∃ f, t.importPolyhedron info ar unreachable vertexIds faceVertexIds = .error f ∧
      (unreachable "Unsupported tile" = .ok () → f = Failure.runtime_error "Unsupported tile") := by
  have hrun : t.importPolyhedron info ar unreachable vertexIds faceVertexIds =
      unsupportedTile unreachable := by
    unfold Tesselation.importPolyhedron
    rw [hsurface]
    simp only [bind, Except.bind, Tesselation.importVertexCoordinates]
    exact convertTiles_bad unreachable _ _ _ _ i ty hlo (by omega) hty h3 h4
  rw [hrun]
  exact unsupportedTile_fails unreachable

theorem importPolyhedron_unsupported_tile_witness :
    importFaces planarInfo unitArith staleTesselation [[0, 1, 2]] = .ok staleSurface ∧
    staleTesselation.m_nTiles ≤ 0 ∧ 0 < staleSurface.m_nTiles ∧
    staleSurface.m_types[0]? = some ElementType.HEXAHEDRON ∧
    ∃ f, staleTesselation.importPolyhedron planarInfo unitArith (fun _ => .ok ()) [0, 1, 2]
        [[0, 1, 2]] = .error f ∧
      ((fun _ => .ok ()) "Unsupported tile" = (.ok () : Except Failure Unit) →
        f = Failure.runtime_error "Unsupported tile") :=
  ⟨rfl, by decide, by decide, rfl,
    importPolyhedron_unsupported_tile planarInfo unitArith (fun _ => .ok ()) staleTesselation
      staleSurface [0, 1, 2] [[0, 1, 2]] rfl 0 ElementType.HEXAHEDRON (by decide) (by decide) rfl
      (by decide) (by decide)⟩

/-! ### Loops, storages and face streams -/

theorem forRange_steps {σ : Type} (body : Int → σ → Option σ) (n : Nat) :
    ∀ (first : Int) (S : Nat → σ),
    (∀ j, j < n → body (first + (j : Int)) (S j) = some (S (j + 1))) →
    forRange body n first (S 0) = some (S n) := by
  induction n with
  | zero => intro first S _; rfl
  | succ n ih =>
    intro first S h
    have h0 := h 0 (Nat.succ_pos n)
    simp only [Nat.cast_zero, add_zero] at h0
    unfold forRange
    rw [h0]
    simp only [Option.some_bind]
    exact ih (first + 1) (fun j => S (j + 1)) (fun j hj => by
      have := h (j + 1) (by omega)
      rw [← this]
      congr 1
      push_cast
      ring)

theorem forLoop_steps {σ : Type} (body : Int → σ → Option σ) (first last : Int) (n : Nat)
    (hn : (last - first).toNat = n) (S : Nat → σ)
    (h : ∀ j, j < n → body (first + (j : Int)) (S j) = some (S (j + 1))) :
    forLoop first last body (S 0) = some (S n) := by
  unfold forLoop
  rw [hn]
  exact forRange_steps body n first S h

theorem encodeFaces_length (faces : List (List Int)) :
    (encodeFaces faces).length = (faces.map (fun face => 1 + face.length)).sum := by
  induction faces with
  | nil => rfl
  | cons face faces ih => simp [encodeFaces, ih]; omega

theorem faceStreamOf_length (faces : List (List Int)) :
    (faceStreamOf faces).length = facePosition faces faces.length := by
  simp [faceStreamOf, facePosition, encodeFaces_length]
  omega

theorem facePosition_succ (faces : List (List Int)) (f : Nat) (face : List Int)
    (hf : faces[f]? = some face) :
    facePosition faces (f + 1) = facePosition faces f + 1 + face.length := by
  induction faces generalizing f with
  | nil => simp at hf
  | cons a faces ih =>
    cases f with
    | zero =>
      simp at hf
      subst hf
      simp [facePosition]
      omega
    | succ f =>
      simp at hf
      have := ih f hf
      simp [facePosition] at this ⊢
      omega

theorem encodeFaces_count (faces : List (List Int)) : ∀ (f : Nat) (face : List Int),
    faces[f]? = some face →
    (encodeFaces faces)[((faces.take f).map (fun face => 1 + face.length)).sum]? =
      some (face.length : Int) := by
  induction faces with
  | nil => intro f face hf; simp at hf
  | cons a faces ih =>
    intro f face hf
    cases f with
    | zero =>
      simp at hf
      subst hf
      simp [encodeFaces]
    | succ f =>
      simp at hf
      have := ih f face hf
      simp only [List.take_succ_cons, List.map_cons, List.sum_cons, encodeFaces]
      rw [show 1 + a.length + ((faces.take f).map (fun face => 1 + face.length)).sum =
        (a.length + ((faces.take f).map (fun face => 1 + face.length)).sum) + 1 by omega]
      rw [List.getElem?_cons_succ, List.getElem?_append_right (by omega)]
      simpa using this

theorem encodeFaces_vertex (faces : List (List Int)) : ∀ (f : Nat) (face : List Int),
    faces[f]? = some face → ∀ k, k < face.length →
    (encodeFaces faces)[((faces.take f).map (fun face => 1 + face.length)).sum + 1 + k]? =
      face[k]? := by
  induction faces with
  | nil => intro f face hf; simp at hf
  | cons a faces ih =>
    intro f face hf k hk
    cases f with
    | zero =>
      simp at hf
      subst hf
      simp only [List.take_zero, List.map_nil, List.sum_nil, encodeFaces]
      rw [show 0 + 1 + k = k + 1 by omega, List.getElem?_cons_succ,
        List.getElem?_append_left hk]
    | succ f =>
      simp at hf
      have := ih f face hf k hk
      simp only [List.take_succ_cons, List.map_cons, List.sum_cons, encodeFaces]
      rw [show 1 + a.length + ((faces.take f).map (fun face => 1 + face.length)).sum + 1 + k =
        (a.length + (((faces.take f).map (fun face => 1 + face.length)).sum + 1 + k)) + 1 by omega]
      rw [List.getElem?_cons_succ, List.getElem?_append_right (by omega)]
      simpa using this

theorem faceStreamOf_count (faces : List (List Int)) (f : Nat) (face : List Int)
    (hf : faces[f]? = some face) :
    (faceStreamOf faces)[facePosition faces f]? = some (face.length : Int) := by
  unfold faceStreamOf facePosition
  rw [show 1 + ((faces.take f).map (fun face => 1 + face.length)).sum =
    ((faces.take f).map (fun face => 1 + face.length)).sum + 1 by omega, List.getElem?_cons_succ]
  exact encodeFaces_count faces f face hf

theorem faceStreamOf_vertex (faces : List (List Int)) (f : Nat) (face : List Int)
    (hf : faces[f]? = some face) (k : Nat) (hk : k < face.length) :
    (faceStreamOf faces)[facePosition faces f + 1 + k]? = face[k]? := by
  unfold faceStreamOf facePosition
  rw [show 1 + ((faces.take f).map (fun face => 1 + face.length)).sum + 1 + k =
    (((faces.take f).map (fun face => 1 + face.length)).sum + 1 + k) + 1 by omega,
    List.getElem?_cons_succ]
  exact encodeFaces_vertex faces f face hf k hk

theorem faceStreamOf_head (faces : List (List Int)) :
    (faceStreamOf faces)[0]? = some (faces.length : Int) := by
  simp [faceStreamOf]

theorem facePosition_zero (faces : List (List Int)) : facePosition faces 0 = 1 := rfl

theorem facePosition_lt (faces : List (List Int)) (f : Nat) (face : List Int)
    (hf : faces[f]? = some face) :
    facePosition faces f + 1 + face.length ≤ (faceStreamOf faces).length := by
  have h1 := faceStreamOf_length faces
  have h2 := facePosition_succ faces f face hf
  have hlt : f < faces.length := by
    by_contra hc
    rw [List.getElem?_eq_none (by omega)] at hf
    cases hf
  have h3 : facePosition faces (f + 1) ≤ facePosition faces faces.length := by
    unfold facePosition
    have : faces.take (f + 1) = (faces.take faces.length).take (f + 1) := by
      rw [List.take_take]; congr 1; omega
    rw [this]
    have hsub := List.Sublist.sum_le_sum ((List.take_sublist (f + 1) (faces.take faces.length)).map
      (fun face => 1 + face.length)) (fun _ _ => Nat.zero_le _)
    omega
  omega

theorem readAt_natCast (d : List Int) (n : Nat) : readAt d (n : Int) = d[n]? := by
  simp [readAt]

theorem readAt_of_eq (d : List Int) (i : Int) (n : Nat) (h : i = (n : Int)) :
    readAt d i = d[n]? := by
  subst h; exact readAt_natCast d n

theorem writeAt_of_eq (d : List Int) (i : Int) (n : Nat) (x : Int) (h : i = (n : Int))
    (hn : n < d.length) : writeAt d i x = some (d.set n x) := by
  subst h
  simp [writeAt, hn]

theorem forRange_succ_last {σ : Type} (body : Int → σ → Option σ) (n : Nat) :
    ∀ (first : Int) (s : σ),
    forRange body (n + 1) first s = (forRange body n first s).bind (body (first + (n : Int))) := by
  induction n with
  | zero =>
    intro first s
    simp [forRange]
  | succ n ih =>
    intro first s
    rw [forRange]
    cases h : body first s with
    | none => simp [forRange, h]
    | some s1 =>
      simp only [Option.some_bind]
      rw [ih (first + 1) s1]
      conv_rhs => rw [forRange, h]
      simp only [Option.some_bind]
      have hk : first + 1 + (n : Int) = first + ((n + 1 : Nat) : Int) := by
        push_cast; omega
      rw [hk]

theorem narrowToInt_of_range (x : Int) (hlow : -(2 ^ 31 : Int) ≤ x) (hhigh : x < 2 ^ 31) :
    narrowToInt x = x := by
  unfold narrowToInt
  omega

theorem narrowToInt_range (x : Int) :
    -(2 ^ 31 : Int) ≤ narrowToInt x ∧ narrowToInt x < 2 ^ 31 := by
  unfold narrowToInt
  omega

/-- The step of the loop when the new position is an `int`. -/
theorem nextFacePosition_exact (connectivity : List Int) (p n : Int)
    (hn : readAt connectivity p = some n) (hp : -(2 ^ 31 : Int) ≤ p ∧ p < 2 ^ 31)
    (hlow : -(2 ^ 31 : Int) ≤ p + 1 + n) (hhigh : p + 1 + n < 2 ^ 31) :
    nextFacePosition connectivity p = some (p + 1 + n) := by
  unfold nextFacePosition longAdd
  simp only [hn, Option.bind_eq_bind, Option.some_bind, Option.pure_def]
  rw [if_pos (by omega)]
  simp only [Option.some_bind]
  rw [if_pos (by omega), Option.some_bind, narrowToInt_of_range _ (by omega) (by omega)]
  congr 1
  omega

/-- The step of the loop when the two sums are `long` values: the new position
is the sum converted to `int`. -/
theorem nextFacePosition_narrow (connectivity : List Int) (p n : Int)
    (hn : readAt connectivity p = some n)
    (hstep : -(2 ^ 63 : Int) ≤ 1 + n ∧ 1 + n < 2 ^ 63)
    (hsum : -(2 ^ 63 : Int) ≤ p + 1 + n ∧ p + 1 + n < 2 ^ 63) :
    nextFacePosition connectivity p = some (narrowToInt (p + 1 + n)) := by
  unfold nextFacePosition longAdd
  simp only [hn, Option.bind_eq_bind, Option.some_bind, Option.pure_def]
  rw [if_pos hstep]
  simp only [Option.some_bind]
  rw [if_pos (by omega), Option.some_bind]
  congr 2
  omega

theorem take_sum_le (l : List Nat) : ∀ a : Nat, (l.take a).sum ≤ l.sum := by
  induction l with
  | nil => intro a; simp
  | cons x l ih =>
    intro a
    cases a with
    | zero => simp
    | succ a =>
      rw [List.take_succ_cons, List.sum_cons, List.sum_cons]
      have := ih a
      omega

theorem facePosition_mono (faces : List (List Int)) (a b : Nat) (hab : a ≤ b) :
    facePosition faces a ≤ facePosition faces b := by
  unfold facePosition
  have htake : faces.take a = (faces.take b).take a := by
    rw [List.take_take]; congr 1; omega
  rw [htake, List.map_take]
  have := take_sum_le ((faces.take b).map (fun face => 1 + face.length)) a
  omega

theorem facePosition_le_length (faces : List (List Int)) (f : Nat) :
    facePosition faces f ≤ (faceStreamOf faces).length := by
  rw [faceStreamOf_length]
  by_cases hf : f ≤ faces.length
  · exact facePosition_mono faces f faces.length hf
  · unfold facePosition
    rw [List.take_of_length_le (by omega), List.take_length]

/-- The positions computed by `getFaceStreamPosition` on a storage that holds,
at the position of every face before `f`, the number of vertices of that face,
when the position of face `f` is an `int`. -/
theorem getFaceStreamPosition_of_counts (faces : List (List Int)) (d : List Int) (f : Nat)
    (hd : ∀ j face, j < f → faces[j]? = some face →
      d[facePosition faces j]? = some (face.length : Int))
    (hf : f ≤ faces.length) (hbound : facePosition faces f < 2 ^ 31) :
    getFaceStreamPosition d (f : Int) = some (facePosition faces f : Int) := by
  unfold getFaceStreamPosition
  have := forLoop_steps (fun _ position => nextFacePosition d position) 0 (f : Int) f (by simp)
    (fun j => (facePosition faces j : Int)) (fun j hj => by
      have hj2 : j < faces.length := by omega
      have hface : faces[j]? = some faces[j] := List.getElem?_eq_getElem hj2
      have hnext := facePosition_succ faces j _ hface
      have hmono := facePosition_mono faces (j + 1) f (by omega)
      have hread : readAt d (facePosition faces j : Int) = some (faces[j].length : Int) := by
        rw [readAt_natCast]; exact hd j _ hj hface
      beta_reduce
      rw [nextFacePosition_exact d _ _ hread (by omega) (by omega) (by omega)]
      congr 1
      push_cast [hnext]
      omega)
  simpa [facePosition_zero] using this

theorem getFaceStreamPosition_faceStreamOf (faces : List (List Int)) (f : Nat)
    (hf : f ≤ faces.length) (hsize : (faceStreamOf faces).length < 2 ^ 31) :
    getFaceStreamPosition (faceStreamOf faces) (f : Int) = some (facePosition faces f : Int) :=
  getFaceStreamPosition_of_counts faces _ f
    (fun j face _ hface => faceStreamOf_count faces j face hface) hf
    (lt_of_le_of_lt (facePosition_le_length faces f) hsize)

theorem getFaceStreamPosition_unfold (connectivity : List Int) (f : Nat) :
    getFaceStreamPosition connectivity ((f : Int) + 1) =
      (getFaceStreamPosition connectivity (f : Int)).bind (nextFacePosition connectivity) := by
  unfold getFaceStreamPosition forLoop
  have h1 : ((f : Int) + 1 - 0).toNat = f + 1 := by omega
  have h0 : ((f : Int) - 0).toNat = f := by omega
  rw [h1, h0, forRange_succ_last]

theorem getFaceStreamPosition_range (connectivity : List Int) (f : Nat) (p : Int)
    (hp : getFaceStreamPosition connectivity (f : Int) = some p) :
    -(2 ^ 31 : Int) ≤ p ∧ p < 2 ^ 31 := by
  cases f with
  | zero =>
    have h1 : getFaceStreamPosition connectivity ((0 : Nat) : Int) = some 1 := rfl
    rw [h1] at hp
    cases hp
    constructor <;> decide
  | succ f =>
    rw [Nat.cast_succ, getFaceStreamPosition_unfold] at hp
    cases hq : getFaceStreamPosition connectivity (f : Int) with
    | none => rw [hq] at hp; cases hp
    | some q =>
      rw [hq, Option.some_bind] at hp
      unfold nextFacePosition at hp
      cases hn : readAt connectivity q with
      | none => rw [hn] at hp; cases hp
      | some n =>
        rw [hn] at hp
        simp only [Option.bind_eq_bind, Option.some_bind, Option.pure_def] at hp
        cases hs : longAdd 1 n with
        | none => rw [hs] at hp; cases hp
        | some step =>
          rw [hs, Option.some_bind] at hp
          cases ht : longAdd q step with
          | none => rw [ht] at hp; cases hp
          | some total =>
            rw [ht, Option.some_bind] at hp
            cases hp
            exact narrowToInt_range total

theorem getFaceStreamPosition_succ (connectivity : List Int) (f : Nat) (p n : Int)
    (hp : getFaceStreamPosition connectivity (f : Int) = some p)
    (hn : readAt connectivity p = some n)
    (hlow : -(2 ^ 31 : Int) ≤ p + 1 + n) (hhigh : p + 1 + n < 2 ^ 31) :
    getFaceStreamPosition connectivity ((f : Int) + 1) = some (p + 1 + n) := by
  rw [getFaceStreamPosition_unfold, hp, Option.some_bind]
  exact nextFacePosition_exact connectivity p n hn
    (getFaceStreamPosition_range connectivity f p hp) hlow hhigh

theorem getFaceStreamPosition_succ_narrow (connectivity : List Int) (f : Nat) (p n : Int)
    (hp : getFaceStreamPosition connectivity (f : Int) = some p)
    (hn : readAt connectivity p = some n)
    (hstep : -(2 ^ 63 : Int) ≤ 1 + n ∧ 1 + n < 2 ^ 63)
    (hsum : -(2 ^ 63 : Int) ≤ p + 1 + n ∧ p + 1 + n < 2 ^ 63) :
    getFaceStreamPosition connectivity ((f : Int) + 1) = some (narrowToInt (p + 1 + n)) := by
  rw [getFaceStreamPosition_unfold, hp, Option.some_bind]
  exact nextFacePosition_narrow connectivity p n hn hstep hsum

/-- C5: `getFaceStreamPosition(connectivity, f)` is the index of the vertex
count of face `f`.  It is 1 for `f = 0`; on every storage, when the position of
face `f` is `p`, the entry at `p` is `n` and `p + 1 + n` is an `int`, the
position of face `f + 1` is `p + 1 + n` (in general it is `p + 1 + n` converted
to `int`, the sums being formed in `long`); and on the face stream of a list of
faces the position of face `f` is one plus the sum, over the faces before `f`,
of one plus their number of vertices, the entry at that position being the
number of vertices of face `f`. -/
theorem getFaceStreamPosition_spec (faces : List (List Int))
    (hsize : (faceStreamOf faces).length < 2 ^ 31) :
    (∀ connectivity : List Int, getFaceStreamPosition connectivity 0 = some 1) ∧
    (∀ (connectivity : List Int) (f : Nat) (p n : Int),
      getFaceStreamPosition connectivity (f : Int) = some p →
      readAt connectivity p = some n →
      -(2 ^ 31 : Int) ≤ p + 1 + n → p + 1 + n < 2 ^ 31 →
      getFaceStreamPosition connectivity ((f : Int) + 1) = some (p + 1 + n)) ∧
    (∀ (connectivity : List Int) (f : Nat) (p n : Int),
      getFaceStreamPosition connectivity (f : Int) = some p →
      readAt connectivity p = some n →
      (-(2 ^ 63 : Int) ≤ 1 + n ∧ 1 + n < 2 ^ 63) →
      (-(2 ^ 63 : Int) ≤ p + 1 + n ∧ p + 1 + n < 2 ^ 63) →
      getFaceStreamPosition connectivity ((f : Int) + 1) =
        some ((p + 1 + n + 2 ^ 31) % 2 ^ 32 - 2 ^ 31)) ∧
    (∀ f : Nat, f ≤ faces.length →
      getFaceStreamPosition (faceStreamOf faces) (f : Int) =
        some ((1 + ((faces.take f).map (fun face => 1 + face.length)).sum : Nat) : Int)) ∧
    (∀ (f : Nat) (face : List Int), faces[f]? = some face →
      ∃ p : Int, getFaceStreamPosition (faceStreamOf faces) (f : Int) = some p ∧
        readAt (faceStreamOf faces) p = some (face.length : Int) ∧
        getFaceStreamPosition (faceStreamOf faces) ((f : Int) + 1) =
          some (p + 1 + (face.length : Int))) := by
  refine ⟨fun _ => rfl, getFaceStreamPosition_succ, getFaceStreamPosition_succ_narrow, ?_, ?_⟩
  · intro f hf
    exact getFaceStreamPosition_faceStreamOf faces f hf hsize
  · intro f face hface
    have hlt : f < faces.length := by
      by_contra hc
      rw [List.getElem?_eq_none (by omega)] at hface
      cases hface
    have hp := getFaceStreamPosition_faceStreamOf faces f (by omega) hsize
    have hn : readAt (faceStreamOf faces) (facePosition faces f : Int) =
        some (face.length : Int) := by
      rw [readAt_natCast]; exact faceStreamOf_count faces f face hface
    have hnext := getFaceStreamPosition_faceStreamOf faces (f + 1) (by omega) hsize
    rw [facePosition_succ faces f face hface] at hnext
    refine ⟨_, hp, hn, ?_⟩
    rw [Nat.cast_succ] at hnext
    rw [hnext]
    congr 1

theorem getFaceStreamPosition_spec_witness :
    (faceStreamOf [[5, 6, 7], [7, 6, 9, 10]]).length < 2 ^ 31 ∧
    getFaceStreamPosition (faceStreamOf [[5, 6, 7], [7, 6, 9, 10]]) 2 = some 10 :=
  ⟨by decide,
    (getFaceStreamPosition_spec [[5, 6, 7], [7, 6, 9, 10]] (by decide)).2.2.2.1 2 (by decide)⟩

/-- The conversion to `int` of a position: on a storage whose first face
announces `4294967299` vertices, the position of face 1 is 5, not
`4294967301`. -/
theorem getFaceStreamPosition_narrowed :
    getFaceStreamPosition [2, 4294967299, 0, 0, 0, 3, 1, 2, 3] 1 = some 5 ∧
    getFaceStreamPosition [2, 4294967299, 0, 0, 0, 3, 1, 2, 3] 2 = some 9 := by
  decide

/-! ### Vertex ids of a polyhedron -/

theorem lookup_isSome_iff (u : List (Int × Nat)) (v : Int) :
    (u.lookup v).isSome = true ↔ v ∈ u.map Prod.fst := by
  induction u with
  | nil => simp
  | cons e u ih =>
    obtain ⟨k, b⟩ := e
    by_cases h : v = k
    · subst h; simp [List.lookup]
    · have h' : (v == k) = false := by simpa using h
      simp [List.lookup, h', ih, h]

theorem uniqueAfter_snoc (l : List Int) (v : Int) :
    uniqueAfter (l ++ [v]) =
      if ((uniqueAfter l).lookup v).isSome then uniqueAfter l
      else uniqueAfter l ++ [(v, (uniqueAfter l).length)] := by
  simp [uniqueAfter, List.foldl_append]

theorem uniqueAfter_keys_snoc (l : List Int) (v : Int) :
    (uniqueAfter (l ++ [v])).map Prod.fst =
      if v ∈ (uniqueAfter l).map Prod.fst then (uniqueAfter l).map Prod.fst
      else (uniqueAfter l).map Prod.fst ++ [v] := by
  rw [uniqueAfter_snoc]
  by_cases h : v ∈ (uniqueAfter l).map Prod.fst
  · rw [if_pos ((lookup_isSome_iff _ _).2 h), if_pos h]
  · rw [if_neg (fun hc => h ((lookup_isSome_iff _ _).1 hc)), if_neg h]
    simp

theorem uniqueAfter_mem (l : List Int) (v : Int) :
    v ∈ (uniqueAfter l).map Prod.fst ↔ v ∈ l := by
  induction l using List.reverseRecOn with
  | nil => simp [uniqueAfter]
  | append_singleton l a ih =>
    rw [uniqueAfter_keys_snoc]
    by_cases h : a ∈ (uniqueAfter l).map Prod.fst
    · rw [if_pos h, List.mem_append, ih]
      constructor
      · intro hv; exact Or.inl hv
      · rintro (hv | hv)
        · exact hv
        · rw [List.mem_singleton] at hv; subst hv; exact ih.1 h
    · rw [if_neg h, List.mem_append, List.mem_append, ih]

theorem uniqueAfter_nodup (l : List Int) : ((uniqueAfter l).map Prod.fst).Nodup := by
  induction l using List.reverseRecOn with
  | nil => simp [uniqueAfter]
  | append_singleton l a ih =>
    rw [uniqueAfter_keys_snoc]
    by_cases h : a ∈ (uniqueAfter l).map Prod.fst
    · rw [if_pos h]; exact ih
    · rw [if_neg h]
      exact List.Nodup.append ih (List.nodup_singleton a) (by
        intro x hx hx'
        rw [List.mem_singleton] at hx'
        subst hx'
        exact h hx)

theorem uniqueAfter_index (l : List Int) : ∀ (i : Nat) (e : Int × Nat),
    (uniqueAfter l)[i]? = some e → e.2 = i := by
  induction l using List.reverseRecOn with
  | nil => intro i e h; simp [uniqueAfter] at h
  | append_singleton l a ih =>
    intro i e h
    rw [uniqueAfter_snoc] at h
    split at h
    · exact ih i e h
    · by_cases hi : i < (uniqueAfter l).length
      · rw [List.getElem?_append_left hi] at h
        exact ih i e h
      · rw [List.getElem?_append_right (by omega)] at h
        have hi0 : i - (uniqueAfter l).length = 0 := by
          by_contra hc
          rw [List.getElem?_eq_none (by simp; omega)] at h
          cases h
        rw [hi0] at h
        simp at h
        subst h
        simp
        omega

theorem uniqueAfter_order (l : List Int) : ∀ (i j : Nat) (a b : Int), i < j →
    ((uniqueAfter l).map Prod.fst)[i]? = some a →
    ((uniqueAfter l).map Prod.fst)[j]? = some b →
    l.indexOf a < l.indexOf b := by
  induction l using List.reverseRecOn with
  | nil => intro i j a b _ h; simp [uniqueAfter] at h
  | append_singleton l v ih =>
    intro i j a b hij ha hb
    rw [uniqueAfter_keys_snoc] at ha hb
    by_cases h : v ∈ (uniqueAfter l).map Prod.fst
    · rw [if_pos h] at ha hb
      have hal : a ∈ l := (uniqueAfter_mem l a).1 (List.mem_iff_getElem?.2 ⟨_, ha⟩)
      have hbl : b ∈ l := (uniqueAfter_mem l b).1 (List.mem_iff_getElem?.2 ⟨_, hb⟩)
      rw [List.indexOf_append_of_mem hal, List.indexOf_append_of_mem hbl]
      exact ih i j a b hij ha hb
    · rw [if_neg h] at ha hb
      have hvl : v ∉ l := fun hc => h ((uniqueAfter_mem l v).2 hc)
      have hlen : ((uniqueAfter l).map Prod.fst).length = (uniqueAfter l).length :=
        List.length_map _ _
      by_cases hj : j < ((uniqueAfter l).map Prod.fst).length
      · rw [List.getElem?_append_left hj] at hb
        rw [List.getElem?_append_left (by omega)] at ha
        have hal : a ∈ l := (uniqueAfter_mem l a).1 (List.mem_iff_getElem?.2 ⟨_, ha⟩)
        have hbl : b ∈ l := (uniqueAfter_mem l b).1 (List.mem_iff_getElem?.2 ⟨_, hb⟩)
        rw [List.indexOf_append_of_mem hal, List.indexOf_append_of_mem hbl]
        exact ih i j a b hij ha hb
      · rw [List.getElem?_append_right (by omega)] at hb
        have hj0 : j - ((uniqueAfter l).map Prod.fst).length = 0 := by
          by_contra hc
          rw [List.getElem?_eq_none (by simp; omega)] at hb
          cases hb
        rw [hj0] at hb
        simp at hb
        subst hb
        rw [List.getElem?_append_left (by omega)] at ha
        have hal : a ∈ l := (uniqueAfter_mem l a).1 (List.mem_iff_getElem?.2 ⟨_, ha⟩)
        rw [List.indexOf_append_of_mem hal, List.indexOf_append_of_not_mem hvl]
        have := List.indexOf_lt_length.2 hal
        omega

theorem fillVertexIds_aux : ∀ (suf : List (Int × Nat)) (done : List Int),
    (∀ i e, suf[i]? = some e → e.2 = done.length + i) →
    suf.foldlM (fun storage entry => writeAt storage entry.2 entry.1)
      (done ++ List.replicate suf.length 0) = some (done ++ suf.map Prod.fst) := by
  intro suf
  induction suf with
  | nil => intro done _; simp [pure]
  | cons e suf ih =>
    intro done h
    have h0 : e.2 = done.length := by simpa using h 0 e (by simp)
    have hw : writeAt (done ++ List.replicate (e :: suf).length 0) (e.2 : Int) e.1 =
        some ((done ++ [e.1]) ++ List.replicate suf.length 0) := by
      rw [writeAt_of_eq _ _ e.2 _ rfl (by simp; omega), h0, List.set_append]
      simp [List.replicate_succ]
    rw [List.foldlM_cons, hw]
    have := ih (done ++ [e.1]) (fun i e' he' => by
      have := h (i + 1) e' (by simpa using he')
      simp; omega)
    simpa using this

theorem fillVertexIds_uniqueAfter (l : List Int) :
    fillVertexIds (uniqueAfter l) = some ((uniqueAfter l).map Prod.fst) := by
  have := fillVertexIds_aux (uniqueAfter l) [] (fun i e he => by
    simpa using uniqueAfter_index l i e he)
  simpa [fillVertexIds] using this

theorem fill_any_order (entries : List (Int × Nat)) : ∀ storage : List Int,
    (∀ e ∈ entries, e.2 < storage.length) →
    ∃ r, entries.foldlM (fun storage entry => writeAt storage entry.2 entry.1) storage = some r ∧
      r.length = storage.length ∧
      (∀ j, (∀ e ∈ entries, e.2 ≠ j) → r[j]? = storage[j]?) ∧
      ((entries.map Prod.snd).Nodup → ∀ e ∈ entries, r[e.2]? = some e.1) := by
  induction entries with
  | nil => intro storage _; exact ⟨storage, rfl, rfl, fun _ _ => rfl, fun _ e he => by simp at he⟩
  | cons e entries ih =>
    intro storage h
    have he := h e (List.mem_cons_self _ _)
    obtain ⟨r, hr, hlen, hkeep, hset⟩ := ih (storage.set e.2 e.1) (fun e' he' => by
      rw [List.length_set]; exact h e' (List.mem_cons_of_mem _ he'))
    refine ⟨r, ?_, by rw [hlen, List.length_set], ?_, ?_⟩
    · rw [List.foldlM_cons, writeAt_of_eq _ _ e.2 _ rfl he]
      exact hr
    · intro j hj
      rw [hkeep j (fun e' he' => hj e' (List.mem_cons_of_mem _ he')), List.getElem?_set,
        if_neg (hj e (List.mem_cons_self _ _))]
    · intro hnodup e' he'
      rw [List.map_cons, List.nodup_cons] at hnodup
      rcases List.mem_cons.1 he' with heq | hmem
      · subst heq
        rw [hkeep e'.2 (fun e'' he'' hc => hnodup.1 (by
          rw [← hc]; exact List.mem_map_of_mem _ he'')), List.getElem?_set, if_pos rfl, if_pos he]
      · exact hset hnodup.2 e' hmem

/-- The fill loop of `getVertexIds` gives the same list whatever the order in
which the entries of the map are traversed. -/
theorem fillVertexIds_any_order (l : List Int) (entries : List (Int × Nat))
    (hperm : entries.Perm (uniqueAfter l)) :
    entries.foldlM (fun storage entry => writeAt storage entry.2 entry.1)
      (List.replicate (uniqueAfter l).length 0) = some ((uniqueAfter l).map Prod.fst) := by
  have hidx : (uniqueAfter l).map Prod.snd = List.range (uniqueAfter l).length := by
    apply List.ext_getElem?
    intro i
    rw [List.getElem?_map]
    cases h : (uniqueAfter l)[i]? with
    | none =>
      have := List.getElem?_eq_none_iff.1 h
      rw [List.getElem?_eq_none (by simp; omega)]
      rfl
    | some e =>
      have hlt : i < (uniqueAfter l).length := by
        by_contra hc
        rw [List.getElem?_eq_none (by omega)] at h
        cases h
      rw [List.getElem?_range hlt, Option.map_some', uniqueAfter_index l i e h]
  have hnodup : (entries.map Prod.snd).Nodup := by
    have hp : (entries.map Prod.snd).Perm ((uniqueAfter l).map Prod.snd) := hperm.map _
    rw [hp.nodup_iff, hidx]
    exact List.nodup_range _
  obtain ⟨r, hr, hlen, _, hset⟩ := fill_any_order entries
    (List.replicate (uniqueAfter l).length 0) (fun e he => by
      have hmem : e.2 ∈ (uniqueAfter l).map Prod.snd :=
        List.mem_map_of_mem _ (hperm.subset he)
      rw [hidx, List.mem_range] at hmem
      simpa using hmem)
  rw [hr]
  congr 1
  apply List.ext_getElem?
  intro j
  cases h : (uniqueAfter l)[j]? with
  | none =>
    have := List.getElem?_eq_none_iff.1 h
    rw [List.getElem?_map, h, List.getElem?_eq_none (by simp at hlen; omega)]
    rfl
  | some e =>
    have hj := uniqueAfter_index l j e h
    have hmem : e ∈ entries := hperm.symm.subset (List.mem_iff_getElem?.2 ⟨j, h⟩)
    have := hset hnodup e hmem
    rw [hj] at this
    rw [this, List.getElem?_map, h]
    rfl

theorem insertUniqueVertex_step (faces : List (List Int)) (f : Nat) (face : List Int)
    (hface : faces[f]? = some face) (seen : List Int) (k : Nat) (hk : k < face.length) :
    insertUniqueVertex (faceStreamOf faces) ((facePosition faces f : Int) + 1 + (k : Int))
      (uniqueAfter (seen ++ face.take k)) = some (uniqueAfter (seen ++ face.take (k + 1))) := by
  unfold insertUniqueVertex
  rw [readAt_of_eq _ _ (facePosition faces f + 1 + k) (by push_cast; ring),
    faceStreamOf_vertex faces f face hface k hk, List.getElem?_eq_getElem hk]
  rw [List.take_succ, List.getElem?_eq_getElem hk, ← List.append_assoc]
  simp only [Option.toList, uniqueAfter_snoc]
  simp only [bind, Option.bind, pure]
  split <;> rfl

theorem collectUniqueVertexIds_faceStreamOf (faces : List (List Int))
    (hsize : (faceStreamOf faces).length < 2 ^ 31) :
    collectUniqueVertexIds (faceStreamOf faces) (faces.length : Int) =
      some (uniqueAfter faces.flatten) := by
  unfold collectUniqueVertexIds
  have := forLoop_steps (fun i uniqueVertexIds => do
      let facePos ← getFaceStreamPosition (faceStreamOf faces) i
      let beginVertexPos := facePos + 1
      let endVertexPos := facePos + 1 + (← readAt (faceStreamOf faces) facePos)
      forLoop beginVertexPos endVertexPos (insertUniqueVertex (faceStreamOf faces))
        uniqueVertexIds) 0 (faces.length : Int) faces.length (by simp)
    (fun j => uniqueAfter (faces.take j).flatten) (fun j hj => by
      have hface : faces[j]? = some faces[j] := List.getElem?_eq_getElem hj
      simp only [zero_add, getFaceStreamPosition_faceStreamOf faces j (by omega) hsize,
        readAt_natCast, faceStreamOf_count faces j _ hface, bind, Option.bind]
      have := forLoop_steps (insertUniqueVertex (faceStreamOf faces))
        ((facePosition faces j : Int) + 1)
        ((facePosition faces j : Int) + 1 + (faces[j].length : Int)) faces[j].length (by omega)
        (fun k => uniqueAfter ((faces.take j).flatten ++ faces[j].take k))
        (fun k hk => insertUniqueVertex_step faces j _ hface _ k hk)
      simp only [List.take_zero, List.append_nil, List.take_length] at this
      rw [this]
      have htake : faces.take (j + 1) = faces.take j ++ [faces[j]] := by
        rw [List.take_succ, hface]; rfl
      rw [htake, List.flatten_append]
      simp)
  simpa using this

theorem getVertexIdsOf_polyhedron (info : InfoTable) (faces : List (List Int))
    (hsize : (faceStreamOf faces).length < 2 ^ 31) :
    getVertexIdsOf info ElementType.POLYHEDRON (faceStreamOf faces) =
      some ((uniqueAfter faces.flatten).map Prod.fst) := by
  simp only [getVertexIdsOf, countPolyhedronFaces, readAt_of_eq _ 0 0 rfl, faceStreamOf_head,
    bind, Option.bind, collectUniqueVertexIds_faceStreamOf faces hsize,
    fillVertexIds_uniqueAfter]

/-- C2: on the face stream of a list of faces, the static `getVertexIds` for a
POLYHEDRON returns a list without duplicates that holds exactly the vertex ids
occurring in some face, ordered by first occurrence among the vertex entries
of the stream; `getVertexCount` is the number of distinct vertex ids. -/
theorem getVertexIds_polyhedron (info : InfoTable) (faces : List (List Int))
    (hsize : (faceStreamOf faces).length < 2 ^ 31) :
    ∃ ids : List Int,
      getVertexIdsOf info ElementType.POLYHEDRON (faceStreamOf faces) = some ids ∧
      ids.Nodup ∧
      (∀ v, v ∈ ids ↔ ∃ face ∈ faces, v ∈ face) ∧
      (∀ (i j : Nat) (a b : Int), i < j → ids[i]? = some a → ids[j]? = some b →
        faces.flatten.indexOf a < faces.flatten.indexOf b) ∧
      (∀ id pid : Int,
        Element.getVertexCount info ⟨id, ElementType.POLYHEDRON, pid, some (faceStreamOf faces)⟩ =
          some (faces.flatten.toFinset.card : Int)) := by
  refine ⟨_, getVertexIdsOf_polyhedron info faces hsize, uniqueAfter_nodup _, ?_,
    uniqueAfter_order _, ?_⟩
  · intro v
    rw [uniqueAfter_mem, List.mem_flatten]
  · intro id pid
    have hcard : faces.flatten.toFinset.card = ((uniqueAfter faces.flatten).map Prod.fst).length := by
      rw [← List.toFinset_card_of_nodup (uniqueAfter_nodup faces.flatten)]
      congr 1
      ext v
      simp only [List.mem_toFinset, uniqueAfter_mem]
    simp only [Element.getVertexCount, Element.getVertexIds, bind, Option.bind,
      getVertexIdsOf_polyhedron info faces hsize, pure, hcard]

theorem getVertexIds_polyhedron_witness :
    (faceStreamOf [[5, 6, 7], [7, 6, 9, 10], [5, 9]]).length < 2 ^ 31 ∧
    ∃ ids : List Int,
      getVertexIdsOf planarInfo ElementType.POLYHEDRON
        (faceStreamOf [[5, 6, 7], [7, 6, 9, 10], [5, 9]]) = some ids ∧
      ids.Nodup ∧
      (∀ v, v ∈ ids ↔ ∃ face ∈ [[5, 6, 7], [7, 6, 9, 10], [5, 9]], v ∈ face) ∧
      (∀ (i j : Nat) (a b : Int), i < j → ids[i]? = some a → ids[j]? = some b →
        List.indexOf a (List.flatten [[5, 6, 7], [7, 6, 9, 10], [5, 9]]) <
          List.indexOf b (List.flatten [[5, 6, 7], [7, 6, 9, 10], [5, 9]])) ∧
      (∀ id pid : Int,
        Element.getVertexCount planarInfo
          ⟨id, ElementType.POLYHEDRON, pid, some (faceStreamOf [[5, 6, 7], [7, 6, 9, 10], [5, 9]])⟩ =
          some ((List.flatten [[5, 6, 7], [7, 6, 9, 10], [5, 9]]).toFinset.card : Int)) :=
  ⟨by decide, getVertexIds_polyhedron planarInfo [[5, 6, 7], [7, 6, 9, 10], [5, 9]] (by decide)⟩

/-! ### Elements of defined type -/

theorem wellFormed_cases (info : InfoTable) (e : Element) (hw : e.WellFormed info) :
    (e.m_type = ElementType.POLYGON ∧ ∃ vertices : List Int,
      e.m_connect = some ((vertices.length : Int) :: vertices) ∧ vertices.length + 1 < 2 ^ 31) ∨
    (e.m_type = ElementType.POLYHEDRON ∧ ∃ faces : List (List Int),
      e.m_connect = some (faceStreamOf faces) ∧ (faceStreamOf faces).length < 2 ^ 31) ∨
    (e.m_type ≠ ElementType.POLYGON ∧ e.m_type ≠ ElementType.POLYHEDRON ∧
      e.m_type ≠ ElementType.UNDEFINED ∧
      ∃ (r : ReferenceElementInfo) (connectivity : List Int),
        info e.m_type = some r ∧ e.m_connect = some connectivity ∧
        r.nVertices = (connectivity.length : Int) ∧ connectivity.length < 2 ^ 31) := by
  unfold Element.WellFormed at hw
  cases h : e.m_type <;> simp only [h] at hw <;>
    first
    | exact hw.elim
    | exact Or.inl ⟨rfl, hw⟩
    | exact Or.inr (Or.inl ⟨rfl, hw⟩)
    | exact Or.inr (Or.inr ⟨by decide, by decide, by decide, hw⟩)

theorem proxyVector_all (connectivity : List Int) :
    proxyVector connectivity 0 (connectivity.length : Int) = some connectivity := by
  simp [proxyVector]

theorem proxyVector_tail (x : Int) (vertices : List Int) :
    proxyVector (x :: vertices) 1 (vertices.length : Int) = some vertices := by
  simp [proxyVector]
  omega

theorem getVertexIdsOf_reference (info : InfoTable) (type : ElementType)
    (connectivity : List Int) (h1 : type ≠ ElementType.POLYGON)
    (h2 : type ≠ ElementType.POLYHEDRON) (h3 : type ≠ ElementType.UNDEFINED)
    (r : ReferenceElementInfo) (hr : info type = some r) :
    getVertexIdsOf info type connectivity = proxyVector connectivity 0 r.nVertices := by
  cases type <;> simp_all [getVertexIdsOf, assertDefined, bind, Option.bind]

theorem getVertexCount_reference (info : InfoTable) (e : Element)
    (h1 : e.m_type ≠ ElementType.POLYGON)
    (h2 : e.m_type ≠ ElementType.POLYHEDRON) (h3 : e.m_type ≠ ElementType.UNDEFINED)
    (r : ReferenceElementInfo) (hr : info e.m_type = some r) :
    e.getVertexCount info = some r.nVertices := by
  unfold Element.getVertexCount
  cases h : e.m_type <;> simp_all [assertDefined, bind, Option.bind, pure]

theorem getVertexId_reference (info : InfoTable) (e : Element) (vertex : Int)
    (h1 : e.m_type ≠ ElementType.POLYGON)
    (h2 : e.m_type ≠ ElementType.POLYHEDRON) (h3 : e.m_type ≠ ElementType.UNDEFINED)
    (connectivity : List Int) (hc : e.m_connect = some connectivity) :
    e.getVertexId info vertex = readAt connectivity vertex := by
  unfold Element.getVertexId
  cases h : e.m_type <;> simp_all [assertDefined, bind, Option.bind, pure]

/-- The vertex ids of an element of defined type: the list returned by
`getVertexIds`, whose length is `getVertexCount` and whose entries are what
`getVertexId` returns. -/
theorem wellFormed_getVertexIds (info : InfoTable) (e : Element) (hw : e.WellFormed info) :
    ∃ ids : List Int, e.getVertexIds info = some ids ∧
      e.getVertexCount info = some (ids.length : Int) ∧
      ∀ i : Int, e.getVertexId info i = readAt ids i := by
  rcases wellFormed_cases info e hw with ⟨ht, vertices, hc, _⟩ | ⟨ht, faces, hc, hsize⟩ |
    ⟨h1, h2, h3, r, connectivity, hr, hc, hn, _⟩
  · refine ⟨vertices, ?_, ?_, ?_⟩
    · simp [Element.getVertexIds, hc, ht, getVertexIdsOf, countPolygonVertices, readAt,
        proxyVector_tail]
    · simp [Element.getVertexCount, hc, ht, countPolygonVertices, readAt]
    · intro i
      simp [Element.getVertexId, Element.getVertexIds, hc, ht, getVertexIdsOf,
        countPolygonVertices, readAt, proxyVector_tail]
  · refine ⟨(uniqueAfter faces.flatten).map Prod.fst, ?_, ?_, ?_⟩
    · simp only [Element.getVertexIds, hc, ht, bind, Option.bind]
      exact getVertexIdsOf_polyhedron info faces hsize
    · simp only [Element.getVertexCount, Element.getVertexIds, hc, ht, bind, Option.bind,
        getVertexIdsOf_polyhedron info faces hsize, pure]
    · intro i
      simp only [Element.getVertexId, Element.getVertexIds, hc, ht, bind, Option.bind,
        getVertexIdsOf_polyhedron info faces hsize]
  · refine ⟨connectivity, ?_, ?_, ?_⟩
    · simp only [Element.getVertexIds, hc, bind, Option.bind]
      rw [getVertexIdsOf_reference info _ _ h1 h2 h3 r hr, hn, proxyVector_all]
    · rw [getVertexCount_reference info e h1 h2 h3 r hr, hn]
    · intro i
      exact getVertexId_reference info e i h1 h2 h3 connectivity hc

/-! ### findVertex -/

theorem indexOf_first (l : List Int) (v : Int) : ∀ i : Nat, i < l.indexOf v → l[i]? ≠ some v := by
  induction l with
  | nil => intro i hi; simp at hi
  | cons a l ih =>
    intro i hi
    by_cases h : a = v
    · rw [List.indexOf_cons_eq l h] at hi
      omega
    · rw [List.indexOf_cons_ne l h] at hi
      cases i with
      | zero => simpa using h
      | succ i =>
        rw [List.getElem?_cons_succ]
        exact ih i (by omega)

theorem findVertex_of_ids (info : InfoTable) (e : Element) (v : Int) (ids : List Int)
    (hids : e.getVertexIds info = some ids) :
    e.findVertex info v = some (if v ∈ ids then (ids.indexOf v : Int) else -1) := by
  unfold Element.findVertex
  simp only [hids, bind, Option.bind, pure]
  by_cases h : v ∈ ids
  · have := List.indexOf_lt_length.2 h
    rw [if_neg (by omega), if_pos h]
  · have := List.indexOf_of_not_mem h
    rw [if_pos (by omega), if_neg h]

/-- C4: on an element of defined type, `findVertex(v)` returns the smallest
local index at which `getVertexIds()` holds `v`, an index below
`getVertexCount()`, when `v` is a vertex of the element, and returns -1, its
only negative result, exactly when `v` is not a vertex of the element;
`getVertexId` of a non-negative result is `v`. -/
theorem findVertex_spec (info : InfoTable) (e : Element) (hw : e.WellFormed info) (v : Int) :
    ∃ (ids : List Int) (r : Int),
      e.getVertexIds info = some ids ∧
      e.getVertexCount info = some (ids.length : Int) ∧
      e.findVertex info v = some r ∧
      (v ∈ ids → 0 ≤ r ∧ r < (ids.length : Int) ∧ ids[r.toNat]? = some v ∧
        ∀ i : Nat, i < r.toNat → ids[i]? ≠ some v) ∧
      (r = -1 ↔ v ∉ ids) ∧
      (r < 0 ↔ v ∉ ids) ∧
      (0 ≤ r → e.getVertexId info r = some v) := by
  obtain ⟨ids, hids, hcount, hget⟩ := wellFormed_getVertexIds info e hw
  refine ⟨ids, _, hids, hcount, findVertex_of_ids info e v ids hids, ?_, ?_, ?_, ?_⟩
  · intro h
    have hlt := List.indexOf_lt_length.2 h
    rw [if_pos h]
    refine ⟨by omega, by omega, ?_, ?_⟩
    · simpa using List.getElem?_indexOf h
    · intro i hi
      exact indexOf_first ids v i (by simpa using hi)
  · by_cases h : v ∈ ids
    · rw [if_pos h]
      exact ⟨fun hc => by omega, fun hc => absurd h hc⟩
    · rw [if_neg h]
      exact ⟨fun _ => h, fun _ => rfl⟩
  · by_cases h : v ∈ ids
    · rw [if_pos h]
      exact ⟨fun hc => by omega, fun hc => absurd h hc⟩
    · rw [if_neg h]
      exact ⟨fun _ => h, fun _ => by decide⟩
  · by_cases h : v ∈ ids
    · intro _
      rw [if_pos h, hget, readAt_natCast]
      exact List.getElem?_indexOf h
    · rw [if_neg h]; intro hc; omega

theorem findVertex_spec_witness :
    Element.WellFormed planarInfo ⟨7, ElementType.TRIANGLE, 0, some [10, 11, 12]⟩ ∧
    ∃ (ids : List Int) (r : Int),
      Element.getVertexIds planarInfo ⟨7, ElementType.TRIANGLE, 0, some [10, 11, 12]⟩ = some ids ∧
      Element.getVertexCount planarInfo ⟨7, ElementType.TRIANGLE, 0, some [10, 11, 12]⟩ =
        some (ids.length : Int) ∧
      Element.findVertex planarInfo ⟨7, ElementType.TRIANGLE, 0, some [10, 11, 12]⟩ 12 = some r ∧
      ((12 : Int) ∈ ids → 0 ≤ r ∧ r < (ids.length : Int) ∧ ids[r.toNat]? = some 12 ∧
        ∀ i : Nat, i < r.toNat → ids[i]? ≠ some 12) ∧
      (r = -1 ↔ (12 : Int) ∉ ids) ∧
      (r < 0 ↔ (12 : Int) ∉ ids) ∧
      (0 ≤ r →
        Element.getVertexId planarInfo ⟨7, ElementType.TRIANGLE, 0, some [10, 11, 12]⟩ r = some 12) :=
  ⟨⟨_, _, rfl, rfl, rfl, by decide⟩,
    findVertex_spec planarInfo ⟨7, ElementType.TRIANGLE, 0, some [10, 11, 12]⟩
      ⟨_, _, rfl, rfl, rfl, by decide⟩ 12⟩

/-! ### renumberVertices -/

theorem translate_some (map : Int → Option Int) (v w : Int) (h : map v = some w) :
    translate map v = w := by
  simp [translate, h]

theorem translate_none (map : Int → Option Int) (v : Int) (h : map v = none) :
    translate map v = v := by
  simp [translate, h]

theorem renumberEntry_at (map : Int → Option Int) (pre post : List Int) (a : Int) :
    Element.renumberEntry map (pre.length : Int) (pre ++ a :: post) =
      some (pre ++ translate map a :: post) := by
  unfold Element.renumberEntry
  have hr : readAt (pre ++ a :: post) (pre.length : Int) = some a := by
    rw [readAt_natCast, List.getElem?_append_right (le_refl _)]; simp
  simp only [hr, bind, Option.bind]
  cases h : map a with
  | none => simp [translate_none map a h, pure]
  | some w =>
    simp only [translate_some map a w h]
    rw [writeAt_of_eq _ _ pre.length _ rfl (by simp)]
    simp

/-- The loop of `renumberVertices` over a segment of the storage translates the
entries of the segment, each once, and nothing else. -/
theorem renumber_segment (map : Int → Option Int) (seg : List Int) :
    ∀ (pre post : List Int) (first : Int), first = (pre.length : Int) →
    forRange (Element.renumberEntry map) seg.length first (pre ++ seg ++ post) =
      some (pre ++ seg.map (translate map) ++ post) := by
  induction seg with
  | nil => intro pre post first _; simp [forRange]
  | cons a seg ih =>
    intro pre post first hfirst
    subst hfirst
    simp only [List.length_cons, forRange, List.append_assoc, List.cons_append,
      renumberEntry_at, Option.some_bind, List.map_cons]
    have := ih (pre ++ [translate map a]) post ((pre.length : Int) + 1) (by simp)
    simpa using this

theorem renumber_segment_loop (map : Int → Option Int) (pre seg post : List Int)
    (first last : Int) (hfirst : first = (pre.length : Int))
    (hlast : last = first + (seg.length : Int)) :
    forLoop first last (Element.renumberEntry map) (pre ++ seg ++ post) =
      some (pre ++ seg.map (translate map) ++ post) := by
  unfold forLoop
  rw [show (last - first).toNat = seg.length by omega]
  exact renumber_segment map seg pre post first hfirst

theorem encodeFaces_append (a b : List (List Int)) :
    encodeFaces (a ++ b) = encodeFaces a ++ encodeFaces b := by
  induction a with
  | nil => rfl
  | cons f a ih => simp [encodeFaces, ih]

theorem getFaceStreamPosition_split (a b : List (List Int))
    (hsize : (faceStreamOf (a ++ b)).length < 2 ^ 31) :
    getFaceStreamPosition (faceStreamOf (a ++ b)) (a.length : Int) =
      some ((1 + (encodeFaces a).length : Nat) : Int) := by
  rw [getFaceStreamPosition_faceStreamOf (a ++ b) a.length (by simp) hsize]
  simp [facePosition, encodeFaces_length]

theorem faceStreamOf_length_congr (a b : List (List Int))
    (h : a.map List.length = b.map List.length) :
    (faceStreamOf a).length = (faceStreamOf b).length := by
  have hlen : ∀ l : List (List Int),
      (faceStreamOf l).length = 1 + ((l.map List.length).map (fun n => 1 + n)).sum := by
    intro l
    simp only [faceStreamOf, List.length_cons, encodeFaces_length, List.map_map]
    rw [Nat.add_comm]
    rfl
  rw [hlen a, hlen b, h]

theorem faceStreamOf_length_renumbering (g : List Int → List Int)
    (hg : ∀ face, (g face).length = face.length) (faces : List (List Int)) (j : Nat) :
    (faceStreamOf ((faces.take j).map g ++ faces.drop j)).length =
      (faceStreamOf faces).length := by
  apply faceStreamOf_length_congr
  rw [List.map_append, List.map_map]
  have : (faces.take j).map (List.length ∘ g) = (faces.take j).map List.length := by
    apply List.map_congr_left
    intro face _
    exact hg face
  rw [this, ← List.map_append, List.take_append_drop]

theorem faceStreamOf_split (a b : List (List Int)) (face : List Int) :
    faceStreamOf (a ++ face :: b) =
      (((a ++ face :: b).length : Int) :: encodeFaces a ++ [(face.length : Int)]) ++ face ++
        encodeFaces b := by
  simp [faceStreamOf, encodeFaces_append, encodeFaces]

theorem renumberFace_step (map : Int → Option Int) (a b : List (List Int)) (face : List Int)
    (i : Int) (hi : i = (a.length : Int))
    (hsize : (faceStreamOf (a ++ face :: b)).length < 2 ^ 31) :
    (do
      let facePos ← getFaceStreamPosition (faceStreamOf (a ++ face :: b)) i
      let beginVertexPos := facePos + 1
      let endVertexPos := facePos + 1 + (← readAt (faceStreamOf (a ++ face :: b)) facePos)
      forLoop beginVertexPos endVertexPos (Element.renumberEntry map)
        (faceStreamOf (a ++ face :: b))) =
      some (faceStreamOf (a ++ face.map (translate map) :: b)) := by
  subst hi
  have hread : readAt (faceStreamOf (a ++ face :: b)) ((1 + (encodeFaces a).length : Nat) : Int) =
      some (face.length : Int) := by
    have hsplit : faceStreamOf (a ++ face :: b) =
        (((a ++ face :: b).length : Int) :: encodeFaces a) ++
          ((face.length : Int) :: (face ++ encodeFaces b)) := by
      simp [faceStreamOf, encodeFaces_append, encodeFaces]
    rw [readAt_natCast, hsplit, List.getElem?_append_right (by simp; omega)]
    rw [show 1 + (encodeFaces a).length -
      (((a ++ face :: b).length : Int) :: encodeFaces a).length = 0 by simp; omega]
    exact List.getElem?_cons_zero
  simp only [getFaceStreamPosition_split a (face :: b) hsize, hread, bind, Option.bind]
  rw [faceStreamOf_split, renumber_segment_loop map _ face _ _ _ (by simp; omega) (by omega),
    faceStreamOf_split]
  simp

theorem renumberVertices_polyhedron (info : InfoTable) (map : Int → Option Int)
    (id pid : Int) (faces : List (List Int)) (hsize : (faceStreamOf faces).length < 2 ^ 31) :
    Element.renumberVertices info map ⟨id, ElementType.POLYHEDRON, pid, some (faceStreamOf faces)⟩ =
      some ⟨id, ElementType.POLYHEDRON, pid,
        some (faceStreamOf (faces.map (List.map (translate map))))⟩ := by
  have hloop := forLoop_steps (fun i connectivity => do
      let facePos ← getFaceStreamPosition connectivity i
      let beginVertexPos := facePos + 1
      let endVertexPos := facePos + 1 + (← readAt connectivity facePos)
      forLoop beginVertexPos endVertexPos (Element.renumberEntry map) connectivity)
    0 (faces.length : Int) faces.length (by simp)
    (fun j => faceStreamOf ((faces.take j).map (List.map (translate map)) ++ faces.drop j))
    (fun j hj => by
      have hdrop : faces.drop j = faces[j] :: faces.drop (j + 1) := by
        rw [List.drop_eq_getElem_cons hj]
      have htake : faces.take (j + 1) = faces.take j ++ [faces[j]] := by
        rw [List.take_succ, List.getElem?_eq_getElem hj]; rfl
      have hlength := faceStreamOf_length_renumbering (List.map (translate map))
        (fun face => List.length_map _ _) faces j
      rw [hdrop] at hlength
      have := renumberFace_step map ((faces.take j).map (List.map (translate map)))
        (faces.drop (j + 1)) faces[j] (0 + (j : Int)) (by simp; omega) (by omega)
      beta_reduce
      rw [hdrop, htake, List.map_append, List.map_cons, List.map_nil, List.append_assoc,
        List.singleton_append]
      exact this)
  simp only [List.take_zero, List.map_nil, List.nil_append, List.drop_zero, List.take_length,
    List.drop_length, List.append_nil] at hloop
  simp only [Element.renumberVertices, Element.getFaceCount, countPolyhedronFaces,
    readAt_of_eq _ 0 0 rfl, faceStreamOf_head, Option.bind_eq_bind, Option.some_bind,
    Option.pure_def] at hloop ⊢
  rw [hloop]
  rfl

theorem renumberVertices_polygon (info : InfoTable) (map : Int → Option Int)
    (id pid : Int) (vertices : List Int) :
    Element.renumberVertices info map
        ⟨id, ElementType.POLYGON, pid, some ((vertices.length : Int) :: vertices)⟩ =
      some ⟨id, ElementType.POLYGON, pid,
        some ((vertices.length : Int) :: vertices.map (translate map))⟩ := by
  have hloop := renumber_segment_loop map [(vertices.length : Int)] vertices [] 1
    ((vertices.length : Int) + 1) (by simp) (by omega)
  simp only [List.append_nil, List.singleton_append] at hloop
  simp only [Element.renumberVertices, Element.getVertexCount, countPolygonVertices,
    readAt_of_eq _ 0 0 rfl, List.getElem?_cons_zero, Option.bind_eq_bind, Option.some_bind,
    Option.pure_def, hloop]

theorem renumberVertices_reference (info : InfoTable) (map : Int → Option Int)
    (id pid : Int) (type : ElementType) (r : ReferenceElementInfo) (connectivity : List Int)
    (h1 : type ≠ ElementType.POLYGON) (h2 : type ≠ ElementType.POLYHEDRON)
    (h3 : type ≠ ElementType.UNDEFINED) (hr : info type = some r)
    (hn : r.nVertices = (connectivity.length : Int)) :
    Element.renumberVertices info map ⟨id, type, pid, some connectivity⟩ =
      some ⟨id, type, pid, some (connectivity.map (translate map))⟩ := by
  have hloop := renumber_segment_loop map [] connectivity [] 0
    (connectivity.length : Int) (by simp) (by omega)
  simp only [List.append_nil, List.nil_append] at hloop
  have hcount := getVertexCount_reference info ⟨id, type, pid, some connectivity⟩ h1 h2 h3 r hr
  unfold Element.renumberVertices
  cases type <;>
    first
    | exact absurd rfl h1
    | exact absurd rfl h2
    | exact absurd rfl h3
    | (simp only [hcount, hn, assertDefined, bind, Option.bind, hloop, pure]; rfl)

/-- C3: `renumberVertices(map)` on an element of defined type replaces every
vertex entry `v` of the connectivity by the value of `v` in the map when `v` is
a key, keeps it otherwise, each entry being translated once; the id, the type,
the PID and the entries that are not vertex ids (the vertex count of a POLYGON,
the face count and the vertex counts of a POLYHEDRON) are unchanged. -/
theorem renumberVertices_spec (info : InfoTable) (map : Int → Option Int) (id pid : Int) :
    (∀ vertices : List Int, vertices.length + 1 < 2 ^ 31 →
      Element.renumberVertices info map
          ⟨id, ElementType.POLYGON, pid, some ((vertices.length : Int) :: vertices)⟩ =
        some ⟨id, ElementType.POLYGON, pid,
          some ((vertices.length : Int) :: vertices.map (translate map))⟩) ∧
    (∀ faces : List (List Int), (faceStreamOf faces).length < 2 ^ 31 →
      Element.renumberVertices info map
          ⟨id, ElementType.POLYHEDRON, pid, some (faceStreamOf faces)⟩ =
        some ⟨id, ElementType.POLYHEDRON, pid,
          some (faceStreamOf (faces.map (List.map (translate map))))⟩) ∧
    (∀ (type : ElementType) (r : ReferenceElementInfo) (connectivity : List Int),
      type ≠ ElementType.POLYGON → type ≠ ElementType.POLYHEDRON →
      type ≠ ElementType.UNDEFINED → info type = some r →
      r.nVertices = (connectivity.length : Int) → connectivity.length < 2 ^ 31 →
      Element.renumberVertices info map ⟨id, type, pid, some connectivity⟩ =
        some ⟨id, type, pid, some (connectivity.map (translate map))⟩) :=
  ⟨fun vertices _ => renumberVertices_polygon info map id pid vertices,
    fun faces hsize => renumberVertices_polyhedron info map id pid faces hsize,
    fun type r connectivity h1 h2 h3 hr hn _ =>
      renumberVertices_reference info map id pid type r connectivity h1 h2 h3 hr hn⟩

theorem renumberVertices_spec_witness :
    ([4, 5, 6] : List Int).length + 1 < 2 ^ 31 ∧
    Element.renumberVertices planarInfo sampleMap
        ⟨1, ElementType.POLYGON, 0, some ((([4, 5, 6] : List Int).length : Int) :: [4, 5, 6])⟩ =
      some ⟨1, ElementType.POLYGON, 0,
        some ((([4, 5, 6] : List Int).length : Int) :: [4, 5, 6].map (translate sampleMap))⟩ ∧
    (faceStreamOf [[5, 6, 7], [7, 6, 3]]).length < 2 ^ 31 ∧
    Element.renumberVertices planarInfo sampleMap
        ⟨1, ElementType.POLYHEDRON, 0, some (faceStreamOf [[5, 6, 7], [7, 6, 3]])⟩ =
      some ⟨1, ElementType.POLYHEDRON, 0,
        some (faceStreamOf ([[5, 6, 7], [7, 6, 3]].map (List.map (translate sampleMap))))⟩ ∧
    Element.renumberVertices planarInfo sampleMap ⟨1, ElementType.TRIANGLE, 0, some [5, 6, 7]⟩ =
      some ⟨1, ElementType.TRIANGLE, 0, some ([5, 6, 7].map (translate sampleMap))⟩ :=
  ⟨by decide, (renumberVertices_spec planarInfo sampleMap 1 0).1 [4, 5, 6] (by decide),
    by decide,
    (renumberVertices_spec planarInfo sampleMap 1 0).2.1 [[5, 6, 7], [7, 6, 3]] (by decide),
    (renumberVertices_spec planarInfo sampleMap 1 0).2.2 ElementType.TRIANGLE
      ⟨3, 3, [.LINE, .LINE, .LINE], [[0, 1], [1, 2], [2, 0]]⟩ [5, 6, 7]
      (by decide) (by decide) (by decide) rfl rfl (by decide)⟩

/-! ### getFaceStream -/

theorem filledUpTo_length (stream : List Int) (m : Nat) (hm : m ≤ stream.length) :
    (filledUpTo stream m).length = stream.length := by
  simp [filledUpTo]
  omega

theorem filledUpTo_write (stream : List Int) (m : Nat) (x : Int) (i : Int)
    (hi : i = (m : Int)) (hx : stream[m]? = some x) :
    writeAt (filledUpTo stream m) i x = some (filledUpTo stream (m + 1)) := by
  have hm : m < stream.length := by
    by_contra hc
    rw [List.getElem?_eq_none (by omega)] at hx
    cases hx
  rw [writeAt_of_eq _ _ m _ hi (by rw [filledUpTo_length _ _ (by omega)]; exact hm)]
  congr 1
  unfold filledUpTo
  rw [List.set_append, if_neg (by simp), List.take_succ, hx]
  rw [show stream.length - m = (stream.length - (m + 1)) + 1 by omega, List.replicate_succ]
  rw [show m - (List.take m stream).length = 0 by rw [List.length_take]; omega]
  simp

theorem filledUpTo_all (stream : List Int) : filledUpTo stream stream.length = stream := by
  simp [filledUpTo]

theorem filledUpTo_zero_write (stream : List Int) (x : Int) (hx : stream[0]? = some x) :
    writeAt (List.replicate stream.length 0) 0 x = some (filledUpTo stream 1) := by
  have := filledUpTo_write stream 0 x 0 rfl hx
  simpa [filledUpTo] using this

theorem writeFaceVertexIds_step (stream face : List Int) (p : Nat)
    (hface : ∀ k, k < face.length → stream[p + 1 + k]? = face[k]?) (k : Nat)
    (hk : k < face.length) :
    Element.writeFaceVertexIds face (0 + (k : Int))
      (((p + k : Nat) : Int), filledUpTo stream (p + 1 + k)) =
      some (((p + (k + 1) : Nat) : Int), filledUpTo stream (p + 1 + (k + 1))) := by
  unfold Element.writeFaceVertexIds
  have hr : readAt face (0 + (k : Int)) = some face[k] := by
    rw [readAt_of_eq _ _ k (by omega), List.getElem?_eq_getElem hk]
  have hw := filledUpTo_write stream (p + 1 + k) face[k] (((p + k : Nat) : Int) + 1)
    (by push_cast; omega) (by rw [hface k hk, List.getElem?_eq_getElem hk])
  simp only [hr, hw, bind, Option.bind, pure]
  congr 2

theorem proxyVector_face (faces : List (List Int)) (f : Nat) (face : List Int)
    (hface : faces[f]? = some face) :
    proxyVector (faceStreamOf faces) ((facePosition faces f : Int) + 1) (face.length : Int) =
      some face := by
  have hlt := facePosition_lt faces f face hface
  unfold proxyVector
  rw [if_pos ⟨by omega, by omega, by omega⟩]
  congr 1
  apply List.ext_getElem?
  intro k
  rw [List.getElem?_take, List.getElem?_drop,
    show ((facePosition faces f : Int) + 1).toNat = facePosition faces f + 1 by omega,
    show ((face.length : Int)).toNat = face.length by omega]
  by_cases hk : k < face.length
  · rw [if_pos hk, faceStreamOf_vertex faces f face hface k hk]
  · rw [if_neg hk, List.getElem?_eq_none (by omega)]

theorem proxyVector_countedFace (faces : List (List Int)) (f : Nat) (face : List Int)
    (hface : faces[f]? = some face) :
    proxyVector (faceStreamOf faces) ((facePosition faces f : Int) + 1 - 1)
      ((face.length : Int) + 1) = some ((face.length : Int) :: face) := by
  have hlt := facePosition_lt faces f face hface
  unfold proxyVector
  rw [if_pos ⟨by omega, by omega, by omega⟩]
  congr 1
  apply List.ext_getElem?
  intro k
  rw [List.getElem?_take, List.getElem?_drop,
    show ((facePosition faces f : Int) + 1 - 1).toNat = facePosition faces f by omega,
    show ((face.length : Int) + 1).toNat = face.length + 1 by omega]
  cases k with
  | zero =>
    rw [if_pos (by omega)]
    simpa using faceStreamOf_count faces f face hface
  | succ k =>
    rw [List.getElem?_cons_succ]
    by_cases hk : k < face.length
    · rw [if_pos (by omega), ← faceStreamOf_vertex faces f face hface k hk]
      congr 1
      omega
    · rw [if_neg (by omega), List.getElem?_eq_none (by omega)]

theorem polyhedronFaceVertexCount_face (id pid : Int) (faces : List (List Int)) (f : Nat)
    (face : List Int) (hface : faces[f]? = some face)
    (hsize : (faceStreamOf faces).length < 2 ^ 31) :
    Element.polyhedronFaceVertexCount
      ⟨id, ElementType.POLYHEDRON, pid, some (faceStreamOf faces)⟩ (0 + (f : Int)) =
      some (face.length : Int) := by
  have hlt : f < faces.length := by
    by_contra hc
    rw [List.getElem?_eq_none (by omega)] at hface
    cases hface
  simp only [Element.polyhedronFaceVertexCount, zero_add,
    getFaceStreamPosition_faceStreamOf faces f (by omega) hsize, readAt_natCast,
    faceStreamOf_count faces f face hface, bind, Option.bind]

theorem getFaceVertexIds_face (info : InfoTable) (hT : hasInfo info ElementType.TRIANGLE = true)
    (hQ : hasInfo info ElementType.QUAD = true) (hP : hasInfo info ElementType.POLYGON = false)
    (id pid : Int) (faces : List (List Int)) (f : Nat) (face : List Int)
    (hface : faces[f]? = some face) (hsize : (faceStreamOf faces).length < 2 ^ 31) :
    Element.getFaceVertexIds info
      ⟨id, ElementType.POLYHEDRON, pid, some (faceStreamOf faces)⟩ (0 + (f : Int)) =
      some face := by
  have hlt : f < faces.length := by
    by_contra hc
    rw [List.getElem?_eq_none (by omega)] at hface
    cases hface
  have hcount := polyhedronFaceVertexCount_face id pid faces f face hface hsize
  have hpos := getFaceStreamPosition_faceStreamOf faces f (by omega) hsize
  have hread : readAt (faceStreamOf faces) (facePosition faces f : Int) =
      some (face.length : Int) := by
    rw [readAt_natCast]; exact faceStreamOf_count faces f face hface
  rw [zero_add] at hcount ⊢
  by_cases h3 : (face.length : Int) = 3
  · simp [Element.getFaceVertexIds, Element.getFaceConnect, Element.getFaceType, hcount, h3,
      hT, hpos, hread]
    have := proxyVector_face faces f face hface
    rw [h3] at this
    simp [this]
  · by_cases h4 : (face.length : Int) = 4
    · simp [Element.getFaceVertexIds, Element.getFaceConnect, Element.getFaceType, hcount, h4,
        hQ, hpos, hread]
      have := proxyVector_face faces f face hface
      rw [h4] at this
      simp [this]
    · have := proxyVector_countedFace faces f face hface
      rw [add_sub_cancel_right] at this
      simp [Element.getFaceVertexIds, Element.getFaceConnect, Element.getFaceType, hcount, h3,
        h4, hP, hpos, hread, this]

theorem getFaceStreamSize_polyhedron (info : InfoTable) (id pid : Int)
    (faces : List (List Int)) (hsize : (faceStreamOf faces).length < 2 ^ 31) :
    Element.getFaceStreamSize info ⟨id, ElementType.POLYHEDRON, pid, some (faceStreamOf faces)⟩ =
      some ((faceStreamOf faces).length : Int) := by
  simp only [Element.getFaceStreamSize, Element.getFaceCount, countPolyhedronFaces,
    readAt_of_eq _ 0 0 rfl, faceStreamOf_head, Element.getFaceStreamPosition,
    getFaceStreamPosition_faceStreamOf faces faces.length (le_refl _) hsize,
    faceStreamOf_length,
    bind, Option.bind, pure]
  congr 1
  omega

theorem getFaceStream_face_step (info : InfoTable)
    (hT : hasInfo info ElementType.TRIANGLE = true)
    (hQ : hasInfo info ElementType.QUAD = true) (hP : hasInfo info ElementType.POLYGON = false)
    (id pid : Int) (faces : List (List Int)) (j : Nat) (hj : j < faces.length)
    (hsize : (faceStreamOf faces).length < 2 ^ 31) :
    (do
      let faceVertexIds ← Element.getFaceVertexIds info
        ⟨id, ElementType.POLYHEDRON, pid, some (faceStreamOf faces)⟩ (0 + (j : Int))
      let nFaceVertices : Int := faceVertexIds.length
      let pos := ((facePosition faces j : Int) - 1) + 1
      let faceStream ← writeAt (filledUpTo (faceStreamOf faces) (facePosition faces j)) pos
        (← Element.getFaceVertexCount info
          ⟨id, ElementType.POLYHEDRON, pid, some (faceStreamOf faces)⟩ (0 + (j : Int)))
      forLoop 0 nFaceVertices (Element.writeFaceVertexIds faceVertexIds) (pos, faceStream)) =
      some (((facePosition faces (j + 1) : Int) - 1),
        filledUpTo (faceStreamOf faces) (facePosition faces (j + 1))) := by
  have hface : faces[j]? = some faces[j] := List.getElem?_eq_getElem hj
  have hids := getFaceVertexIds_face info hT hQ hP id pid faces j _ hface hsize
  have hcount : Element.getFaceVertexCount info
      ⟨id, ElementType.POLYHEDRON, pid, some (faceStreamOf faces)⟩ (0 + (j : Int)) =
      some (faces[j].length : Int) :=
    polyhedronFaceVertexCount_face id pid faces j _ hface hsize
  have hw := filledUpTo_write (faceStreamOf faces) (facePosition faces j) (faces[j].length : Int)
    (((facePosition faces j : Int) - 1) + 1) (by omega) (faceStreamOf_count faces j _ hface)
  have hinner := forLoop_steps (Element.writeFaceVertexIds faces[j]) 0 (faces[j].length : Int)
    faces[j].length (by simp)
    (fun k => (((facePosition faces j + k : Nat) : Int),
      filledUpTo (faceStreamOf faces) (facePosition faces j + 1 + k)))
    (fun k hk => writeFaceVertexIds_step (faceStreamOf faces) faces[j] (facePosition faces j)
      (fun k hk => faceStreamOf_vertex faces j _ hface k hk) k hk)
  simp only [hids, hcount, hw, Option.bind_eq_bind, Option.some_bind]
  rw [show ((facePosition faces j : Int) - 1) + 1 = ((facePosition faces j + 0 : Nat) : Int) by
    push_cast; omega]
  rw [show facePosition faces j + 1 = facePosition faces j + 1 + 0 by omega]
  rw [hinner, facePosition_succ faces j _ hface]
  congr 2
  push_cast
  rw [add_sub_assoc, add_assoc]
  congr 1
  generalize (faces[j].length : Int) = n
  omega

theorem getFaceStream_faceStreamOf (info : InfoTable)
    (hT : hasInfo info ElementType.TRIANGLE = true)
    (hQ : hasInfo info ElementType.QUAD = true) (hP : hasInfo info ElementType.POLYGON = false)
    (id pid : Int) (faces : List (List Int)) (hsize : (faceStreamOf faces).length < 2 ^ 31) :
    Element.getFaceStream info ⟨id, ElementType.POLYHEDRON, pid, some (faceStreamOf faces)⟩ =
      some (faceStreamOf faces) := by
  have hloop := forLoop_steps (fun i (st : Int × List Int) => do
      let faceVertexIds ← Element.getFaceVertexIds info
        ⟨id, ElementType.POLYHEDRON, pid, some (faceStreamOf faces)⟩ i
      let nFaceVertices : Int := faceVertexIds.length
      let pos := st.1 + 1
      let faceStream ← writeAt st.2 pos (← Element.getFaceVertexCount info
        ⟨id, ElementType.POLYHEDRON, pid, some (faceStreamOf faces)⟩ i)
      forLoop 0 nFaceVertices (Element.writeFaceVertexIds faceVertexIds) (pos, faceStream))
    0 (faces.length : Int) faces.length (by simp)
    (fun j => (((facePosition faces j : Int) - 1),
      filledUpTo (faceStreamOf faces) (facePosition faces j)))
    (fun j hj => getFaceStream_face_step info hT hQ hP id pid faces j hj hsize)
  have hzero := filledUpTo_zero_write (faceStreamOf faces) _ (faceStreamOf_head faces)
  simp only [facePosition_zero, Nat.cast_one, sub_self, Option.bind_eq_bind] at hloop
  simp only [Element.getFaceStream, getFaceStreamSize_polyhedron info id pid faces hsize,
    Element.getFaceCount,
    countPolyhedronFaces, readAt_of_eq _ 0 0 rfl, faceStreamOf_head, Option.bind_eq_bind,
    Option.some_bind, Int.toNat_ofNat, hzero]
  rw [if_neg (by omega), hloop]
  simp only [Option.some_bind, Option.pure_def, ← faceStreamOf_length, filledUpTo_all]

/-- C7: on a POLYHEDRON whose connectivity is the face stream of a list of
faces, `getFaceStream()` returns the connectivity itself, entry by entry, a
vector of `getConnectSize()` entries.  The reference table is the one of the
code: TRIANGLE and QUAD have a reference element, POLYGON has none. -/
theorem getFaceStream_polyhedron (info : InfoTable)
    (hT : hasInfo info ElementType.TRIANGLE = true)
    (hQ : hasInfo info ElementType.QUAD = true) (hP : hasInfo info ElementType.POLYGON = false)
    (id pid : Int) (faces : List (List Int)) (hsize : (faceStreamOf faces).length < 2 ^ 31) :
    Element.getFaceStream info ⟨id, ElementType.POLYHEDRON, pid, some (faceStreamOf faces)⟩ =
      some (faceStreamOf faces) ∧
    Element.getConnectSize info ⟨id, ElementType.POLYHEDRON, pid, some (faceStreamOf faces)⟩ =
      some ((faceStreamOf faces).length : Int) :=
  ⟨getFaceStream_faceStreamOf info hT hQ hP id pid faces hsize,
    getFaceStreamSize_polyhedron info id pid faces hsize⟩

theorem getFaceStream_polyhedron_witness :
    hasInfo planarInfo ElementType.TRIANGLE = true ∧
    hasInfo planarInfo ElementType.QUAD = true ∧
    hasInfo planarInfo ElementType.POLYGON = false ∧
    (faceStreamOf [[5, 6, 7], [7, 6, 9, 10], [5, 9], [1, 2, 3, 4, 5]]).length < 2 ^ 31 ∧
    Element.getFaceStream planarInfo ⟨1, ElementType.POLYHEDRON, 0,
        some (faceStreamOf [[5, 6, 7], [7, 6, 9, 10], [5, 9], [1, 2, 3, 4, 5]])⟩ =
      some (faceStreamOf [[5, 6, 7], [7, 6, 9, 10], [5, 9], [1, 2, 3, 4, 5]]) ∧
    Element.getConnectSize planarInfo ⟨1, ElementType.POLYHEDRON, 0,
        some (faceStreamOf [[5, 6, 7], [7, 6, 9, 10], [5, 9], [1, 2, 3, 4, 5]])⟩ =
      some ((faceStreamOf [[5, 6, 7], [7, 6, 9, 10], [5, 9], [1, 2, 3, 4, 5]]).length : Int) :=
  ⟨rfl, rfl, rfl, by decide,
    getFaceStream_polyhedron planarInfo rfl rfl rfl 1 0
      [[5, 6, 7], [7, 6, 9, 10], [5, 9], [1, 2, 3, 4, 5]] (by decide)⟩

/-! ### renumberFaceStream -/

theorem renumberStreamEntry_at (map : Int → Option Int) (pre post : List Int) (a : Int)
    (k p : Int) (hp : p + 1 = (pre.length : Int)) :
    Element.renumberStreamEntry map k (p, pre ++ a :: post) =
      some ((pre.length : Int), pre ++ translate map a :: post) := by
  unfold Element.renumberStreamEntry
  have hr : readAt (pre ++ a :: post) (p + 1) = some a := by
    rw [readAt_of_eq _ _ pre.length hp, List.getElem?_append_right (le_refl _)]; simp
  simp only [hr, Option.bind_eq_bind, Option.some_bind]
  cases h : map a with
  | none => simp [translate_none map a h, hp]
  | some w =>
    simp only [translate_some map a w h]
    rw [writeAt_of_eq _ _ pre.length _ hp (by simp)]
    simp [hp]

theorem renumberStream_segment (map : Int → Option Int) (seg : List Int) :
    ∀ (pre post : List Int) (first p : Int), p + 1 = (pre.length : Int) →
    forRange (Element.renumberStreamEntry map) seg.length first (p, pre ++ seg ++ post) =
      some (p + (seg.length : Int), pre ++ seg.map (translate map) ++ post) := by
  induction seg with
  | nil => intro pre post first p _; simp [forRange]
  | cons a seg ih =>
    intro pre post first p hp
    simp only [List.length_cons, forRange, List.append_assoc, List.cons_append,
      renumberStreamEntry_at map pre _ a first p hp, Option.some_bind, List.map_cons]
    have := ih (pre ++ [translate map a]) post (first + 1) (pre.length : Int) (by simp)
    simp only [List.append_assoc, List.singleton_append, List.cons_append, List.nil_append]
      at this
    rw [this]
    congr 2
    push_cast
    omega

theorem renumberStreamFace_step (map : Int → Option Int) (a b : List (List Int))
    (face : List Int) :
    (do
      let pos := ((encodeFaces a).length : Int) + 1
      let nFaceVertices ← readAt (faceStreamOf (a ++ face :: b)) pos
      forLoop 0 nFaceVertices (Element.renumberStreamEntry map)
        (pos, faceStreamOf (a ++ face :: b))) =
      some (((encodeFaces (a ++ [face.map (translate map)])).length : Int),
        faceStreamOf (a ++ face.map (translate map) :: b)) := by
  have hsplit : faceStreamOf (a ++ face :: b) =
      (((a ++ face :: b).length : Int) :: encodeFaces a) ++
        ((face.length : Int) :: (face ++ encodeFaces b)) := by
    simp [faceStreamOf, encodeFaces_append, encodeFaces]
  have hread : readAt (faceStreamOf (a ++ face :: b)) (((encodeFaces a).length : Int) + 1) =
      some (face.length : Int) := by
    rw [readAt_of_eq _ _ ((encodeFaces a).length + 1) (by push_cast; rfl), hsplit,
      List.getElem?_append_right (by simp)]
    rw [show (encodeFaces a).length + 1 -
      (((a ++ face :: b).length : Int) :: encodeFaces a).length = 0 by simp]
    exact List.getElem?_cons_zero
  simp only [hread, Option.bind_eq_bind, Option.some_bind]
  unfold forLoop
  rw [show ((face.length : Int) - 0).toNat = face.length by omega, faceStreamOf_split,
    renumberStream_segment map face _ _ 0 _ (by simp), faceStreamOf_split]
  simp [encodeFaces_append, encodeFaces]
  omega

theorem renumberFaceStream_faceStreamOf (map : Int → Option Int) (faces : List (List Int)) :
    Element.renumberFaceStream map (faceStreamOf faces) =
      some (faceStreamOf (faces.map (List.map (translate map)))) := by
  have hloop := forLoop_steps (fun _i (st : Int × List Int) => do
      let pos := st.1 + 1
      let nFaceVertices ← readAt st.2 pos
      forLoop 0 nFaceVertices (Element.renumberStreamEntry map) (pos, st.2))
    0 (faces.length : Int) faces.length (by simp)
    (fun j => (((encodeFaces ((faces.take j).map (List.map (translate map)))).length : Int),
      faceStreamOf ((faces.take j).map (List.map (translate map)) ++ faces.drop j)))
    (fun j hj => by
      have hdrop : faces.drop j = faces[j] :: faces.drop (j + 1) := by
        rw [List.drop_eq_getElem_cons hj]
      have htake : faces.take (j + 1) = faces.take j ++ [faces[j]] := by
        rw [List.take_succ, List.getElem?_eq_getElem hj]; rfl
      have := renumberStreamFace_step map ((faces.take j).map (List.map (translate map)))
        (faces.drop (j + 1)) faces[j]
      beta_reduce
      rw [hdrop, htake, List.map_append, List.map_cons, List.map_nil, List.append_assoc,
        List.singleton_append]
      exact this)
  simp only [List.take_zero, List.map_nil, List.nil_append, List.drop_zero, List.take_length,
    List.drop_length, List.append_nil, encodeFaces, List.length_nil, Nat.cast_zero,
    Option.bind_eq_bind] at hloop
  simp only [Element.renumberFaceStream, readAt_of_eq _ 0 0 rfl, faceStreamOf_head,
    Option.bind_eq_bind, Option.some_bind]
  rw [hloop]
  rfl

theorem facePosition_map (g : List Int → List Int) (hg : ∀ face, (g face).length = face.length)
    (faces : List (List Int)) (f : Nat) :
    facePosition (faces.map g) f = facePosition faces f := by
  unfold facePosition
  rw [← List.map_take, List.map_map]
  congr 2
  apply List.map_congr_left
  intro face _
  simp [hg face]

/-- C8: on the face stream of a list of faces, `renumberFaceStream` returns the
face stream of the faces with every vertex id translated once: the length, the
leading face count and the vertex count of every face are unchanged, whatever
the keys of the map, and the vertex entry `k` of face `f` is the translation of
the former entry. -/
theorem renumberFaceStream_spec (map : Int → Option Int) (faces : List (List Int))
    (_hsize : (faceStreamOf faces).length < 2 ^ 31) :
    ∃ renumbered : List Int,
      Element.renumberFaceStream map (faceStreamOf faces) = some renumbered ∧
      renumbered = faceStreamOf (faces.map (List.map (translate map))) ∧
      renumbered.length = (faceStreamOf faces).length ∧
      renumbered[0]? = some (faces.length : Int) ∧
      ∀ (f : Nat) (face : List Int), faces[f]? = some face →
        renumbered[facePosition faces f]? = some (face.length : Int) ∧
        ∀ k : Nat, k < face.length →
          renumbered[facePosition faces f + 1 + k]? = (face[k]?).map (translate map) := by
  have hpos : ∀ f, facePosition (faces.map (List.map (translate map))) f = facePosition faces f :=
    facePosition_map _ (fun face => List.length_map _ _) faces
  refine ⟨_, renumberFaceStream_faceStreamOf map faces, rfl, ?_, ?_, ?_⟩
  · rw [faceStreamOf_length, faceStreamOf_length, hpos, List.length_map]
  · simpa using faceStreamOf_head (faces.map (List.map (translate map)))
  · intro f face hface
    have hface' : (faces.map (List.map (translate map)))[f]? = some (face.map (translate map)) := by
      rw [List.getElem?_map, hface]; rfl
    constructor
    · have := faceStreamOf_count _ f _ hface'
      rw [hpos] at this
      simpa using this
    · intro k hk
      have := faceStreamOf_vertex _ f _ hface' k (by simpa using hk)
      rw [hpos] at this
      rw [this, List.getElem?_map]

theorem renumberFaceStream_spec_witness :
    (faceStreamOf sampleFaces).length < 2 ^ 31 ∧
    ∃ renumbered : List Int,
      Element.renumberFaceStream sampleMap (faceStreamOf sampleFaces) = some renumbered ∧
      renumbered = faceStreamOf (sampleFaces.map (List.map (translate sampleMap))) ∧
      renumbered.length = (faceStreamOf sampleFaces).length ∧
      renumbered[0]? = some (sampleFaces.length : Int) ∧
      ∀ (f : Nat) (face : List Int), sampleFaces[f]? = some face →
        renumbered[facePosition sampleFaces f]? = some (face.length : Int) ∧
        ∀ k : Nat, k < face.length →
          renumbered[facePosition sampleFaces f + 1 + k]? = (face[k]?).map (translate sampleMap) :=
  ⟨by decide, renumberFaceStream_spec sampleMap sampleFaces (by decide)⟩

/-- C9: on a POLYHEDRON whose connectivity is the face stream of a list of
faces, renumbering the face stream returned by `getFaceStream()` gives the
vector that `getFaceStream()` returns after `renumberVertices` with the same
map. -/
theorem renumberFaceStream_getFaceStream (info : InfoTable)
    (hT : hasInfo info ElementType.TRIANGLE = true)
    (hQ : hasInfo info ElementType.QUAD = true) (hP : hasInfo info ElementType.POLYGON = false)
    (map : Int → Option Int) (id pid : Int) (faces : List (List Int))
    (hsize : (faceStreamOf faces).length < 2 ^ 31) :
    ∃ (faceStream renumbered : List Int) (e' : Element),
      Element.getFaceStream info ⟨id, ElementType.POLYHEDRON, pid, some (faceStreamOf faces)⟩ =
        some faceStream ∧
      Element.renumberFaceStream map faceStream = some renumbered ∧
      Element.renumberVertices info map
        ⟨id, ElementType.POLYHEDRON, pid, some (faceStreamOf faces)⟩ = some e' ∧
      Element.getFaceStream info e' = some renumbered :=
  ⟨_, _, _, getFaceStream_faceStreamOf info hT hQ hP id pid faces hsize,
    renumberFaceStream_faceStreamOf map faces,
    renumberVertices_polyhedron info map id pid faces hsize,
    getFaceStream_faceStreamOf info hT hQ hP id pid _
      (lt_of_eq_of_lt (faceStreamOf_length_congr _ _ (by
        rw [List.map_map]
        apply List.map_congr_left
        intro face _
        exact List.length_map _ _)) hsize)⟩

theorem renumberFaceStream_getFaceStream_witness :
    hasInfo planarInfo ElementType.TRIANGLE = true ∧
    hasInfo planarInfo ElementType.QUAD = true ∧
    hasInfo planarInfo ElementType.POLYGON = false ∧
    (faceStreamOf sampleFaces).length < 2 ^ 31 ∧
    ∃ (faceStream renumbered : List Int) (e' : Element),
      Element.getFaceStream planarInfo
        ⟨1, ElementType.POLYHEDRON, 0, some (faceStreamOf sampleFaces)⟩ = some faceStream ∧
      Element.renumberFaceStream sampleMap faceStream = some renumbered ∧
      Element.renumberVertices planarInfo sampleMap
        ⟨1, ElementType.POLYHEDRON, 0, some (faceStreamOf sampleFaces)⟩ = some e' ∧
      Element.getFaceStream planarInfo e' = some renumbered :=
  ⟨rfl, rfl, rfl, by decide,
    renumberFaceStream_getFaceStream planarInfo rfl rfl rfl sampleMap 1 0 sampleFaces (by decide)⟩

/-! ### Binary streams -/

theorem toBytes_length (width : Nat) : ∀ x : Nat, (toBytes width x).length = width := by
  induction width with
  | zero => intro x; rfl
  | succ w ih => intro x; simp [toBytes, ih]

theorem ofBytes_toBytes (width : Nat) : ∀ x : Nat, ofBytes (toBytes width x) = x % 256 ^ width := by
  induction width with
  | zero => intro x; simp [toBytes, ofBytes, Nat.mod_one]
  | succ w ih =>
    intro x
    simp only [toBytes, ofBytes, ih]
    rw [pow_succ, Nat.mul_comm (256 ^ w) 256, Nat.mod_mul]

theorem encodeSigned_length (width : Nat) (x : Int) : (encodeSigned width x).length = width :=
  toBytes_length width _

theorem decode_encode_int (x : Int) (h1 : -(2 ^ 31 : Int) ≤ x) (h2 : x < 2 ^ 31) :
    decodeSigned 4 (encodeSigned 4 x) = x := by
  unfold decodeSigned encodeSigned
  rw [ofBytes_toBytes]
  norm_num at h1 h2 ⊢
  have hm : (x % 4294967296).toNat % 4294967296 = (x % 4294967296).toNat := by omega
  rw [hm]
  split <;> omega

theorem decode_encode_long (x : Int) (h1 : -(2 ^ 63 : Int) ≤ x) (h2 : x < 2 ^ 63) :
    decodeSigned 8 (encodeSigned 8 x) = x := by
  unfold decodeSigned encodeSigned
  rw [ofBytes_toBytes]
  norm_num at h1 h2 ⊢
  have hm : (x % 18446744073709551616).toNat % 18446744073709551616 =
      (x % 18446744073709551616).toNat := by omega
  rw [hm]
  split <;> omega

theorem readBytes_append (bytes rest : List Nat) :
    readBytes bytes.length (bytes ++ rest) = some (bytes, rest) := by
  simp [readBytes]

theorem readInt_encode (x : Int) (rest : List Nat) (h1 : -(2 ^ 31 : Int) ≤ x) (h2 : x < 2 ^ 31) :
    readInt (encodeSigned 4 x ++ rest) = some (x, rest) := by
  have := readBytes_append (encodeSigned 4 x) rest
  rw [encodeSigned_length] at this
  simp only [readInt, this, Option.bind_eq_bind, Option.some_bind, Option.pure_def,
    decode_encode_int x h1 h2]

theorem readLong_encode (x : Int) (rest : List Nat) (h1 : -(2 ^ 63 : Int) ≤ x) (h2 : x < 2 ^ 63) :
    readLong (encodeSigned 8 x ++ rest) = some (x, rest) := by
  have := readBytes_append (encodeSigned 8 x) rest
  rw [encodeSigned_length] at this
  simp only [readLong, this, Option.bind_eq_bind, Option.some_bind, Option.pure_def,
    decode_encode_long x h1 h2]

theorem readLongs_encode (data : List Int) (rest : List Nat)
    (h : ∀ x ∈ data, -(2 ^ 63 : Int) ≤ x ∧ x < 2 ^ 63) :
    readLongs data.length ((data.map (encodeSigned 8)).flatten ++ rest) = some (data, rest) := by
  induction data with
  | nil => rfl
  | cons x data ih =>
    have hx := h x (List.mem_cons_self _ _)
    have ih' := ih (fun y hy => h y (List.mem_cons_of_mem _ hy))
    simp only [List.map_cons, List.flatten_cons, List.append_assoc, List.length_cons, readLongs,
      readLong_encode x _ hx.1 hx.2, ih', Option.bind_eq_bind, Option.some_bind, Option.pure_def]

theorem readType_encode (typeCode : ElementType → Int) (hinj : Function.Injective typeCode)
    (hrange : ∀ t, -(2 ^ 31 : Int) ≤ typeCode t ∧ typeCode t < 2 ^ 31)
    (type : ElementType) (rest : List Nat) :
    readType typeCode (encodeSigned 4 (typeCode type) ++ rest) = some (type, rest) := by
  have hfind : allElementTypes.find? (fun t => typeCode t = typeCode type) = some type := by
    cases type <;> simp [allElementTypes, List.find?, hinj.eq_iff]
  simp only [readType, readInt_encode _ rest (hrange type).1 (hrange type).2, Option.bind_eq_bind,
    Option.some_bind, hfind, Option.pure_def]

/-! ### Serialization -/

theorem getConnectSize_reference (info : InfoTable) (e : Element)
    (h1 : e.m_type ≠ ElementType.POLYGON)
    (h2 : e.m_type ≠ ElementType.POLYHEDRON) (h3 : e.m_type ≠ ElementType.UNDEFINED)
    (r : ReferenceElementInfo) (hr : info e.m_type = some r) :
    e.getConnectSize info = some r.nVertices := by
  have hcount := getVertexCount_reference info e h1 h2 h3 r hr
  unfold Element.getConnectSize
  cases h : e.m_type <;> simp_all [assertDefined, bind, Option.bind, pure]

/-- The storage of an element of defined type: it is set, `getConnectSize()` is
its length, and either the type has a reference element with as many vertices,
or the type has none and the storage is not empty. -/
theorem wellFormed_connect (info : InfoTable)
    (hP : hasInfo info ElementType.POLYGON = false)
    (hPH : hasInfo info ElementType.POLYHEDRON = false)
    (e : Element) (hw : e.WellFormed info) :
    ∃ connectivity : List Int, e.m_connect = some connectivity ∧
      e.getConnectSize info = some (connectivity.length : Int) ∧
      connectivity.length < 2 ^ 31 ∧
      ((hasInfo info e.m_type = true ∧ e.m_type ≠ ElementType.POLYGON ∧
          e.m_type ≠ ElementType.POLYHEDRON ∧ e.m_type ≠ ElementType.UNDEFINED ∧
          ∃ r, info e.m_type = some r ∧ r.nVertices = (connectivity.length : Int)) ∨
        (hasInfo info e.m_type = false ∧ 0 < connectivity.length)) := by
  obtain ⟨id, type, pid, connect⟩ := e
  rcases wellFormed_cases info _ hw with ⟨ht, vertices, hc, hlen⟩ | ⟨ht, faces, hc, hlen⟩ |
    ⟨h1, h2, h3, r, connectivity, hr, hc, hn, hlen⟩
  · simp only at ht hc
    subst ht hc
    refine ⟨_, rfl, ?_, by simpa using hlen, Or.inr ⟨hP, by simp⟩⟩
    simp [Element.getConnectSize, Element.getVertexCount, countPolygonVertices, readAt]
    omega
  · simp only at ht hc
    subst ht hc
    refine ⟨_, rfl, getFaceStreamSize_polyhedron info id pid faces hlen, hlen,
      Or.inr ⟨hPH, ?_⟩⟩
    simp [faceStreamOf]
  · simp only at h1 h2 h3 hr hc
    subst hc
    refine ⟨_, rfl, ?_, hlen, Or.inl ⟨by simp [hasInfo, hr], h1, h2, h3, r, hr, hn⟩⟩
    rw [getConnectSize_reference info _ h1 h2 h3 r hr, hn]

/-- What `_initialize` leaves in the storage, and what `buffer.read` makes of
it: on a destination whose storage fits its type, the element is initialised
and `n` entries can be copied into its storage; when `n` is positive the
storage then holds exactly these entries. -/
theorem initialize_overwrite (info : InfoTable) (junk : Nat → Int) (dst : Element)
    (hdst : dst.StorageFits info) (id : Int) (type : ElementType) (connectSize : Int) (n : Nat)
    (heff : (hasInfo info type = true ∧ ∃ r, info type = some r ∧ r.nVertices = (n : Int)) ∨
      (hasInfo info type = false ∧ connectSize = (n : Int)))
    (data : List Int) (hdata : data.length = n) :
    ∃ storage final, dst._initialize info junk id type connectSize = some ⟨id, type, 0, storage⟩ ∧
      Element.overwriteConnect storage data = some final ∧
      (0 < n → final = some data) := by
  have hsize : (if hasInfo info type then (info type).map (fun r => r.nVertices)
      else some connectSize : Option Int) = some (n : Int) := by
    rcases heff with ⟨h, r, hr, hn⟩ | ⟨h, hn⟩
    · simp [h, hr, hn]
    · simp [h, hn]
  have hprev : ∃ previous : Int, (if dst.m_connect.isSome then
        if hasInfo info dst.m_type then (info dst.m_type).map (fun r => r.nVertices)
        else some 0
      else some 0 : Option Int) = some previous ∧
      (previous = (n : Int) → 0 < n → ∃ s, dst.m_connect = some s ∧ s.length = n) := by
    cases hc : dst.m_connect with
    | none => exact ⟨0, by simp, fun h hn => by omega⟩
    | some s =>
      cases hi : info dst.m_type with
      | none => exact ⟨0, by simp [hasInfo, hi], fun h hn => by omega⟩
      | some r =>
        refine ⟨r.nVertices, by simp [hasInfo, hi], fun h _ => ⟨s, rfl, ?_⟩⟩
        have := hdst s r hc hi
        omega
  obtain ⟨previous, hprevEq, hprevFit⟩ := hprev
  unfold Element._initialize
  simp only [hsize, hprevEq, Option.bind_eq_bind, Option.some_bind, Option.pure_def,
    Element._initializeStorage]
  by_cases hne : (n : Int) = previous
  · rw [if_neg (by simpa using hne)]
    by_cases hn : 0 < n
    · obtain ⟨s, hs, hlen⟩ := hprevFit hne.symm hn
      refine ⟨dst.m_connect, some data, rfl, ?_, fun _ => rfl⟩
      simp [Element.overwriteConnect, hs, hlen, hdata]
    · have hd : data = [] := by
        apply List.eq_nil_of_length_eq_zero; omega
      subst hd
      cases hc : dst.m_connect with
      | none => exact ⟨none, none, rfl, by simp [Element.overwriteConnect], fun h => absurd h hn⟩
      | some s =>
        exact ⟨some s, some s, rfl, by simp [Element.overwriteConnect], fun h => absurd h hn⟩
  · rw [if_pos (by simpa using hne), if_neg (by omega)]
    refine ⟨_, some data, rfl, ?_, fun _ => rfl⟩
    simp [Element.overwriteConnect, hdata]

theorem writeElement_wellFormed (info : InfoTable) (typeCode : ElementType → Int)
    (buffer : List Nat) (id pid : Int) (type : ElementType) (connectivity : List Int)
    (hsize : Element.getConnectSize info ⟨id, type, pid, some connectivity⟩ =
      some (connectivity.length : Int)) :
    writeElement info typeCode buffer ⟨id, type, pid, some connectivity⟩ =
      some (buffer ++ (encodeSigned 4 (typeCode type) ++ (encodeSigned 8 id ++
        ((if hasInfo info type then [] else encodeSigned 4 (connectivity.length : Int)) ++
          ((connectivity.map (encodeSigned 8)).flatten ++ encodeSigned 4 pid))))) := by
  unfold writeElement
  simp only [hsize, proxyVector_all, Option.bind_eq_bind, Option.some_bind, Option.pure_def]
  cases hasInfo info type <;> simp

theorem readElement_wellFormed (info : InfoTable) (typeCode : ElementType → Int)
    (hinj : Function.Injective typeCode)
    (hrange : ∀ t, -(2 ^ 31 : Int) ≤ typeCode t ∧ typeCode t < 2 ^ 31)
    (junk : Nat → Int) (dst : Element) (hdst : dst.StorageFits info) (rest : List Nat)
    (id pid : Int) (type : ElementType) (connectivity : List Int)
    (hlen : connectivity.length < 2 ^ 31)
    (hrep : Element.Representable ⟨id, type, pid, some connectivity⟩)
    (hkind : (hasInfo info type = true ∧ type ≠ ElementType.POLYGON ∧
        type ≠ ElementType.POLYHEDRON ∧ type ≠ ElementType.UNDEFINED ∧
        ∃ r, info type = some r ∧ r.nVertices = (connectivity.length : Int)) ∨
      (hasInfo info type = false ∧ 0 < connectivity.length)) :
    ∃ final : Option (List Int),
      readElement info typeCode junk (encodeSigned 4 (typeCode type) ++ (encodeSigned 8 id ++
        ((if hasInfo info type then [] else encodeSigned 4 (connectivity.length : Int)) ++
          ((connectivity.map (encodeSigned 8)).flatten ++ encodeSigned 4 pid))) ++ rest) dst =
        some (rest, ⟨id, type, pid, final⟩) ∧
      (0 < connectivity.length → final = some connectivity) := by
  obtain ⟨hid1, hid2, hpid1, hpid2, hent⟩ := hrep
  have hentries := hent connectivity rfl
  simp only at hid1 hid2 hpid1 hpid2
  have hlen' : ((connectivity.length : Nat) : Int) < 2 ^ 31 := by exact_mod_cast hlen
  unfold readElement
  simp only [List.append_assoc, readType_encode typeCode hinj hrange, readLong_encode _ _ hid1 hid2,
    Option.bind_eq_bind, Option.some_bind]
  rcases hkind with ⟨hinfo, h1, h2, h3, r, hr, hn⟩ | ⟨hinfo, hpos⟩
  · obtain ⟨storage, final, hinit, hover, hfinal⟩ := initialize_overwrite info junk dst hdst id type
      0 connectivity.length (Or.inl ⟨hinfo, r, hr, hn⟩) connectivity rfl
    have hcs : Element.getConnectSize info ⟨id, type, 0, storage⟩ =
        some (connectivity.length : Int) := by
      rw [getConnectSize_reference info _ h1 h2 h3 r hr, hn]
    refine ⟨final, ?_, hfinal⟩
    simp only [hinfo, if_true, hinit, hcs, Option.some_bind, Option.pure_def, List.nil_append]
    rw [if_neg (by omega)]
    simp only [Int.toNat_ofNat, readLongs_encode connectivity _ hentries, Option.some_bind, hover,
      readInt_encode pid rest hpid1 hpid2, Element.setPID]
  · obtain ⟨storage, final, hinit, hover, hfinal⟩ := initialize_overwrite info junk dst hdst id type
      (connectivity.length : Int) connectivity.length (Or.inr ⟨hinfo, rfl⟩) connectivity rfl
    refine ⟨final, ?_, hfinal⟩
    simp only [hinfo, Bool.false_eq_true, if_false, readInt_encode _ _ (by omega) hlen', hinit,
      Option.some_bind, Option.pure_def]
    rw [if_neg (by omega)]
    simp only [Int.toNat_ofNat, readLongs_encode connectivity _ hentries, Option.some_bind, hover,
      readInt_encode pid rest hpid1 hpid2, Element.setPID]

/-- C10, as amended: serialization round trip.  For an element of defined type
whose values fit their C++ types, and for every destination element whose
storage fits its type, `operator>>` applied to the bytes written by `operator<<` consumes these
bytes and no other, and leaves in the destination the type, the id, the PID and
the connectivity of the element written: `getConnectSize()` is the same and,
when it is positive, the storage holds the same entries.  The numeric values of
the enumeration are injective and fit an `int`; POLYGON and POLYHEDRON have no
reference element. -/
theorem stream_roundtrip (info : InfoTable) (typeCode : ElementType → Int)
    (hinj : Function.Injective typeCode)
    (hrange : ∀ t, -(2 ^ 31 : Int) ≤ typeCode t ∧ typeCode t < 2 ^ 31)
    (hP : hasInfo info ElementType.POLYGON = false)
    (hPH : hasInfo info ElementType.POLYHEDRON = false)
    (junk : Nat → Int) (e dst : Element) (buffer rest : List Nat)
    (hw : e.WellFormed info) (hrep : e.Representable) (hdst : dst.StorageFits info) :
    ∃ (written : List Nat) (e' : Element) (n : Nat),
      writeElement info typeCode buffer e = some (buffer ++ written) ∧
      readElement info typeCode junk (written ++ rest) dst = some (rest, e') ∧
      e'.m_type = e.m_type ∧ e'.m_id = e.m_id ∧ e'.m_pid = e.m_pid ∧
      e.getConnectSize info = some (n : Int) ∧ e'.getConnectSize info = some (n : Int) ∧
      (0 < n → e'.m_connect = e.m_connect) := by
  obtain ⟨connectivity, hc, hsize, hlen, hkind⟩ := wellFormed_connect info hP hPH e hw
  obtain ⟨id, type, pid, connect⟩ := e
  simp only at hc hkind
  subst hc
  obtain ⟨final, hread, hfinal⟩ := readElement_wellFormed info typeCode hinj hrange junk dst hdst
    rest id pid type connectivity hlen hrep hkind
  refine ⟨_, _, connectivity.length,
    writeElement_wellFormed info typeCode buffer id pid type connectivity hsize, hread, rfl, rfl,
    rfl, hsize, ?_, hfinal⟩
  by_cases hn : 0 < connectivity.length
  · rw [hfinal hn]; exact hsize
  · rcases hkind with ⟨_, h1, h2, h3, r, hr, hnv⟩ | ⟨_, hpos⟩
    · rw [getConnectSize_reference info _ h1 h2 h3 r hr, hnv]
    · exact absurd hpos hn

theorem sampleTypeCode_injective : Function.Injective sampleTypeCode := by
  intro a b h
  cases a <;> cases b <;> first | rfl | (simp [sampleTypeCode] at h)

theorem sampleTypeCode_range (t : ElementType) :
    -(2 ^ 31 : Int) ≤ sampleTypeCode t ∧ sampleTypeCode t < 2 ^ 31 := by
  cases t <;> simp [sampleTypeCode]

theorem stream_roundtrip_witness :
    Function.Injective sampleTypeCode ∧
    (∀ t, -(2 ^ 31 : Int) ≤ sampleTypeCode t ∧ sampleTypeCode t < 2 ^ 31) ∧
    hasInfo planarInfo ElementType.POLYGON = false ∧
    hasInfo planarInfo ElementType.POLYHEDRON = false ∧
    Element.WellFormed planarInfo ⟨7, ElementType.POLYHEDRON, 3, some (faceStreamOf sampleFaces)⟩ ∧
    Element.Representable ⟨7, ElementType.POLYHEDRON, 3, some (faceStreamOf sampleFaces)⟩ ∧
    Element.StorageFits planarInfo ⟨0, ElementType.TRIANGLE, 9, some [1, 2, 3]⟩ ∧
    ∃ (written : List Nat) (e' : Element) (n : Nat),
      writeElement planarInfo sampleTypeCode [1, 2]
        ⟨7, ElementType.POLYHEDRON, 3, some (faceStreamOf sampleFaces)⟩ =
          some ([1, 2] ++ written) ∧
      readElement planarInfo sampleTypeCode (fun _ => 0) (written ++ [3, 4])
        ⟨0, ElementType.TRIANGLE, 9, some [1, 2, 3]⟩ = some ([3, 4], e') ∧
      e'.m_type = ElementType.POLYHEDRON ∧ e'.m_id = 7 ∧ e'.m_pid = 3 ∧
      Element.getConnectSize planarInfo
        ⟨7, ElementType.POLYHEDRON, 3, some (faceStreamOf sampleFaces)⟩ = some (n : Int) ∧
      e'.getConnectSize planarInfo = some (n : Int) ∧
      (0 < n → e'.m_connect = some (faceStreamOf sampleFaces)) :=
  have hw : Element.WellFormed planarInfo
      ⟨7, ElementType.POLYHEDRON, 3, some (faceStreamOf sampleFaces)⟩ :=
    ⟨sampleFaces, rfl, by decide⟩
  have hrep : Element.Representable
      ⟨7, ElementType.POLYHEDRON, 3, some (faceStreamOf sampleFaces)⟩ :=
    ⟨by decide, by decide, by decide, by decide, fun connectivity hc => by
      simp only [Option.some.injEq] at hc
      subst hc
      decide⟩
  have hdst : Element.StorageFits planarInfo ⟨0, ElementType.TRIANGLE, 9, some [1, 2, 3]⟩ :=
    fun storage r hs hr => by
      simp only [Option.some.injEq] at hs
      simp only [planarInfo, Option.some.injEq] at hr
      subst hs hr
      rfl
  ⟨sampleTypeCode_injective, sampleTypeCode_range, rfl, rfl, hw, hrep, hdst,
    stream_roundtrip planarInfo sampleTypeCode sampleTypeCode_injective sampleTypeCode_range
      rfl rfl (fun _ => 0) ⟨7, ElementType.POLYHEDRON, 3, some (faceStreamOf sampleFaces)⟩
      ⟨0, ElementType.TRIANGLE, 9, some [1, 2, 3]⟩ [1, 2] [3, 4] hw hrep hdst⟩

/-! ### getFaceStreamSize on elements that are not polyhedra -/

/-- C6, evaluation of the code: `getFaceStreamSize()` walks the connectivity as
if it were a face stream, which it is only for a POLYHEDRON.  On a triangle the
walk leaves the three entries of the storage (position 1, then 13), where the
face stream has 10 entries; on a polygon with the vertices 0 and 5 it returns 8
where the face stream has 7 entries, and `getFaceStream()` returns a vector of 8
entries whose last one was never written. -/
theorem getFaceStreamSize_not_polyhedron :
    sampleTriangle.WellFormed planarInfo ∧
    sampleTriangle.faceStreamSizeByFaces planarInfo = some 10 ∧
    sampleTriangle.getFaceStreamSize planarInfo = none ∧
    getFaceStreamPosition [10, 11, 12] 1 = some 13 ∧
    readAt [10, 11, 12] 13 = none ∧
    sampleDigon.WellFormed planarInfo ∧
    sampleDigon.faceStreamSizeByFaces planarInfo = some 7 ∧
    sampleDigon.getFaceStreamSize planarInfo = some 8 ∧
    sampleDigon.getFaceStream planarInfo = some [2, 2, 0, 5, 2, 5, 0, 0] := by
  refine ⟨⟨_, _, rfl, rfl, rfl, by decide⟩, by decide, by decide, by decide, by decide,
    ⟨[0, 5], rfl, by decide⟩, by decide, by decide, by decide⟩

/-- C10, counterexample: the destination is a TRIANGLE whose storage has one
entry, a prior state that the round trip of a well-formed triangle does not
survive: `_initialize` keeps the storage, since the number of vertices of the
type read is the one of the previous type, and the three entries read are
written past it, which has no defined result. -/
theorem stream_roundtrip_counterexample :
    sampleTriangle.WellFormed planarInfo ∧ sampleTriangle.Representable ∧
    ¬ Element.StorageFits planarInfo shortTriangle ∧
    ∃ written : List Nat,
      writeElement planarInfo sampleTypeCode [] sampleTriangle = some ([] ++ written) ∧
      Element._initialize planarInfo (fun _ => 0) shortTriangle 1 ElementType.TRIANGLE 0 =
        some ⟨1, ElementType.TRIANGLE, 0, some [7]⟩ ∧
      readElement planarInfo sampleTypeCode (fun _ => 0) (written ++ []) shortTriangle = none := by
  refine ⟨⟨_, _, rfl, rfl, rfl, by decide⟩,
    ⟨by decide, by decide, by decide, by decide, fun connectivity hc => ?_⟩, ?_, ?_⟩
  · have hconnect : connectivity = [10, 11, 12] := (Option.some.inj hc).symm
    subst hconnect
    decide
  · intro hfits
    have := hfits [7] ⟨3, 3, [.LINE, .LINE, .LINE], [[0, 1], [1, 2], [2, 0]]⟩ rfl rfl
    exact absurd this (by decide)
  · exact ⟨_, rfl, by decide, by decide⟩

/-! ### getBinarySize -/

/-- The structure of `_initialize`: the new storage is either a fresh one of the
effective size, or the previous one when the effective size is the previous
one. -/
theorem initialize_result (info : InfoTable) (junk : Nat → Int) (e : Element) (id : Int)
    (type : ElementType) (connectSize : Int) (size : Int) (hnonneg : 0 ≤ size)
    (hsize : (if hasInfo info type then (info type).map (fun r => r.nVertices)
      else some connectSize : Option Int) = some size) :
    ∃ storage, e._initialize info junk id type connectSize = some ⟨id, type, 0, storage⟩ ∧
      (storage = some ((List.range size.toNat).map junk) ∨
        (storage = e.m_connect ∧
          ((e.m_connect = none ∧ size = 0) ∨
            (∃ s, e.m_connect = some s ∧ info e.m_type = none ∧ size = 0) ∨
            (∃ s r, e.m_connect = some s ∧ info e.m_type = some r ∧ size = r.nVertices)))) := by
  have hprev : ∃ previous : Int, (if e.m_connect.isSome then
        if hasInfo info e.m_type then (info e.m_type).map (fun r => r.nVertices)
        else some 0
      else some 0 : Option Int) = some previous ∧
      ((e.m_connect = none ∧ previous = 0) ∨
        (∃ s, e.m_connect = some s ∧ info e.m_type = none ∧ previous = 0) ∨
        (∃ s r, e.m_connect = some s ∧ info e.m_type = some r ∧ previous = r.nVertices)) := by
    cases hc : e.m_connect with
    | none => exact ⟨0, by simp, Or.inl ⟨rfl, rfl⟩⟩
    | some s =>
      cases hi : info e.m_type with
      | none => exact ⟨0, by simp [hasInfo, hi], Or.inr (Or.inl ⟨s, rfl, rfl, rfl⟩)⟩
      | some r =>
        exact ⟨r.nVertices, by simp [hasInfo, hi], Or.inr (Or.inr ⟨s, r, rfl, rfl, rfl⟩)⟩
  obtain ⟨previous, hprevEq, hprevCases⟩ := hprev
  unfold Element._initialize
  simp only [hsize, hprevEq, Option.bind_eq_bind, Option.some_bind, Option.pure_def,
    Element._initializeStorage]
  by_cases hne : size = previous
  · rw [if_neg (by simpa using hne)]
    refine ⟨e.m_connect, rfl, Or.inr ⟨rfl, ?_⟩⟩
    subst hne
    exact hprevCases
  · rw [if_pos (by simpa using hne), if_neg (by omega)]
    exact ⟨_, rfl, Or.inl rfl⟩

/-- C12, as amended: for every prior state `e` and every `(id, type,
connectSize)` for which a storage can be allocated, `initialize(id, type, connectSize)` returns and
afterwards the id is `id`, the type is `type` and the PID is 0; when the type has
a reference element the result does not depend on `connectSize`, and the storage
has the reference element's number of vertices (for a prior state whose storage
has the size of its own type). -/
theorem initialize_spec (info : InfoTable) (junk : Nat → Int) (e : Element) (id : Int)
    (type : ElementType) (connectSize : Int)
    (halloc : (∃ r, info type = some r ∧ 0 < r.nVertices) ∨
      (info type = none ∧ 0 ≤ connectSize)) :
    ∃ result, e.initialize info junk id type connectSize = some result ∧
      result.m_id = id ∧ result.m_type = type ∧ result.m_pid = 0 ∧
      ∀ r, info type = some r →
        (∀ otherSize, e.initialize info junk id type otherSize = some result) ∧
        (e.StorageFits info →
          ∃ storage, result.m_connect = some storage ∧ (storage.length : Int) = r.nVertices) := by
  rcases halloc with ⟨r, hr, hpos⟩ | ⟨hnone, hnonneg⟩
  · have hsize : ∀ otherSize : Int,
        (if hasInfo info type then (info type).map (fun r => r.nVertices)
          else some otherSize : Option Int) = some r.nVertices := by
      intro otherSize
      simp [hasInfo, hr]
    obtain ⟨storage, hres, hstorage⟩ :=
      initialize_result info junk e id type connectSize r.nVertices (by omega) (hsize connectSize)
    refine ⟨_, hres, rfl, rfl, rfl, ?_⟩
    intro r2 hr2
    rw [hr] at hr2
    cases hr2
    refine ⟨?_, ?_⟩
    · intro otherSize
      unfold Element.initialize
      unfold Element._initialize at hres ⊢
      rw [hsize connectSize] at hres
      rw [hsize otherSize]
      exact hres
    · intro hfit
      rcases hstorage with h | ⟨h, h0 | ⟨s, _, _, h0⟩ | ⟨s, r3, hs, hr3, hn⟩⟩
      · refine ⟨_, h, ?_⟩
        rw [List.length_map, List.length_range]
        omega
      · omega
      · omega
      · refine ⟨s, by rw [h, hs], ?_⟩
        have := hfit s r3 hs hr3
        omega
  · have hsize : (if hasInfo info type then (info type).map (fun r => r.nVertices)
          else some connectSize : Option Int) = some connectSize := by
      simp [hasInfo, hnone]
    obtain ⟨storage, hres, _⟩ :=
      initialize_result info junk e id type connectSize connectSize hnonneg hsize
    refine ⟨_, hres, rfl, rfl, rfl, ?_⟩
    intro r hr
    rw [hnone] at hr
    cases hr

theorem initialize_spec_witness :
    ((∃ r, planarInfo ElementType.QUAD = some r ∧ 0 < r.nVertices) ∨
      (planarInfo ElementType.QUAD = none ∧ 0 ≤ (7 : Int))) ∧
    ∃ result, Element.initialize planarInfo (fun _ => 0) ⟨1, ElementType.TRIANGLE, 5,
        some [10, 11, 12]⟩ 9 ElementType.QUAD 7 = some result ∧
      result.m_id = 9 ∧ result.m_type = ElementType.QUAD ∧ result.m_pid = 0 ∧
      ∀ r, planarInfo ElementType.QUAD = some r →
        (∀ otherSize, Element.initialize planarInfo (fun _ => 0) ⟨1, ElementType.TRIANGLE, 5,
          some [10, 11, 12]⟩ 9 ElementType.QUAD otherSize = some result) ∧
        (Element.StorageFits planarInfo ⟨1, ElementType.TRIANGLE, 5, some [10, 11, 12]⟩ →
          ∃ storage, result.m_connect = some storage ∧ (storage.length : Int) = r.nVertices) :=
  ⟨Or.inl ⟨_, rfl, by decide⟩,
    initialize_spec planarInfo (fun _ => 0) ⟨1, ElementType.TRIANGLE, 5, some [10, 11, 12]⟩ 9
      ElementType.QUAD 7 (Or.inl ⟨_, rfl, by decide⟩)⟩

/-- C12, counterexample: `initialize(9, POLYGON, -1)` has no result, the
allocation of a storage of -1 entries fails before the id is set; and
`initialize(9, TRIANGLE, 0)` on a triangle whose storage has one entry keeps
that storage, which has not the three entries of the reference element. -/
theorem initialize_counterexample :
    Element.initialize planarInfo (fun _ => 0) sampleTriangle 9 ElementType.POLYGON (-1) = none ∧
    (planarInfo ElementType.TRIANGLE).map (fun r => r.nVertices) = some 3 ∧
    Element.initialize planarInfo (fun _ => 0) shortTriangle 9 ElementType.TRIANGLE 0 =
      some ⟨9, ElementType.TRIANGLE, 0, some [7]⟩ := by
  decide

/-! ### The copy constructor -/

theorem sameEntries_self (storage : List Int) :
    ∀ (n k : Nat), k + n ≤ storage.length → sameEntries storage storage n (k : Int) = some true := by
  intro n
  induction n with
  | zero => intro k _; rfl
  | succ n ih =>
    intro k hk
    have hlt : k < storage.length := by omega
    unfold sameEntries
    rw [readAt_natCast, List.getElem?_eq_getElem hlt]
    simp only [Option.bind_eq_bind, Option.some_bind, ne_eq, not_true_eq_false, if_false]
    have := ih (k + 1) (by omega)
    rw [Nat.cast_add, Nat.cast_one] at this
    exact this

theorem hasSameConnect_self (info : InfoTable) (e : Element) (storage : List Int)
    (hc : e.m_connect = some storage)
    (hsize : e.getConnectSize info = some (storage.length : Int)) :
    e.hasSameConnect info e = some true := by
  unfold Element.hasSameConnect
  simp only [hsize, hc, Option.bind_eq_bind, Option.some_bind, ne_eq, not_true_eq_false,
    if_false, Int.toNat_ofNat]
  have := sameEntries_self storage storage.length 0 (by omega)
  rw [Nat.cast_zero] at this
  exact this

/-- The result of `_initialize` on an element whose storage is null. -/
theorem initialize_null (info : InfoTable) (junk : Nat → Int) (e : Element) (id : Int)
    (type : ElementType) (connectSize : Int) (size : Int) (hnonneg : 0 ≤ size)
    (hsize : (if hasInfo info type then (info type).map (fun r => r.nVertices)
      else some connectSize : Option Int) = some size)
    (hc : e.m_connect = none) :
    e._initialize info junk id type connectSize =
      some ⟨id, type, 0, if size = 0 then none else some ((List.range size.toNat).map junk)⟩ := by
  unfold Element._initialize
  simp only [hsize, hc, Option.isSome_none, Bool.false_eq_true, if_false, Option.bind_eq_bind,
    Option.some_bind, Option.pure_def, Element._initializeStorage]
  by_cases h0 : size = 0
  · rw [if_neg (by simpa using h0), if_pos h0]
    rfl
  · rw [if_pos (by simpa using h0), if_neg (by omega), if_neg h0]
    rfl

/-- The copy of an element with a set connectivity is the element itself. -/
theorem copy_set (info : InfoTable) (junk : Nat → Int) (raw other : Element)
    (hP : hasInfo info ElementType.POLYGON = false)
    (hPH : hasInfo info ElementType.POLYHEDRON = false)
    (hpos : ∀ t r, info t = some r → 0 < r.nVertices)
    (hw : other.WellFormed info) :
    Element.copy info junk raw other = some other := by
  obtain ⟨storage, hc, hsize, _, hkind⟩ := wellFormed_connect info hP hPH other hw
  have hlen : 0 < storage.length := by
    rcases hkind with ⟨_, _, _, _, r, hr, hn⟩ | ⟨_, h⟩
    · have := hpos _ r hr
      omega
    · exact h
  obtain ⟨fresh, final, hinit, hover, hfinal⟩ :=
    initialize_overwrite info junk { raw with m_connect := none }
      (by intro s r h; simp at h) other.m_id other.m_type (storage.length : Int) storage.length
      (by
        rcases hkind with ⟨h, _, _, _, r, hr, hn⟩ | ⟨h, _⟩
        · exact Or.inl ⟨h, r, hr, hn⟩
        · exact Or.inr ⟨h, rfl⟩)
      storage rfl
  unfold Element.copy
  simp only [hc, hsize, hinit, hover, proxyVector_all, Option.bind_eq_bind, Option.some_bind,
    Option.pure_def, hfinal hlen]
  obtain ⟨id, type, pid, connect⟩ := other
  simp only at hc
  rw [hc]

/-- C13, as amended: the copy constructor returns an element with the id, the
type and the PID of `other`; a set connectivity is copied with its size and its
entries, so that `hasSameConnect(other)` holds; an unset connectivity stays
unset when the type has no reference element, and for a type with a reference
element the copy has a storage of the reference element's number of vertices
whose entries are not specified.  `other` is a constant reference. -/
theorem copy_spec (info : InfoTable) (junk : Nat → Int) (raw other : Element)
    (hP : hasInfo info ElementType.POLYGON = false)
    (hPH : hasInfo info ElementType.POLYHEDRON = false)
    (hpos : ∀ t r, info t = some r → 0 < r.nVertices)
    (hw : other.m_connect.isSome → other.WellFormed info) :
    ∃ result, Element.copy info junk raw other = some result ∧
      result.m_id = other.m_id ∧ result.m_type = other.m_type ∧ result.m_pid = other.m_pid ∧
      (∀ storage, other.m_connect = some storage →
        result.m_connect = some storage ∧
        result.getConnectSize info = other.getConnectSize info ∧
        result.hasSameConnect info other = some true) ∧
      (other.m_connect = none → info other.m_type = none → result.m_connect = none) ∧
      (other.m_connect = none → ∀ r, info other.m_type = some r →
        result.m_connect = some ((List.range r.nVertices.toNat).map junk)) := by
  cases hc : other.m_connect with
  | some storage =>
    have hwf := hw (by simp [hc])
    obtain ⟨storage2, hc2, hsize, _, _⟩ := wellFormed_connect info hP hPH other hwf
    refine ⟨other, copy_set info junk raw other hP hPH hpos hwf, rfl, rfl, rfl, ?_, ?_, ?_⟩
    · intro s hs
      exact ⟨by rw [← hs, hc], rfl, hasSameConnect_self info other storage2 hc2 hsize⟩
    · intro h; cases h
    · intro h; cases h
  | none =>
    cases hi : info other.m_type with
    | none =>
      have hinit := initialize_null info junk { raw with m_connect := none } other.m_id
        other.m_type 0 0 (le_refl 0) (by simp [hasInfo, hi]) rfl
      rw [if_pos rfl] at hinit
      refine ⟨⟨other.m_id, other.m_type, other.m_pid, none⟩, ?_, rfl, rfl, rfl, ?_, ?_, ?_⟩
      · unfold Element.copy
        simp only [hc, hinit, Option.bind_eq_bind, Option.some_bind, Option.pure_def]
      · intro s hs; cases hs
      · intro _ _; rfl
      · intro _ r hr; cases hr
    | some r =>
      have hr := hpos _ r hi
      have hinit := initialize_null info junk { raw with m_connect := none } other.m_id
        other.m_type 0 r.nVertices (by omega) (by simp [hasInfo, hi]) rfl
      rw [if_neg (by omega)] at hinit
      refine ⟨⟨other.m_id, other.m_type, other.m_pid,
        some ((List.range r.nVertices.toNat).map junk)⟩, ?_, rfl, rfl, rfl, ?_, ?_, ?_⟩
      · unfold Element.copy
        simp only [hc, hinit, Option.bind_eq_bind, Option.some_bind, Option.pure_def]
      · intro s hs; cases hs
      · intro _ h; cases h
      · intro _ r2 hr2
        cases hr2
        rfl

theorem planarInfo_pos : ∀ t r, planarInfo t = some r → 0 < r.nVertices := by
  intro t r h
  cases t <;> simp only [planarInfo, Option.some.injEq] at h <;> first
    | (subst h; decide)
    | exact absurd h (by simp)

theorem copy_spec_witness :
    hasInfo planarInfo ElementType.POLYGON = false ∧
    hasInfo planarInfo ElementType.POLYHEDRON = false ∧
    (sampleTriangle.m_connect.isSome → sampleTriangle.WellFormed planarInfo) ∧
    ∃ result, Element.copy planarInfo (fun _ => 0) sampleDigon sampleTriangle = some result ∧
      result.m_id = sampleTriangle.m_id ∧ result.m_type = sampleTriangle.m_type ∧
      result.m_pid = sampleTriangle.m_pid ∧
      (∀ storage, sampleTriangle.m_connect = some storage →
        result.m_connect = some storage ∧
        result.getConnectSize planarInfo = sampleTriangle.getConnectSize planarInfo ∧
        result.hasSameConnect planarInfo sampleTriangle = some true) ∧
      (sampleTriangle.m_connect = none → planarInfo sampleTriangle.m_type = none →
        result.m_connect = none) ∧
      (sampleTriangle.m_connect = none → ∀ r, planarInfo sampleTriangle.m_type = some r →
        result.m_connect = some ((List.range r.nVertices.toNat).map (fun _ => 0))) :=
  ⟨rfl, rfl, fun _ => ⟨_, _, rfl, rfl, rfl, by decide⟩,
    copy_spec planarInfo (fun _ => 0) sampleDigon sampleTriangle rfl rfl planarInfo_pos
      (fun _ => ⟨_, _, rfl, rfl, rfl, by decide⟩)⟩

/-- C13, counterexample: a triangle whose connectivity was removed with
`unsetConnect` has an unset connectivity, and its copy has a set connectivity: a
storage of three entries, which are not specified (here they are zero). -/
theorem copy_unset_counterexample :
    unsetTriangle = sampleTriangle.unsetConnect ∧
    unsetTriangle.m_connect = none ∧
    ∃ result, Element.copy planarInfo (fun _ => 0) sampleDigon unsetTriangle = some result ∧
      result.m_connect = some [0, 0, 0] ∧
      result.m_connect ≠ unsetTriangle.m_connect := by
  refine ⟨rfl, rfl, ⟨1, ElementType.TRIANGLE, 0, some [0, 0, 0]⟩, ?_, rfl, ?_⟩
  · rfl
  · intro h
    cases h

/-! ### The Morton codec -/

theorem deinterleave_interleave (dim : Nat) (hdim : dim = 2 ∨ dim = 3) :
    ∀ (n x y z : Nat), x < 2 ^ n → y < 2 ^ n → z < 2 ^ n → (dim = 2 → z = 0) →
      deinterleave dim n (interleave dim n x y z) = (x, y, z) := by
  intro n
  induction n with
  | zero =>
    intro x y z hx hy hz _
    simp only [pow_zero, Nat.lt_one_iff] at hx hy hz
    subst hx hy hz
    rfl
  | succ n ih =>
    intro x y z hx hy hz h2
    have ih2 := ih (x / 2) (y / 2) (z / 2) (by rw [pow_succ] at hx; omega)
      (by rw [pow_succ] at hy; omega) (by rw [pow_succ] at hz; omega)
      (by intro h; rw [h2 h])
    rcases hdim with h | h
    · subst h
      have hz0 := h2 rfl
      subst hz0
      simp only [interleave, deinterleave]
      generalize interleave 2 n (x / 2) (y / 2) (0 / 2) = m at ih2
      have h1 : (x % 2 + 2 * (y % 2) + (if (2 : Nat) = 3 then 4 * (0 % 2) else 0) + 2 ^ 2 * m) /
          2 ^ 2 = m := by
        norm_num; omega
      have h3 : (x % 2 + 2 * (y % 2) + (if (2 : Nat) = 3 then 4 * (0 % 2) else 0) + 2 ^ 2 * m) %
          2 ^ 2 = x % 2 + 2 * (y % 2) := by
        norm_num; omega
      rw [h1, h3, ih2]
      simp only [Prod.mk.injEq]
      refine ⟨by omega, by omega, by norm_num⟩
    · subst h
      simp only [interleave, deinterleave, if_true]
      generalize interleave 3 n (x / 2) (y / 2) (z / 2) = m at ih2
      have h1 : (x % 2 + 2 * (y % 2) + 4 * (z % 2) + 2 ^ 3 * m) / 2 ^ 3 = m := by
        norm_num; omega
      have h3 : (x % 2 + 2 * (y % 2) + 4 * (z % 2) + 2 ^ 3 * m) % 2 ^ 3 =
          x % 2 + 2 * (y % 2) + 4 * (z % 2) := by
        norm_num; omega
      rw [h1, h3, ih2]
      simp only [Prod.mk.injEq]
      refine ⟨by omega, by omega, by omega⟩

theorem decodeMorton_computeMorton (tc : TreeConstants) (hdim : tc.dim = 2 ∨ tc.dim = 3)
    (o : Octant) (hv : o.Valid tc) : decodeMorton tc (o.computeMorton tc) = o.position := by
  obtain ⟨hl, hx, hy, hz, _, _, _, h2⟩ := hv
  have hdiv : (o.curveIndex tc * (tc.maxLevel + 1) + o.level) / (tc.maxLevel + 1) =
      o.curveIndex tc := by
    rw [Nat.add_comm, Nat.add_mul_div_right _ _ (Nat.succ_pos _), Nat.div_eq_of_lt (by omega),
      Nat.zero_add]
  have hmod : (o.curveIndex tc * (tc.maxLevel + 1) + o.level) % (tc.maxLevel + 1) = o.level := by
    rw [Nat.add_comm, Nat.add_mul_mod_self_right, Nat.mod_eq_of_lt (by omega)]
  unfold decodeMorton Octant.computeMorton
  simp only [hdiv, hmod]
  unfold Octant.curveIndex
  rw [deinterleave_interleave tc.dim hdim tc.maxLevel o.x o.y o.z hx hy hz h2]
  rfl

/-- C14: for every valid (anchor, level) pair of an octant, decoding the Morton
key computed from it gives back the anchor and the level, and two valid octants
with the same key have the same anchor and the same level. -/
theorem morton_roundtrip (tc : TreeConstants) (hdim : tc.dim = 2 ∨ tc.dim = 3)
    (o : Octant) (hv : o.Valid tc) :
    decodeMorton tc (o.computeMorton tc) = (o.x, o.y, o.z, o.level) ∧
    ∀ other : Octant, other.Valid tc → other.computeMorton tc = o.computeMorton tc →
      other.x = o.x ∧ other.y = o.y ∧ other.z = o.z ∧ other.level = o.level := by
  refine ⟨decodeMorton_computeMorton tc hdim o hv, ?_⟩
  intro other hother hkey
  have h1 := decodeMorton_computeMorton tc hdim other hother
  have h2 := decodeMorton_computeMorton tc hdim o hv
  rw [hkey, h2] at h1
  simp only [Octant.position, Prod.mk.injEq] at h1
  obtain ⟨hx, hy, hz, hl⟩ := h1
  exact ⟨hx.symm, hy.symm, hz.symm, hl.symm⟩

theorem morton_roundtrip_witness :
    ((⟨3, 4⟩ : TreeConstants).dim = 2 ∨ (⟨3, 4⟩ : TreeConstants).dim = 3) ∧
    Octant.Valid ⟨3, 4⟩ ⟨4, 8, 12, 2, 0, true, false⟩ ∧
    decodeMorton ⟨3, 4⟩ (Octant.computeMorton ⟨3, 4⟩ ⟨4, 8, 12, 2, 0, true, false⟩) =
      (4, 8, 12, 2) ∧
    ∀ other : Octant, other.Valid ⟨3, 4⟩ →
      other.computeMorton ⟨3, 4⟩ = Octant.computeMorton ⟨3, 4⟩ ⟨4, 8, 12, 2, 0, true, false⟩ →
      other.x = 4 ∧ other.y = 8 ∧ other.z = 12 ∧ other.level = 2 :=
  ⟨Or.inr rfl, by decide,
    morton_roundtrip ⟨3, 4⟩ (Or.inr rfl) ⟨4, 8, 12, 2, 0, true, false⟩ (by decide)⟩

/-! ### Search in the sorted sequence -/

theorem getD_of_getElem? (keys : List Nat) (j k : Nat) (h : keys[j]? = some k) :
    keys.getD j 0 = k := by
  rw [List.getD_eq_getElem?_getD, h]
  rfl

theorem getD_lt_of_pairwise (keys : List Nat) (hsorted : keys.Pairwise (· < ·)) (i j : Nat)
    (hij : i < j) (hj : j < keys.length) : keys.getD i 0 < keys.getD j 0 := by
  have hi : i < keys.length := by omega
  rw [List.getD_eq_getElem _ _ hi, List.getD_eq_getElem _ _ hj]
  exact List.pairwise_iff_getElem.1 hsorted i j hi hj hij

theorem lowerBoundLoop_spec (keys : List Nat) (hsorted : keys.Pairwise (· < ·)) (target : Nat) :
    ∀ (fuel lo hi : Nat), lo ≤ hi → hi ≤ keys.length → hi - lo ≤ fuel →
      (∀ j, j < lo → keys.getD j 0 < target) →
      (∀ j, hi ≤ j → j < keys.length → target ≤ keys.getD j 0) →
      lo ≤ lowerBoundLoop keys target fuel lo hi ∧
      lowerBoundLoop keys target fuel lo hi ≤ hi ∧
      (∀ j, j < lowerBoundLoop keys target fuel lo hi → keys.getD j 0 < target) ∧
      (∀ j, lowerBoundLoop keys target fuel lo hi ≤ j → j < keys.length →
        target ≤ keys.getD j 0) := by
  intro fuel
  induction fuel with
  | zero =>
    intro lo hi hle hhi hfuel hbelow habove
    have : lo = hi := by omega
    subst this
    exact ⟨le_refl _, le_refl _, hbelow, habove⟩
  | succ fuel ih =>
    intro lo hi hle hhi hfuel hbelow habove
    unfold lowerBoundLoop
    by_cases hlt : lo < hi
    · rw [if_pos hlt]
      have hmid : lo + (hi - lo) / 2 < hi := by omega
      by_cases hkey : keys.getD (lo + (hi - lo) / 2) 0 < target
      · rw [if_pos hkey]
        have := ih (lo + (hi - lo) / 2 + 1) hi (by omega) hhi (by omega)
          (by
            intro j hj
            by_cases hjm : j = lo + (hi - lo) / 2
            · rw [hjm]; exact hkey
            · exact lt_trans (getD_lt_of_pairwise keys hsorted j _ (by omega) (by omega)) hkey)
          habove
        exact ⟨by omega, this.2.1, this.2.2⟩
      · rw [if_neg hkey]
        have := ih lo (lo + (hi - lo) / 2) (by omega) (by omega) (by omega) hbelow
          (by
            intro j hj hjn
            by_cases hjm : j = lo + (hi - lo) / 2
            · rw [hjm]; omega
            · have := getD_lt_of_pairwise keys hsorted (lo + (hi - lo) / 2) j (by omega) hjn
              omega)
        exact ⟨this.1, by omega, this.2.2⟩
    · rw [if_neg hlt]
      have : lo = hi := by omega
      subst this
      exact ⟨le_refl _, le_refl _, hbelow, habove⟩

theorem upperBoundLoop_spec (keys : List Nat) (hsorted : keys.Pairwise (· < ·)) (target : Nat) :
    ∀ (fuel lo hi : Nat), lo ≤ hi → hi ≤ keys.length → hi - lo ≤ fuel →
      (∀ j, j < lo → keys.getD j 0 ≤ target) →
      (∀ j, hi ≤ j → j < keys.length → target < keys.getD j 0) →
      lo ≤ upperBoundLoop keys target fuel lo hi ∧
      upperBoundLoop keys target fuel lo hi ≤ hi ∧
      (∀ j, j < upperBoundLoop keys target fuel lo hi → keys.getD j 0 ≤ target) ∧
      (∀ j, upperBoundLoop keys target fuel lo hi ≤ j → j < keys.length →
        target < keys.getD j 0) := by
  intro fuel
  induction fuel with
  | zero =>
    intro lo hi hle hhi hfuel hbelow habove
    have : lo = hi := by omega
    subst this
    exact ⟨le_refl _, le_refl _, hbelow, habove⟩
  | succ fuel ih =>
    intro lo hi hle hhi hfuel hbelow habove
    unfold upperBoundLoop
    by_cases hlt : lo < hi
    · rw [if_pos hlt]
      have hmid : lo + (hi - lo) / 2 < hi := by omega
      by_cases hkey : keys.getD (lo + (hi - lo) / 2) 0 ≤ target
      · rw [if_pos hkey]
        have := ih (lo + (hi - lo) / 2 + 1) hi (by omega) hhi (by omega)
          (by
            intro j hj
            by_cases hjm : j = lo + (hi - lo) / 2
            · rw [hjm]; exact hkey
            · exact le_trans
                (le_of_lt (getD_lt_of_pairwise keys hsorted j _ (by omega) (by omega))) hkey)
          habove
        exact ⟨by omega, this.2.1, this.2.2⟩
      · rw [if_neg hkey]
        have := ih lo (lo + (hi - lo) / 2) (by omega) (by omega) (by omega) hbelow
          (by
            intro j hj hjn
            by_cases hjm : j = lo + (hi - lo) / 2
            · rw [hjm]; omega
            · have := getD_lt_of_pairwise keys hsorted (lo + (hi - lo) / 2) j (by omega) hjn
              omega)
        exact ⟨this.1, by omega, this.2.2⟩
    · rw [if_neg hlt]
      have : lo = hi := by omega
      subst this
      exact ⟨le_refl _, le_refl _, hbelow, habove⟩

theorem getElem?_length_of_some (keys : List Nat) (j k : Nat) (h : keys[j]? = some k) :
    j < keys.length := by
  by_contra hn
  rw [List.getElem?_eq_none (by omega)] at h
  cases h

theorem findMortonLowerBound_spec (tc : TreeConstants) (octants : List Octant)
    (hsorted : (octants.map (Octant.computeMorton tc)).Pairwise (· < ·)) (targetMorton : Nat) :
    ∃ idx, findMortonLowerBound tc targetMorton octants =
        (idx, (octants.map (Octant.computeMorton tc))[idx]?) ∧ idx ≤ octants.length ∧
      ∀ j key, (octants.map (Octant.computeMorton tc))[j]? = some key →
        (key < targetMorton ↔ j < idx) := by
  have hloop := lowerBoundLoop_spec _ hsorted targetMorton
    (octants.map (Octant.computeMorton tc)).length 0
    (octants.map (Octant.computeMorton tc)).length (Nat.zero_le _) (le_refl _) (by omega)
    (by intro j hj; omega) (by intro j hj hjn; omega)
  refine ⟨_, rfl, ?_, ?_⟩
  · exact le_trans hloop.2.1 (le_of_eq (List.length_map _ _))
  · intro j key hkey
    have hj := getElem?_length_of_some _ j key hkey
    have hd := getD_of_getElem? _ j key hkey
    constructor
    · intro hlt
      by_contra hge
      have := hloop.2.2.2 j (by omega) hj
      omega
    · intro hlt
      have := hloop.2.2.1 j hlt
      omega

theorem findMortonUpperBound_spec (tc : TreeConstants) (octants : List Octant)
    (hsorted : (octants.map (Octant.computeMorton tc)).Pairwise (· < ·)) (targetMorton : Nat) :
    ∃ idx, findMortonUpperBound tc targetMorton octants =
        (idx, (octants.map (Octant.computeMorton tc))[idx]?) ∧ idx ≤ octants.length ∧
      ∀ j key, (octants.map (Octant.computeMorton tc))[j]? = some key →
        (key ≤ targetMorton ↔ j < idx) := by
  have hloop := upperBoundLoop_spec _ hsorted targetMorton
    (octants.map (Octant.computeMorton tc)).length 0
    (octants.map (Octant.computeMorton tc)).length (Nat.zero_le _) (le_refl _) (by omega)
    (by intro j hj; omega) (by intro j hj hjn; omega)
  refine ⟨_, rfl, ?_, ?_⟩
  · exact le_trans hloop.2.1 (le_of_eq (List.length_map _ _))
  · intro j key hkey
    have hj := getElem?_length_of_some _ j key hkey
    have hd := getD_of_getElem? _ j key hkey
    constructor
    · intro hlt
      by_contra hge
      have := hloop.2.2.2 j (by omega) hj
      omega
    · intro hlt
      have := hloop.2.2.1 j hlt
      omega

theorem findMorton_spec (tc : TreeConstants) (octants : List Octant)
    (hsorted : (octants.map (Octant.computeMorton tc)).Pairwise (· < ·)) (targetMorton : Nat)
    (idx : Nat) :
    findMorton tc targetMorton octants = some idx ↔
      (octants.map (Octant.computeMorton tc))[idx]? = some targetMorton := by
  obtain ⟨lower, hfound, _, hlower⟩ := findMortonLowerBound_spec tc octants hsorted targetMorton
  unfold findMorton
  rw [hfound]
  simp only
  constructor
  · intro h
    by_cases hkey : (octants.map (Octant.computeMorton tc))[lower]? = some targetMorton
    · rw [if_pos hkey] at h
      cases h
      exact hkey
    · rw [if_neg hkey] at h
      cases h
  · intro h
    have hge : ¬ idx < lower := fun hlt => by
      have := (hlower idx targetMorton h).2 hlt
      omega
    have hidx := getElem?_length_of_some _ idx targetMorton h
    have hlow : lower < (octants.map (Octant.computeMorton tc)).length := by omega
    have hkeyLow := List.getElem?_eq_getElem hlow
    have hnot : ¬ (octants.map (Octant.computeMorton tc))[lower] < targetMorton := fun hlt => by
      have := (hlower lower _ hkeyLow).1 hlt
      omega
    have heq : lower = idx := by
      by_contra hne
      have hlt := getD_lt_of_pairwise _ hsorted lower idx (by omega) hidx
      rw [getD_of_getElem? _ idx targetMorton h, getD_of_getElem? _ lower _ hkeyLow] at hlt
      exact hnot hlt
    subst heq
    rw [if_pos h]

/-- C17: on a sequence of octants strictly ascending by Morton key,
`findMortonLowerBound` returns the index of the first element whose key is at
least the target (the keys before it are smaller, the keys from it on are not)
with the key at that index, `findMortonUpperBound` the index of the first
element whose key is greater than the target with the key at that index, and
`findMorton` the index of the element whose key is the target, or the not-found
value when no element has that key. -/
theorem search_spec (tc : TreeConstants) (octants : List Octant)
    (hsorted : (octants.map (Octant.computeMorton tc)).Pairwise (· < ·)) (targetMorton : Nat) :
    (∃ idx, findMortonLowerBound tc targetMorton octants =
        (idx, (octants.map (Octant.computeMorton tc))[idx]?) ∧ idx ≤ octants.length ∧
      ∀ j key, (octants.map (Octant.computeMorton tc))[j]? = some key →
        (key < targetMorton ↔ j < idx)) ∧
    (∃ idx, findMortonUpperBound tc targetMorton octants =
        (idx, (octants.map (Octant.computeMorton tc))[idx]?) ∧ idx ≤ octants.length ∧
      ∀ j key, (octants.map (Octant.computeMorton tc))[j]? = some key →
        (key ≤ targetMorton ↔ j < idx)) ∧
    (∀ idx, findMorton tc targetMorton octants = some idx ↔
      (octants.map (Octant.computeMorton tc))[idx]? = some targetMorton) ∧
    (findMorton tc targetMorton octants = none ↔
      targetMorton ∉ octants.map (Octant.computeMorton tc)) := by
  refine ⟨findMortonLowerBound_spec tc octants hsorted targetMorton,
    findMortonUpperBound_spec tc octants hsorted targetMorton,
    findMorton_spec tc octants hsorted targetMorton, ?_⟩
  constructor
  · intro hnone hmem
    obtain ⟨idx, hidx⟩ := List.mem_iff_getElem?.1 hmem
    have := (findMorton_spec tc octants hsorted targetMorton idx).2 hidx
    rw [hnone] at this
    cases this
  · intro hnot
    cases hfound : findMorton tc targetMorton octants with
    | none => rfl
    | some idx =>
      exact absurd (List.mem_iff_getElem?.2
        ⟨idx, (findMorton_spec tc octants hsorted targetMorton idx).1 hfound⟩) hnot

theorem search_spec_witness :
    (sampleQuadrants.map (Octant.computeMorton sampleConstants)).Pairwise (· < ·) ∧
    (∃ idx, findMortonLowerBound sampleConstants 13 sampleQuadrants =
        (idx, (sampleQuadrants.map (Octant.computeMorton sampleConstants))[idx]?) ∧
      idx ≤ sampleQuadrants.length ∧
      ∀ j key, (sampleQuadrants.map (Octant.computeMorton sampleConstants))[j]? = some key →
        (key < 13 ↔ j < idx)) ∧
    (∃ idx, findMortonUpperBound sampleConstants 13 sampleQuadrants =
        (idx, (sampleQuadrants.map (Octant.computeMorton sampleConstants))[idx]?) ∧
      idx ≤ sampleQuadrants.length ∧
      ∀ j key, (sampleQuadrants.map (Octant.computeMorton sampleConstants))[j]? = some key →
        (key ≤ 13 ↔ j < idx)) ∧
    (∀ idx, findMorton sampleConstants 13 sampleQuadrants = some idx ↔
      (sampleQuadrants.map (Octant.computeMorton sampleConstants))[idx]? = some 13) ∧
    (findMorton sampleConstants 13 sampleQuadrants = none ↔
      13 ∉ sampleQuadrants.map (Octant.computeMorton sampleConstants)) :=
  ⟨by decide, search_spec sampleConstants sampleQuadrants (by decide) 13⟩

theorem search_sample :
    sampleQuadrants.map (Octant.computeMorton sampleConstants) = [1, 13, 25, 37] ∧
    findMortonLowerBound sampleConstants 13 sampleQuadrants = (1, some 13) ∧
    findMortonUpperBound sampleConstants 13 sampleQuadrants = (2, some 25) ∧
    findMortonLowerBound sampleConstants 38 sampleQuadrants = (4, none) ∧
    findMorton sampleConstants 25 sampleQuadrants = some 2 ∧
    findMorton sampleConstants 14 sampleQuadrants = none := by
  decide

/-! ### Children and parents along the curve -/

theorem interleave_add (dim : Nat) :
    ∀ (s n x y z bx bY bz : Nat), s < n → bx ≤ 1 → bY ≤ 1 → bz ≤ 1 →
      x % 2 ^ (s + 1) = 0 → y % 2 ^ (s + 1) = 0 → z % 2 ^ (s + 1) = 0 →
      interleave dim n (x + bx * 2 ^ s) (y + bY * 2 ^ s) (z + bz * 2 ^ s) =
        interleave dim n x y z +
          (bx + 2 * bY + (if dim = 3 then 4 * bz else 0)) * (2 ^ dim) ^ s := by
  intro s
  induction s with
  | zero =>
    intro n x y z bx bY bz hn hbx hbY hbz hx hy hz
    obtain ⟨n, rfl⟩ : ∃ m, n = m + 1 := ⟨n - 1, by omega⟩
    simp only [zero_add, pow_one, pow_zero, mul_one] at hx hy hz ⊢
    simp only [interleave]
    have e1 : (x + bx) % 2 = bx := by omega
    have e2 : (y + bY) % 2 = bY := by omega
    have e3 : (z + bz) % 2 = bz := by omega
    have e4 : (x + bx) / 2 = x / 2 := by omega
    have e5 : (y + bY) / 2 = y / 2 := by omega
    have e6 : (z + bz) / 2 = z / 2 := by omega
    rw [e1, e2, e3, e4, e5, e6, hx, hy, hz]
    by_cases h3 : dim = 3
    · simp only [h3, if_true]; omega
    · simp only [h3, if_false]; omega
  | succ s ih =>
    intro n x y z bx bY bz hn hbx hbY hbz hx hy hz
    obtain ⟨n, rfl⟩ : ∃ m, n = m + 1 := ⟨n - 1, by omega⟩
    have split : ∀ a b : Nat, b ≤ 1 → a % 2 ^ (s + 1 + 1) = 0 →
        a % 2 = 0 ∧ (a + b * 2 ^ (s + 1)) % 2 = 0 ∧
        (a + b * 2 ^ (s + 1)) / 2 = a / 2 + b * 2 ^ s ∧ (a / 2) % 2 ^ (s + 1) = 0 := by
      intro a b hb ha
      obtain ⟨q, hq⟩ := Nat.dvd_of_mod_eq_zero ha
      have hq2 : a = 2 * (2 ^ (s + 1) * q) := by rw [hq, pow_succ _ (s + 1)]; ring
      have hp : 2 ^ (s + 1) = 2 * 2 ^ s := by rw [pow_succ]; ring
      have hhalf : a / 2 = 2 ^ (s + 1) * q := by omega
      refine ⟨by omega, ?_, ?_, ?_⟩
      · rw [hp]
        have : a + b * (2 * 2 ^ s) = 2 * (2 ^ (s + 1) * q + b * 2 ^ s) := by rw [hq2]; ring
        rw [this]; exact Nat.mul_mod_right _ _
      · rw [hp]
        have : a + b * (2 * 2 ^ s) = 2 * (2 ^ (s + 1) * q + b * 2 ^ s) := by rw [hq2]; ring
        rw [this, Nat.mul_div_cancel_left _ (by decide : 0 < 2), hhalf]
      · rw [hhalf]; exact Nat.mul_mod_right _ _
    obtain ⟨x0, x1, x2, x3⟩ := split x bx hbx hx
    obtain ⟨y0, y1, y2, y3⟩ := split y bY hbY hy
    obtain ⟨z0, z1, z2, z3⟩ := split z bz hbz hz
    simp only [interleave]
    rw [x0, x1, x2, y0, y1, y2, z0, z1, z2,
      ih n (x / 2) (y / 2) (z / 2) bx bY bz (by omega) hbx hbY hbz x3 y3 z3]
    rw [pow_succ (2 ^ dim) s]
    by_cases h3 : dim = 3
    · simp only [h3, if_true]; ring
    · simp only [h3, if_false]; ring

theorem childIndex_digits (dim i : Nat) (hdim : dim = 2 ∨ dim = 3) (hi : i < 2 ^ dim) :
    i % 2 + 2 * (i / 2 % 2) + (if dim = 3 then 4 * (i / 4 % 2) else 0) = i ∧
    (dim = 2 → i / 4 % 2 = 0) := by
  rcases hdim with h | h
  · subst h
    norm_num at hi ⊢
    omega
  · subst h
    norm_num at hi ⊢
    omega

theorem anchor_add_lt (a b s level maxLevel : Nat) (hb : b ≤ 1) (hlevel : maxLevel = level + s + 1)
    (ha : a < 2 ^ maxLevel) (hmod : a % 2 ^ (s + 1) = 0) : a + b * 2 ^ s < 2 ^ maxLevel := by
  obtain ⟨q, hq⟩ := Nat.dvd_of_mod_eq_zero hmod
  have hpow : 2 ^ maxLevel = 2 ^ (s + 1) * 2 ^ level := by
    rw [hlevel, ← pow_add]; congr 1; omega
  have hpos : 0 < 2 ^ s := Nat.pow_pos (by decide)
  have hp : 2 ^ (s + 1) = 2 * 2 ^ s := by rw [pow_succ]; ring
  have hq1 : q < 2 ^ level := by
    rw [hq, hpow] at ha
    exact Nat.lt_of_mul_lt_mul_left ha
  have hle : 2 ^ (s + 1) * (q + 1) ≤ 2 ^ (s + 1) * 2 ^ level := Nat.mul_le_mul_left _ hq1
  have hb2 : b * 2 ^ s ≤ 2 ^ s := by
    calc b * 2 ^ s ≤ 1 * 2 ^ s := Nat.mul_le_mul_right _ hb
      _ = 2 ^ s := Nat.one_mul _
  rw [hpow]
  rw [Nat.mul_add, Nat.mul_one, ← hq] at hle
  omega

theorem anchor_add_mod (a b s : Nat) (hmod : a % 2 ^ (s + 1) = 0) : (a + b * 2 ^ s) % 2 ^ s = 0 := by
  obtain ⟨q, hq⟩ := Nat.dvd_of_mod_eq_zero hmod
  have : a + b * 2 ^ s = 2 ^ s * (2 * q + b) := by rw [hq, pow_succ]; ring
  rw [this]
  exact Nat.mul_mod_right _ _

theorem buildChild_valid (tc : TreeConstants) (hdim : tc.dim = 2 ∨ tc.dim = 3) (o : Octant)
    (hv : o.Valid tc) (hl : o.level < tc.maxLevel) (i : Nat) (hi : i < 2 ^ tc.dim) :
    (o.buildChild tc i).Valid tc := by
  obtain ⟨_, hx, hy, hz, mx, my, mz, h2⟩ := hv
  obtain ⟨s, hs⟩ : ∃ s, tc.maxLevel = o.level + s + 1 := ⟨tc.maxLevel - o.level - 1, by omega⟩
  have e1 : tc.maxLevel - o.level = s + 1 := by omega
  have e2 : tc.maxLevel - o.level - 1 = s := by omega
  have e3 : tc.maxLevel - (o.level + 1) = s := by omega
  rw [e1] at mx my mz
  have hz0 := (childIndex_digits tc.dim i hdim hi).2
  unfold Octant.Valid Octant.buildChild
  simp only [e2, e3]
  refine ⟨by omega, anchor_add_lt _ _ s _ _ (by omega) hs hx mx,
    anchor_add_lt _ _ s _ _ (by omega) hs hy my, anchor_add_lt _ _ s _ _ (by omega) hs hz mz,
    anchor_add_mod _ _ s mx, anchor_add_mod _ _ s my, anchor_add_mod _ _ s mz, ?_⟩
  intro h
  rw [h2 h, hz0 h]
  simp

theorem buildChild_curveIndex (tc : TreeConstants) (hdim : tc.dim = 2 ∨ tc.dim = 3) (o : Octant)
    (hv : o.Valid tc) (hl : o.level < tc.maxLevel) (i : Nat) (hi : i < 2 ^ tc.dim) :
    (o.buildChild tc i).curveIndex tc =
      o.curveIndex tc + i * (2 ^ tc.dim) ^ (tc.maxLevel - o.level - 1) := by
  obtain ⟨_, hx, hy, hz, mx, my, mz, h2⟩ := hv
  obtain ⟨s, hs⟩ : ∃ s, tc.maxLevel = o.level + s + 1 := ⟨tc.maxLevel - o.level - 1, by omega⟩
  have e1 : tc.maxLevel - o.level = s + 1 := by omega
  have e2 : tc.maxLevel - o.level - 1 = s := by omega
  rw [e1] at mx my mz
  unfold Octant.curveIndex Octant.buildChild
  simp only [e2]
  rw [interleave_add tc.dim s tc.maxLevel o.x o.y o.z (i % 2) (i / 2 % 2) (i / 4 % 2) (by omega)
    (by omega) (by omega) (by omega) mx my mz, (childIndex_digits tc.dim i hdim hi).1]

theorem buildChild_descendantCount (tc : TreeConstants) (o : Octant) (i : Nat) :
    (o.buildChild tc i).descendantCount tc = (2 ^ tc.dim) ^ (tc.maxLevel - o.level - 1) := by
  unfold Octant.descendantCount Octant.buildChild
  simp only [Nat.sub_add_eq]

theorem descendantCount_children (tc : TreeConstants) (o : Octant) (hl : o.level < tc.maxLevel) :
    o.descendantCount tc = 2 ^ tc.dim * (2 ^ tc.dim) ^ (tc.maxLevel - o.level - 1) := by
  unfold Octant.descendantCount
  have : tc.maxLevel - o.level = (tc.maxLevel - o.level - 1) + 1 := by omega
  rw [this, pow_succ, Nat.add_sub_cancel]
  ring

theorem descendantCount_pos (tc : TreeConstants) (o : Octant) : 0 < o.descendantCount tc := by
  unfold Octant.descendantCount
  exact Nat.pow_pos (Nat.pow_pos (by decide))

/-! ### Sequences of octants that do not overlap -/

theorem of_position_eq (tc : TreeConstants) (a b : Octant) (h : a.position = b.position) :
    (a.Valid tc ↔ b.Valid tc) ∧ a.curveIndex tc = b.curveIndex tc ∧
      a.descendantCount tc = b.descendantCount tc := by
  simp only [Octant.position, Prod.mk.injEq] at h
  obtain ⟨hx, hy, hz, hl⟩ := h
  unfold Octant.Valid Octant.curveIndex Octant.descendantCount
  rw [hx, hy, hz, hl]
  exact ⟨Iff.rfl, rfl, rfl⟩

theorem packed_mono (tc : TreeConstants) (octants : List Octant) (lo lo2 hi : Nat) (h : lo ≤ lo2)
    (hp : Packed tc lo2 octants hi) : Packed tc lo octants hi := by
  cases octants with
  | nil =>
    unfold Packed at hp ⊢
    omega
  | cons o rest =>
    unfold Packed at hp ⊢
    exact ⟨hp.1, le_trans h hp.2.1, hp.2.2⟩

theorem packed_append (tc : TreeConstants) :
    ∀ (first : List Octant) (lo mid : Nat) (second : List Octant) (hi : Nat),
      Packed tc lo first mid → Packed tc mid second hi → Packed tc lo (first ++ second) hi := by
  intro first
  induction first with
  | nil =>
    intro lo mid second hi h1 h2
    unfold Packed at h1
    exact packed_mono tc second lo mid hi h1 h2
  | cons o rest ih =>
    intro lo mid second hi h1 h2
    unfold Packed at h1
    rw [List.cons_append]
    unfold Packed
    exact ⟨h1.1, h1.2.1, ih _ mid second hi h1.2.2 h2⟩

theorem packed_split (tc : TreeConstants) :
    ∀ (first : List Octant) (lo : Nat) (second : List Octant) (hi : Nat),
      Packed tc lo (first ++ second) hi → Packed tc (curveEnd tc lo first) second hi := by
  intro first
  induction first with
  | nil => intro lo second hi h; exact h
  | cons o rest ih =>
    intro lo second hi h
    rw [List.cons_append] at h
    unfold Packed at h
    exact ih _ second hi h.2.2

theorem packed_of_positions (tc : TreeConstants) :
    ∀ (octants changed : List Octant) (lo hi : Nat),
      changed.map Octant.position = octants.map Octant.position →
      Packed tc lo octants hi → Packed tc lo changed hi := by
  intro octants
  induction octants with
  | nil =>
    intro changed lo hi hpos h
    cases changed with
    | nil => exact h
    | cons c rest => simp at hpos
  | cons o rest ih =>
    intro changed lo hi hpos h
    cases changed with
    | nil => simp at hpos
    | cons c crest =>
      simp only [List.map_cons, List.cons.injEq] at hpos
      obtain ⟨hv, hci, hdc⟩ := of_position_eq tc c o hpos.1
      unfold Packed at h ⊢
      rw [hci, hdc]
      exact ⟨hv.2 h.1, h.2.1, ih crest _ hi hpos.2 h.2.2⟩

theorem curveEnd_of_positions (tc : TreeConstants) :
    ∀ (octants changed : List Octant) (lo : Nat),
      changed.map Octant.position = octants.map Octant.position →
      curveEnd tc lo changed = curveEnd tc lo octants := by
  intro octants
  induction octants with
  | nil =>
    intro changed lo hpos
    cases changed with
    | nil => rfl
    | cons c rest => simp at hpos
  | cons o rest ih =>
    intro changed lo hpos
    cases changed with
    | nil => simp at hpos
    | cons c crest =>
      simp only [List.map_cons, List.cons.injEq] at hpos
      obtain ⟨_, hci, hdc⟩ := of_position_eq tc c o hpos.1
      unfold curveEnd
      rw [hci, hdc]
      exact ih crest _ hpos.2

theorem packed_children_from (tc : TreeConstants) (hdim : tc.dim = 2 ∨ tc.dim = 3) (o : Octant)
    (hv : o.Valid tc) (hl : o.level < tc.maxLevel) :
    ∀ (len start : Nat), start + len = 2 ^ tc.dim →
      Packed tc (o.curveIndex tc + start * (2 ^ tc.dim) ^ (tc.maxLevel - o.level - 1))
        ((List.range' start len).map (o.buildChild tc))
        (o.curveIndex tc + 2 ^ tc.dim * (2 ^ tc.dim) ^ (tc.maxLevel - o.level - 1)) := by
  intro len
  induction len with
  | zero =>
    intro start hstart
    rw [Nat.add_zero] at hstart
    subst hstart
    simp only [List.range'_zero, List.map_nil]
    unfold Packed
    exact le_refl _
  | succ len ih =>
    intro start hstart
    rw [List.range'_succ, List.map_cons]
    unfold Packed
    rw [buildChild_curveIndex tc hdim o hv hl start (by omega), buildChild_descendantCount]
    refine ⟨buildChild_valid tc hdim o hv hl start (by omega), le_refl _, ?_⟩
    have := ih (start + 1) (by omega)
    rw [Nat.add_mul, Nat.one_mul, ← Nat.add_assoc] at this
    exact this

theorem packed_children (tc : TreeConstants) (hdim : tc.dim = 2 ∨ tc.dim = 3) (o : Octant)
    (hv : o.Valid tc) (hl : o.level < tc.maxLevel) :
    Packed tc (o.curveIndex tc) (o.buildChildren tc) (o.curveIndex tc + o.descendantCount tc) := by
  have := packed_children_from tc hdim o hv hl (2 ^ tc.dim) 0 (Nat.zero_add _)
  rw [Nat.zero_mul, Nat.add_zero, ← descendantCount_children tc o hl] at this
  unfold Octant.buildChildren
  rw [List.range_eq_range']
  exact this

theorem curveEnd_children_from (tc : TreeConstants) (hdim : tc.dim = 2 ∨ tc.dim = 3) (o : Octant)
    (hv : o.Valid tc) (hl : o.level < tc.maxLevel) :
    ∀ (len start lo : Nat), start + len + 1 ≤ 2 ^ tc.dim →
      curveEnd tc lo ((List.range' start (len + 1)).map (o.buildChild tc)) =
        o.curveIndex tc + (start + len + 1) * (2 ^ tc.dim) ^ (tc.maxLevel - o.level - 1) := by
  intro len
  induction len with
  | zero =>
    intro start lo hstart
    simp only [List.range'_succ, List.range'_zero, List.map_cons, List.map_nil, curveEnd]
    rw [buildChild_curveIndex tc hdim o hv hl start (by omega), buildChild_descendantCount,
      Nat.add_zero, Nat.add_mul, Nat.one_mul, Nat.add_assoc]
  | succ len ih =>
    intro start lo hstart
    rw [List.range'_succ, List.map_cons]
    unfold curveEnd
    rw [ih (start + 1) _ (by omega)]
    congr 2
    omega

theorem curveEnd_children (tc : TreeConstants) (hdim : tc.dim = 2 ∨ tc.dim = 3) (o : Octant)
    (hv : o.Valid tc) (hl : o.level < tc.maxLevel) (lo : Nat) :
    curveEnd tc lo (o.buildChildren tc) = o.curveIndex tc + o.descendantCount tc := by
  have hpos : 0 < 2 ^ tc.dim := Nat.pow_pos (by decide)
  have := curveEnd_children_from tc hdim o hv hl (2 ^ tc.dim - 1) 0 lo (by omega)
  have e : 2 ^ tc.dim - 1 + 1 = 2 ^ tc.dim := by omega
  rw [Nat.zero_add, e, ← descendantCount_children tc o hl] at this
  unfold Octant.buildChildren
  rw [List.range_eq_range']
  exact this

/-! ### The sorted index under refinement and coarsening -/

theorem clampRefinement_position (tc : TreeConstants) (o : Octant) :
    (o.clampRefinement tc).position = o.position := by
  unfold Octant.clampRefinement
  split <;> rfl

theorem clampCoarsening_position (o : Octant) : o.clampCoarsening.position = o.position := by
  unfold Octant.clampCoarsening
  split <;> rfl

theorem packed_refine (tc : TreeConstants) (hdim : tc.dim = 2 ∨ tc.dim = 3) :
    ∀ (octants : List Octant) (lo hi : Nat),
      Packed tc lo octants hi → Packed tc lo (refineOctants tc octants) hi := by
  intro octants
  induction octants with
  | nil => intro lo hi h; exact h
  | cons o rest ih =>
    intro lo hi h
    unfold Packed at h
    unfold refineOctants
    have hrest := ih _ hi h.2.2
    by_cases hsplit : 0 < o.marker ∧ o.level < tc.maxLevel
    · rw [if_pos hsplit]
      exact packed_append tc _ lo _ _ hi
        (packed_mono tc _ lo _ _ h.2.1 (packed_children tc hdim o h.1 hsplit.2)) hrest
    · rw [if_neg hsplit, List.singleton_append]
      obtain ⟨hv, hci, hdc⟩ := of_position_eq tc _ o (clampRefinement_position tc o)
      unfold Packed
      rw [hci, hdc]
      exact ⟨hv.2 h.1, h.2.1, hrest⟩

theorem isFamily_cons (tc : TreeConstants) (o : Octant) (rest : List Octant)
    (h : isFamily tc (o :: rest) = true) :
    0 < o.level ∧ (∀ sibling ∈ o :: rest, sibling.marker < 0) ∧
      (o :: rest).map Octant.position =
        ((o.buildFather tc).buildChildren tc).map Octant.position := by
  unfold isFamily at h
  simp only [Bool.and_eq_true, decide_eq_true_eq, List.all_eq_true, beq_iff_eq] at h
  exact ⟨h.1.1, h.1.2, h.2⟩

theorem sub_mod_mod (a m : Nat) : (a - a % m) % m = 0 := by
  have h := Nat.div_add_mod a m
  have : a - a % m = m * (a / m) := by omega
  rw [this]
  exact Nat.mul_mod_right _ _

theorem buildFather_valid (tc : TreeConstants) (o : Octant) (hv : o.Valid tc)
    (hl : 0 < o.level) : (o.buildFather tc).Valid tc ∧ (o.buildFather tc).level < tc.maxLevel := by
  obtain ⟨hlevel, hx, hy, hz, _, _, _, h2⟩ := hv
  have e : tc.maxLevel - (o.level - 1) = tc.maxLevel - o.level + 1 := by omega
  unfold Octant.Valid Octant.buildFather
  simp only [e]
  refine ⟨⟨by omega, by omega, by omega, by omega, sub_mod_mod _ _, sub_mod_mod _ _,
    sub_mod_mod _ _, ?_⟩, by omega⟩
  intro h
  rw [h2 h]
  exact Nat.zero_sub _

theorem buildChildren_head (tc : TreeConstants) (o : Octant) :
    ∃ rest, o.buildChildren tc = o.buildChild tc 0 :: rest := by
  have hpos : 0 < 2 ^ tc.dim := Nat.pow_pos (by decide)
  obtain ⟨n, hn⟩ : ∃ n, 2 ^ tc.dim = n + 1 := ⟨2 ^ tc.dim - 1, by omega⟩
  unfold Octant.buildChildren
  rw [hn, List.range_eq_range', List.range'_succ, List.map_cons]
  exact ⟨_, rfl⟩

theorem packed_coarse (tc : TreeConstants) (hdim : tc.dim = 2 ∨ tc.dim = 3) :
    ∀ (fuel : Nat) (octants : List Octant) (lo hi : Nat),
      Packed tc lo octants hi → Packed tc lo (coarseOctants tc fuel octants) hi := by
  intro fuel
  induction fuel with
  | zero => intro octants lo hi h; exact h
  | succ fuel ih =>
    intro octants lo hi h
    cases octants with
    | nil => exact h
    | cons o rest =>
      unfold coarseOctants
      by_cases hfam : isFamily tc ((o :: rest).take (2 ^ tc.dim)) = true
      · rw [if_pos hfam]
        have hpos : 0 < 2 ^ tc.dim := Nat.pow_pos (by decide)
        obtain ⟨n, hn⟩ : ∃ n, 2 ^ tc.dim = n + 1 := ⟨2 ^ tc.dim - 1, by omega⟩
        have hn1 : 2 ^ tc.dim - 1 = n := by omega
        rw [hn1]
        rw [hn, List.take_succ_cons] at hfam
        obtain ⟨hlevel, _, hpositions⟩ := isFamily_cons tc o _ hfam
        have hsplit : o :: rest = (o :: rest.take n) ++ rest.drop n := by
          rw [List.cons_append, List.take_append_drop]
        have hv : o.Valid tc := by
          unfold Packed at h
          exact h.1
        have hlo : lo ≤ o.curveIndex tc := by
          unfold Packed at h
          exact h.2.1
        obtain ⟨hfv, hfl⟩ := buildFather_valid tc o hv hlevel
        have hend : curveEnd tc lo (o :: rest.take n) =
            (o.buildFather tc).curveIndex tc + (o.buildFather tc).descendantCount tc := by
          rw [curveEnd_of_positions tc _ _ lo hpositions]
          exact curveEnd_children tc hdim _ hfv hfl lo
        have hfirst : (o.buildFather tc).curveIndex tc = o.curveIndex tc := by
          obtain ⟨others, hothers⟩ := buildChildren_head tc (o.buildFather tc)
          rw [hothers] at hpositions
          simp only [List.map_cons, List.cons.injEq] at hpositions
          have := (of_position_eq tc _ _ hpositions.1).2.1
          rw [this, buildChild_curveIndex tc hdim _ hfv hfl 0 hpos, Nat.zero_mul, Nat.add_zero]
        rw [hsplit] at h
        have htail := packed_split tc _ lo _ hi h
        rw [hend] at htail
        unfold Packed
        exact ⟨hfv, by rw [hfirst]; exact hlo, ih _ _ hi htail⟩
      · rw [if_neg hfam]
        obtain ⟨hv, hci, hdc⟩ := of_position_eq tc _ o (clampCoarsening_position o)
        unfold Packed at h ⊢
        rw [hci, hdc]
        exact ⟨hv.2 h.1, h.2.1, ih rest _ hi h.2.2⟩

theorem packed_bounds (tc : TreeConstants) :
    ∀ (octants : List Octant) (lo hi : Nat), Packed tc lo octants hi →
      ∀ o ∈ octants, o.Valid tc ∧ lo ≤ o.curveIndex tc := by
  intro octants
  induction octants with
  | nil => intro lo hi _ o ho; cases ho
  | cons first rest ih =>
    intro lo hi h o ho
    unfold Packed at h
    rcases List.mem_cons.1 ho with heq | hmem
    · subst heq
      exact ⟨h.1, h.2.1⟩
    · have := ih _ hi h.2.2 o hmem
      exact ⟨this.1, by omega⟩

theorem packed_sorted (tc : TreeConstants) :
    ∀ (octants : List Octant) (lo hi : Nat), Packed tc lo octants hi →
      (octants.map (Octant.computeMorton tc)).Pairwise (· < ·) := by
  intro octants
  induction octants with
  | nil => intro lo hi _; exact List.Pairwise.nil
  | cons first rest ih =>
    intro lo hi h
    unfold Packed at h
    rw [List.map_cons, List.pairwise_cons]
    refine ⟨?_, ih _ hi h.2.2⟩
    intro key hkey
    obtain ⟨o, ho, rfl⟩ := List.mem_map.1 hkey
    have hb := (packed_bounds tc rest _ hi h.2.2 o ho).2
    have hpos := descendantCount_pos tc first
    have hlevel := h.1.1
    unfold Octant.computeMorton
    have hmul : (first.curveIndex tc + 1) * (tc.maxLevel + 1) ≤
        o.curveIndex tc * (tc.maxLevel + 1) := Nat.mul_le_mul_right _ (by omega)
    rw [Nat.add_mul, Nat.one_mul] at hmul
    omega

theorem linear_adapt (t : LocalTree) (h : t.Linear) (operation : Adaption) :
    (t.adapt operation).Linear := by
  obtain ⟨hdim, hp⟩ := h
  cases operation with
  | refine => exact ⟨hdim, packed_refine _ hdim _ _ _ hp⟩
  | coarse => exact ⟨hdim, packed_coarse _ hdim _ _ _ _ hp⟩
  | globalRefine =>
    refine ⟨hdim, packed_refine _ hdim _ _ _ (packed_of_positions _ _ _ _ _ ?_ hp)⟩
    simp only [List.map_map]
    rfl
  | globalCoarse =>
    refine ⟨hdim, packed_coarse _ hdim _ _ _ _ (packed_of_positions _ _ _ _ _ ?_ hp)⟩
    simp only [List.map_map]
    rfl

theorem linear_foldl (operations : List Adaption) :
    ∀ t : LocalTree, t.Linear → (operations.foldl LocalTree.adapt t).Linear := by
  induction operations with
  | nil => intro t h; exact h
  | cons operation rest ih =>
    intro t h
    rw [List.foldl_cons]
    exact ih _ (linear_adapt t h operation)

/-- C15, as amended: starting from a local tree whose octants are valid cells
that do not overlap, in the order of the curve (so that they are strictly ascending by
Morton key), after any sequence of `refine`, `coarse`, `globalRefine` and
`globalCoarse` the local octants are strictly ascending by Morton key, with no
duplicate keys, and are again such a sequence. -/
theorem sorted_invariant (t : LocalTree) (hlinear : t.Linear) (operations : List Adaption) :
    (t.m_octants.map (Octant.computeMorton t.m_treeConstants)).Pairwise (· < ·) ∧
    ((operations.foldl LocalTree.adapt t).m_octants.map
      (Octant.computeMorton (operations.foldl LocalTree.adapt t).m_treeConstants)).Pairwise
        (· < ·) ∧
    ((operations.foldl LocalTree.adapt t).m_octants.map
      (Octant.computeMorton (operations.foldl LocalTree.adapt t).m_treeConstants)).Nodup ∧
    (operations.foldl LocalTree.adapt t).Linear := by
  have hresult := linear_foldl operations t hlinear
  have hsorted := packed_sorted _ _ _ _ hresult.2
  exact ⟨packed_sorted _ _ _ _ hlinear.2, hsorted, hsorted.imp (fun h => Nat.ne_of_lt h), hresult⟩

theorem sorted_invariant_witness :
    sampleTree.Linear ∧
    (sampleTree.m_octants.map (Octant.computeMorton sampleTree.m_treeConstants)).Pairwise
      (· < ·) ∧
    ((([Adaption.refine, Adaption.coarse, Adaption.globalRefine, Adaption.globalCoarse]).foldl
      LocalTree.adapt sampleTree).m_octants.map
      (Octant.computeMorton
        (([Adaption.refine, Adaption.coarse, Adaption.globalRefine, Adaption.globalCoarse]).foldl
          LocalTree.adapt sampleTree).m_treeConstants)).Pairwise (· < ·) ∧
    ((([Adaption.refine, Adaption.coarse, Adaption.globalRefine, Adaption.globalCoarse]).foldl
      LocalTree.adapt sampleTree).m_octants.map
      (Octant.computeMorton
        (([Adaption.refine, Adaption.coarse, Adaption.globalRefine, Adaption.globalCoarse]).foldl
          LocalTree.adapt sampleTree).m_treeConstants)).Nodup ∧
    (([Adaption.refine, Adaption.coarse, Adaption.globalRefine, Adaption.globalCoarse]).foldl
      LocalTree.adapt sampleTree).Linear :=
  ⟨by decide, sorted_invariant sampleTree (by decide)
    [Adaption.refine, Adaption.coarse, Adaption.globalRefine, Adaption.globalCoarse]⟩

/-- C15, counterexample: the octant of level 0, marked for refinement, followed
by its first child: two valid octants, strictly ascending by Morton key.
`refine` replaces the first by its four children, and the keys of the result
are not ascending: the first child is there twice. -/
theorem sorted_counterexample :
    (∀ o ∈ overlappingTree.m_octants, o.Valid overlappingTree.m_treeConstants) ∧
    overlappingTree.m_octants.map (Octant.computeMorton overlappingTree.m_treeConstants) =
      [0, 1] ∧
    (overlappingTree.m_octants.map
      (Octant.computeMorton overlappingTree.m_treeConstants)).Pairwise (· < ·) ∧
    overlappingTree.refine.m_octants.map
      (Octant.computeMorton overlappingTree.refine.m_treeConstants) = [1, 13, 25, 37, 1] ∧
    ¬ (overlappingTree.refine.m_octants.map
      (Octant.computeMorton overlappingTree.refine.m_treeConstants)).Pairwise (· < ·) ∧
    ¬ (overlappingTree.refine.m_octants.map
      (Octant.computeMorton overlappingTree.refine.m_treeConstants)).Nodup := by
  decide

theorem adapt_sample :
    (sampleTree.refine.m_octants.map Octant.position =
      [(0, 0, 0, 1), (2, 0, 0, 2), (3, 0, 0, 2), (2, 1, 0, 2), (3, 1, 0, 2), (0, 2, 0, 1),
        (2, 2, 0, 1)]) ∧
    (sampleTree.globalCoarse.m_octants.map Octant.position = [(0, 0, 0, 0)]) ∧
    (sampleTree.globalRefine.m_octants.length = 16) ∧
    (sampleTree.globalRefine.globalCoarse.m_octants.map Octant.position =
      sampleTree.m_octants.map Octant.position) := by
  decide

/-! ### Refinement followed by coarsening -/

theorem coarseOctants_nil (tc : TreeConstants) (fuel : Nat) : coarseOctants tc fuel [] = [] := by
  cases fuel <;> rfl

theorem buildChildren_positions (tc : TreeConstants) (a b : Octant)
    (h : a.position = b.position) :
    (a.buildChildren tc).map Octant.position = (b.buildChildren tc).map Octant.position := by
  simp only [Octant.position, Prod.mk.injEq] at h
  obtain ⟨hx, hy, hz, hl⟩ := h
  unfold Octant.buildChildren
  rw [List.map_map, List.map_map]
  apply List.map_congr_left
  intro i _
  simp only [Function.comp, Octant.position, Octant.buildChild, hx, hy, hz, hl]

theorem buildChildren_length (tc : TreeConstants) (o : Octant) :
    (o.buildChildren tc).length = 2 ^ tc.dim := by
  unfold Octant.buildChildren
  rw [List.length_map, List.length_range]

theorem buildFather_firstChild (tc : TreeConstants) (o first : Octant) (hv : o.Valid tc)
    (hl : o.level < tc.maxLevel) (hfirst : first.position = (o.buildChild tc 0).position) :
    (first.buildFather tc).position = o.position := by
  obtain ⟨_, _, _, _, mx, my, mz, _⟩ := hv
  simp only [Octant.position, Octant.buildChild, Prod.mk.injEq, Nat.zero_mod, Nat.zero_div,
    Nat.zero_mul, Nat.add_zero] at hfirst
  obtain ⟨hx, hy, hz, hlevel⟩ := hfirst
  have e : tc.maxLevel - (o.level + 1) + 1 = tc.maxLevel - o.level := by omega
  simp only [Octant.position, Octant.buildFather, hx, hy, hz, hlevel, e, mx, my, mz,
    Nat.sub_zero, Nat.add_sub_cancel]

/-- C18: refining a single octant gives its `2^dim` children, and coarsening
this family, with every marker negative, gives a single octant with the anchor
and the level of the original. -/
theorem refine_coarse_identity (t : LocalTree) (o : Octant)
    (hoctants : t.m_octants = [o]) (hv : o.Valid t.m_treeConstants) (hmarker : 0 < o.marker)
    (hlevel : o.level < t.m_treeConstants.maxLevel) (family : List Octant)
    (hfamily : family.map Octant.position = t.refine.m_octants.map Octant.position)
    (hmarked : ∀ sibling ∈ family, sibling.marker < 0) :
    t.refine.m_octants = o.buildChildren t.m_treeConstants ∧
    t.refine.m_octants.length = 2 ^ t.m_treeConstants.dim ∧
    ∃ merged, (LocalTree.coarse { t.refine with m_octants := family }).m_octants = [merged] ∧
      merged.x = o.x ∧ merged.y = o.y ∧ merged.z = o.z ∧ merged.level = o.level := by
  have hrefined : t.refine.m_octants = o.buildChildren t.m_treeConstants := by
    simp only [LocalTree.refine, LocalTree.updateLocalMaxDepth, hoctants, refineOctants,
      if_pos (And.intro hmarker hlevel), List.append_nil]
  rw [hrefined] at hfamily
  refine ⟨hrefined, by rw [hrefined, buildChildren_length], ?_⟩
  have hlength : family.length = 2 ^ t.m_treeConstants.dim := by
    have := congrArg List.length hfamily
    rw [List.length_map, List.length_map, buildChildren_length] at this
    exact this
  obtain ⟨others, hothers⟩ := buildChildren_head t.m_treeConstants o
  cases family with
  | nil =>
    rw [hothers] at hfamily
    simp at hfamily
  | cons first rest =>
    have hfirst : first.position = (o.buildChild t.m_treeConstants 0).position := by
      rw [hothers] at hfamily
      simp only [List.map_cons, List.cons.injEq] at hfamily
      exact hfamily.1
    have hfather := buildFather_firstChild t.m_treeConstants o first hv hlevel hfirst
    have hfam : isFamily t.m_treeConstants (first :: rest) = true := by
      unfold isFamily
      simp only [Bool.and_eq_true, decide_eq_true_eq, List.all_eq_true, beq_iff_eq]
      refine ⟨⟨?_, hmarked⟩, ?_⟩
      · simp only [Octant.position, Octant.buildChild, Prod.mk.injEq] at hfirst
        omega
      · rw [hfamily]
        exact (buildChildren_positions t.m_treeConstants _ _ hfather).symm
    refine ⟨first.buildFather t.m_treeConstants, ?_, ?_⟩
    · simp only [LocalTree.coarse, LocalTree.updateLocalMaxDepth, LocalTree.refine,
        List.length_cons]
      rw [List.length_cons] at hlength
      unfold coarseOctants
      rw [List.take_of_length_le (by rw [List.length_cons]; omega), if_pos hfam,
        List.drop_eq_nil_of_le (by omega), coarseOctants_nil]
    · simp only [Octant.position, Prod.mk.injEq] at hfather
      exact hfather

theorem refine_coarse_identity_witness :
    Octant.Valid sampleConstants ⟨2, 0, 0, 1, 1, true, false⟩ ∧
    (∃ merged, (LocalTree.coarse { (LocalTree.refine { sampleTree with
        m_octants := [⟨2, 0, 0, 1, 1, true, false⟩] }) with
        m_octants := (Octant.buildChildren sampleConstants ⟨2, 0, 0, 1, 1, true, false⟩).map
          (fun sibling => { sibling with marker := -1 }) }).m_octants = [merged] ∧
      merged.x = 2 ∧ merged.y = 0 ∧ merged.z = 0 ∧ merged.level = 1) :=
  ⟨by decide,
    (refine_coarse_identity { sampleTree with m_octants := [⟨2, 0, 0, 1, 1, true, false⟩] }
      ⟨2, 0, 0, 1, 1, true, false⟩ rfl (by decide) (by decide) (by decide)
      ((Octant.buildChildren sampleConstants ⟨2, 0, 0, 1, 1, true, false⟩).map
        (fun sibling => { sibling with marker := -1 })) (by decide) (by decide)).2.2⟩

/-! ### Construction of a local tree -/

/-- C20: the constructor of a `LocalTree` and `initialize` return a tree exactly
for the dimensions 2 and 3, and a tree of that dimension; for any other
dimension they fail with the fatal error of the construction of the
constants. -/
theorem construct_dimension (maxLevel dim : Nat) :
    ((∃ tree, LocalTree.construct maxLevel dim = Except.ok tree ∧ tree.m_dim = dim ∧
        tree.m_treeConstants.dim = dim) ↔ (dim = 2 ∨ dim = 3)) ∧
    ((∃ what, LocalTree.construct maxLevel dim = Except.error (Failure.aborted what)) ↔
      ¬ (dim = 2 ∨ dim = 3)) ∧
    ((∃ tree, LocalTree.initialize maxLevel dim = Except.ok tree ∧ tree.m_dim = dim ∧
        tree.m_treeConstants.dim = dim) ↔ (dim = 2 ∨ dim = 3)) ∧
    ((∃ what, LocalTree.initialize maxLevel dim = Except.error (Failure.aborted what)) ↔
      ¬ (dim = 2 ∨ dim = 3)) := by
  by_cases h : dim = 2 ∨ dim = 3
  · have hinit : LocalTree.initialize maxLevel dim = Except.ok
        { m_octants := [], m_ghosts := [], m_globalIdxGhosts := [], m_firstDescMorton := 0,
          m_lastDescMorton := 0, m_localMaxDepth := 0, m_balanceCodim := 1, m_dim := dim,
          m_treeConstants := ⟨dim, maxLevel⟩, m_periodic := List.replicate (2 * dim) false } := by
      simp only [ LocalTree.initialize, TreeConstants.forDimension, if_pos h]
      rfl
    have hconstruct : ∃ tree, LocalTree.construct maxLevel dim = Except.ok tree ∧
        tree.m_dim = dim ∧ tree.m_treeConstants.dim = dim := by
      simp only [LocalTree.construct, hinit]
      exact ⟨_, rfl, rfl, rfl⟩
    refine ⟨⟨fun _ => h, fun _ => hconstruct⟩, ⟨?_, fun hn => absurd h hn⟩,
      ⟨fun _ => h, fun _ => ⟨_, hinit, rfl, rfl⟩⟩, ⟨?_, fun hn => absurd h hn⟩⟩
    · rintro ⟨what, hwhat⟩
      obtain ⟨tree, htree, _⟩ := hconstruct
      rw [htree] at hwhat
      cases hwhat
    · rintro ⟨what, hwhat⟩
      rw [hinit] at hwhat
      cases hwhat
  · have hinit : LocalTree.initialize maxLevel dim =
        Except.error (Failure.aborted "the dimension of the tree must be 2 or 3") := by
      simp only [ LocalTree.initialize, TreeConstants.forDimension, if_neg h]
      rfl
    have hconstruct : LocalTree.construct maxLevel dim =
        Except.error (Failure.aborted "the dimension of the tree must be 2 or 3") := by
      simp only [LocalTree.construct, hinit]
      rfl
    refine ⟨⟨?_, fun hn => absurd hn h⟩, ⟨fun _ => h, fun _ => ⟨_, hconstruct⟩⟩,
      ⟨?_, fun hn => absurd hn h⟩, ⟨fun _ => h, fun _ => ⟨_, hinit⟩⟩⟩
    · rintro ⟨tree, htree, _⟩
      rw [hconstruct] at htree
      cases htree
    · rintro ⟨tree, htree, _⟩
      rw [hinit] at htree
      cases htree

/-! ### Neighbours across a physical boundary -/

theorem getLogicalSize_pos (tc : TreeConstants) (o : Octant) : 0 < o.getLogicalSize tc := by
  unfold Octant.getLogicalSize
  exact Nat.pow_pos (by decide)

theorem translateAxis_low (tc : TreeConstants) (periodic : List Bool) (axis size : Nat)
    (hsize : 0 < size) (hperiodic : periodic.getD (2 * axis) false = false) :
    translateAxis tc periodic axis 0 size (-1) = none := by
  unfold translateAxis
  have h1 : ¬ (0 ≤ ((0 : Nat) : Int) + -1 * (size : Int) ∧
      ((0 : Nat) : Int) + -1 * (size : Int) < 2 ^ tc.maxLevel) := by
    intro h
    have := h.1
    push_cast at this
    omega
  rw [if_neg h1]
  simp only [show ¬ ((0 : Int) < -1) by decide, if_false, Nat.add_zero, hperiodic]
  rfl

theorem translateAxis_high (tc : TreeConstants) (periodic : List Bool) (axis coordinate size : Nat)
    (hbound : coordinate + size = 2 ^ tc.maxLevel)
    (hperiodic : periodic.getD (2 * axis + 1) false = false) :
    translateAxis tc periodic axis coordinate size 1 = none := by
  unfold translateAxis
  have h1 : ¬ (0 ≤ (coordinate : Int) + 1 * (size : Int) ∧
      (coordinate : Int) + 1 * (size : Int) < 2 ^ tc.maxLevel) := by
    intro h
    have h2 := h.2
    have h3 : ((coordinate + size : Nat) : Int) = ((2 ^ tc.maxLevel : Nat) : Int) := by
      rw [hbound]
    push_cast at h3
    omega
  rw [if_neg h1]
  simp only [show ((0 : Int) < 1) by decide, if_true, hperiodic]
  rfl

theorem virtualNeighbour_none_x (tc : TreeConstants) (periodic : List Bool) (oct : Octant)
    (direction : Int × Int × Int)
    (h : translateAxis tc periodic 0 oct.x (oct.getLogicalSize tc) direction.1 = none) :
    virtualNeighbour tc periodic oct direction = none := by
  unfold virtualNeighbour
  rw [h]
  rfl

theorem virtualNeighbour_none_y (tc : TreeConstants) (periodic : List Bool) (oct : Octant)
    (direction : Int × Int × Int)
    (h : translateAxis tc periodic 1 oct.y (oct.getLogicalSize tc) direction.2.1 = none) :
    virtualNeighbour tc periodic oct direction = none := by
  unfold virtualNeighbour
  rw [h]
  cases translateAxis tc periodic 0 oct.x (oct.getLogicalSize tc) direction.1 <;> rfl

theorem virtualNeighbour_none_z (tc : TreeConstants) (periodic : List Bool) (oct : Octant)
    (direction : Int × Int × Int)
    (h : translateAxis tc periodic 2 oct.z (oct.getLogicalSize tc) direction.2.2 = none) :
    virtualNeighbour tc periodic oct direction = none := by
  unfold virtualNeighbour
  rw [h]
  cases translateAxis tc periodic 0 oct.x (oct.getLogicalSize tc) direction.1 <;>
    cases translateAxis tc periodic 1 oct.y (oct.getLogicalSize tc) direction.2.1 <;> rfl

/-- C19: for an octant lying on a boundary face of the domain that is not
periodic, `findNeighbours` through that face returns, and returns an empty list
of neighbours and an empty list of ghost flags. -/
theorem findNeighbours_boundary (t : LocalTree) (hdim : t.m_dim = 2 ∨ t.m_dim = 3) (oct : Octant)
    (iface : Nat) (hface : iface < 2 * t.m_dim)
    (hbound : oct.getBound t.m_treeConstants iface = true)
    (hperiodic : t.isPeriodic oct iface = false) (onlyinternal : Bool) :
    t.findNeighbours oct iface onlyinternal = some ([], []) := by
  have hflag : t.m_periodic.getD iface false = false := by
    unfold LocalTree.isPeriodic at hperiodic
    rw [hbound, Bool.true_and] at hperiodic
    exact hperiodic
  have hsize := getLogicalSize_pos t.m_treeConstants oct
  have hlt : iface < 6 := by omega
  have hnone : ∀ direction, faceDirection t.m_dim iface = some direction →
      virtualNeighbour t.m_treeConstants t.m_periodic oct direction = none := by
    intro direction hdirection
    unfold faceDirection at hdirection
    rw [if_pos hface] at hdirection
    interval_cases iface
    · cases hdirection
      apply virtualNeighbour_none_x
      have hx : oct.x = 0 := by simpa [Octant.getBound] using hbound
      rw [hx]
      exact translateAxis_low _ _ 0 _ hsize hflag
    · cases hdirection
      apply virtualNeighbour_none_x
      have hx : oct.x + oct.getLogicalSize t.m_treeConstants = 2 ^ t.m_treeConstants.maxLevel := by
        simpa [Octant.getBound] using hbound
      exact translateAxis_high _ _ 0 _ _ hx hflag
    · cases hdirection
      apply virtualNeighbour_none_y
      have hy : oct.y = 0 := by simpa [Octant.getBound] using hbound
      rw [hy]
      exact translateAxis_low _ _ 1 _ hsize hflag
    · cases hdirection
      apply virtualNeighbour_none_y
      have hy : oct.y + oct.getLogicalSize t.m_treeConstants = 2 ^ t.m_treeConstants.maxLevel := by
        simpa [Octant.getBound] using hbound
      exact translateAxis_high _ _ 1 _ _ hy hflag
    · cases hdirection
      apply virtualNeighbour_none_z
      have hz : oct.z = 0 := by simpa [Octant.getBound] using hbound
      rw [hz]
      exact translateAxis_low _ _ 2 _ hsize hflag
    · cases hdirection
      apply virtualNeighbour_none_z
      have hz : oct.z + oct.getLogicalSize t.m_treeConstants = 2 ^ t.m_treeConstants.maxLevel := by
        simpa [Octant.getBound] using hbound
      exact translateAxis_high _ _ 2 _ _ hz hflag
  have hsome : ∃ direction, faceDirection t.m_dim iface = some direction := by
    unfold faceDirection
    rw [if_pos hface]
    interval_cases iface <;> exact ⟨_, rfl⟩
  obtain ⟨direction, hdirection⟩ := hsome
  unfold LocalTree.findNeighbours
  rw [hdirection]
  simp only [Option.bind_eq_bind, Option.some_bind, Option.pure_def, LocalTree.resolveNeighbours,
    hnone direction hdirection]

theorem findNeighbours_boundary_witness :
    (sampleTree.m_dim = 2 ∨ sampleTree.m_dim = 3) ∧ 3 < 2 * sampleTree.m_dim ∧
    Octant.getBound sampleTree.m_treeConstants ⟨2, 2, 0, 1, 0, true, false⟩ 3 = true ∧
    sampleTree.isPeriodic ⟨2, 2, 0, 1, 0, true, false⟩ 3 = false ∧
    sampleTree.findNeighbours ⟨2, 2, 0, 1, 0, true, false⟩ 3 false = some ([], []) :=
  ⟨Or.inl rfl, by decide, by decide, by decide,
    findNeighbours_boundary sampleTree (Or.inl rfl) ⟨2, 2, 0, 1, 0, true, false⟩ 3 (by decide)
      (by decide) (by decide) false⟩

theorem findNeighbours_sample :
    sampleTree.refine.findNeighbours ⟨0, 0, 0, 1, 0, true, false⟩ 1 false =
      some ([1, 3], [false, false]) ∧
    sampleTree.refine.findNeighbours ⟨2, 1, 0, 2, 0, true, false⟩ 0 false =
      some ([0], [false]) ∧
    sampleTree.refine.findNeighbours ⟨2, 2, 0, 1, 0, true, false⟩ 2 false =
      some ([3, 4], [false, false]) ∧
    (LocalTree.findNeighbours { sampleTree.refine with m_periodic := [true, true, false, false] }
      ⟨0, 0, 0, 1, 0, true, false⟩ 0 false = some ([2, 4], [false, false])) := by
  decide

/-! ### The exit test of the balance -/

theorem localBalance_converged :
    ∀ (fuel : Nat) (t : LocalTree) (doNew doInterior : Bool) (balanced : LocalTree),
      LocalTree.localBalance fuel t doNew doInterior = some balanced →
      balanced.producesMarkers doNew doInterior = false := by
  intro fuel
  induction fuel with
  | zero =>
    intro t doNew doInterior balanced h
    cases h
  | succ fuel ih =>
    intro t doNew doInterior balanced h
    unfold LocalTree.localBalance at h
    by_cases hp : t.producesMarkers doNew doInterior = true
    · rw [if_pos hp] at h
      exact ih _ doNew doInterior balanced h
    · rw [if_neg hp] at h
      cases h
      simpa using hp

theorem balanced_of_no_markers (t : LocalTree) (doNew doInterior : Bool)
    (h : t.producesMarkers doNew doInterior = false) (oct : Octant) (hoct : oct ∈ t.m_octants)
    (hcandidate : t.isCandidate doNew doInterior oct = true) (direction : Int × Int × Int)
    (hdirection : direction ∈ balanceDirections t.m_dim t.m_balanceCodim) (level : Nat)
    (hlevel : level ∈ t.neighbourLevels oct direction) : level ≤ oct.level + 1 := by
  by_contra hgt
  have hneeds : t.needsRefinement oct = true := by
    unfold LocalTree.needsRefinement
    rw [List.any_eq_true]
    refine ⟨direction, hdirection, ?_⟩
    rw [List.any_eq_true]
    exact ⟨level, hlevel, by simpa using hgt⟩
  have : t.producesMarkers doNew doInterior = true := by
    unfold LocalTree.producesMarkers
    rw [List.any_eq_true]
    exact ⟨oct, hoct, by rw [hcandidate, hneeds]; rfl⟩
  rw [h] at this
  cases this

theorem localBalance_sample :
    LocalTree.localBalance 1 steepTree false true = none ∧
    steepTree.m_octants.map Octant.position =
      [(0, 0, 0, 1), (4, 0, 0, 3), (5, 0, 0, 3), (4, 1, 0, 3), (5, 1, 0, 3), (6, 0, 0, 2),
        (4, 2, 0, 2), (6, 2, 0, 2), (0, 4, 0, 1), (4, 4, 0, 1)] ∧
    balancedTree.m_octants.map Octant.position =
      [(0, 0, 0, 2), (2, 0, 0, 2), (0, 2, 0, 2), (2, 2, 0, 2), (4, 0, 0, 3), (5, 0, 0, 3),
        (4, 1, 0, 3), (5, 1, 0, 3), (6, 0, 0, 2), (4, 2, 0, 2), (6, 2, 0, 2), (0, 4, 0, 1),
        (4, 4, 0, 1)] := by
  decide

/-! ### Convergence of the balance -/

theorem refinementWeight_append (tc : TreeConstants) (first second : List Octant) :
    refinementWeight tc (first ++ second) =
      refinementWeight tc first + refinementWeight tc second := by
  unfold refinementWeight
  rw [List.map_append, List.sum_append]

theorem refinementWeight_children_map (tc : TreeConstants) (o : Octant) (indices : List Nat) :
    refinementWeight tc (indices.map (o.buildChild tc)) =
      indices.length * (2 ^ tc.dim + 1) ^ (tc.maxLevel - (o.level + 1)) := by
  induction indices with
  | nil => simp [refinementWeight]
  | cons i rest ih =>
    rw [List.map_cons, List.length_cons, Nat.add_mul, Nat.one_mul, ← ih]
    unfold refinementWeight
    rw [List.map_cons, List.sum_cons, Nat.add_comm]
    rfl

theorem refinementWeight_children (tc : TreeConstants) (o : Octant) (hl : o.level < tc.maxLevel) :
    refinementWeight tc (o.buildChildren tc) < (2 ^ tc.dim + 1) ^ (tc.maxLevel - o.level) := by
  unfold Octant.buildChildren
  rw [refinementWeight_children_map, List.length_range]
  have e : tc.maxLevel - o.level = (tc.maxLevel - (o.level + 1)) + 1 := by omega
  rw [e, pow_succ, Nat.mul_comm]
  have hpos : 0 < (2 ^ tc.dim + 1) ^ (tc.maxLevel - (o.level + 1)) :=
    Nat.pow_pos (Nat.succ_pos _)
  exact Nat.mul_lt_mul_of_pos_left (Nat.lt_succ_self _) hpos

theorem refinementWeight_refine (tc : TreeConstants) :
    ∀ octants : List Octant,
      refinementWeight tc (refineOctants tc octants) ≤ refinementWeight tc octants ∧
      ((∃ o ∈ octants, 0 < o.marker ∧ o.level < tc.maxLevel) →
        refinementWeight tc (refineOctants tc octants) < refinementWeight tc octants) := by
  intro octants
  induction octants with
  | nil =>
    refine ⟨le_refl _, ?_⟩
    rintro ⟨o, ho, _⟩
    cases ho
  | cons o rest ih =>
    have hcons : refinementWeight tc (o :: rest) =
        (2 ^ tc.dim + 1) ^ (tc.maxLevel - o.level) + refinementWeight tc rest := by
      unfold refinementWeight
      rw [List.map_cons, List.sum_cons]
    unfold refineOctants
    rw [refinementWeight_append, hcons]
    by_cases hsplit : 0 < o.marker ∧ o.level < tc.maxLevel
    · rw [if_pos hsplit]
      have := refinementWeight_children tc o hsplit.2
      exact ⟨by omega, fun _ => by omega⟩
    · rw [if_neg hsplit]
      have hsame : refinementWeight tc [o.clampRefinement tc] =
          (2 ^ tc.dim + 1) ^ (tc.maxLevel - o.level) := by
        have hp := clampRefinement_position tc o
        simp only [Octant.position, Prod.mk.injEq] at hp
        simp only [refinementWeight, List.map_cons, List.map_nil, List.sum_cons, List.sum_nil,
          Nat.add_zero, hp.2.2.2]
      rw [hsame]
      refine ⟨by omega, ?_⟩
      rintro ⟨marked, hmem, hmarked⟩
      rcases List.mem_cons.1 hmem with heq | hrest
      · subst heq
        exact absurd hmarked hsplit
      · have := ih.2 ⟨marked, hrest, hmarked⟩
        omega

theorem refineOctants_levels (tc : TreeConstants) :
    ∀ octants : List Octant, (∀ o ∈ octants, o.level ≤ tc.maxLevel) →
      ∀ o ∈ refineOctants tc octants, o.level ≤ tc.maxLevel := by
  intro octants
  induction octants with
  | nil => intro _ o ho; cases ho
  | cons first rest ih =>
    intro hbound o ho
    unfold refineOctants at ho
    rcases List.mem_append.1 ho with hfirst | hrest
    · by_cases hsplit : 0 < first.marker ∧ first.level < tc.maxLevel
      · rw [if_pos hsplit] at hfirst
        unfold Octant.buildChildren at hfirst
        obtain ⟨i, _, rfl⟩ := List.mem_map.1 hfirst
        simp only [Octant.buildChild]
        omega
      · rw [if_neg hsplit, List.mem_singleton] at hfirst
        subst hfirst
        have hp := clampRefinement_position tc first
        simp only [Octant.position, Prod.mk.injEq] at hp
        rw [hp.2.2.2]
        exact hbound first (List.mem_cons_self _ _)
    · exact ih (fun o ho => hbound o (List.mem_cons_of_mem _ ho)) o hrest

theorem neighbourLevels_bound (t : LocalTree)
    (hoctants : ∀ o ∈ t.m_octants, o.level ≤ t.m_treeConstants.maxLevel)
    (hghosts : ∀ o ∈ t.m_ghosts, o.level ≤ t.m_treeConstants.maxLevel) (oct : Octant)
    (direction : Int × Int × Int) (level : Nat)
    (hlevel : level ∈ t.neighbourLevels oct direction) : level ≤ t.m_treeConstants.maxLevel := by
  unfold LocalTree.neighbourLevels at hlevel
  obtain ⟨neighbour, _, hsome⟩ := List.mem_filterMap.1 hlevel
  cases hfound : (if neighbour.2 then t.m_ghosts else t.m_octants)[neighbour.1]? with
  | none =>
    rw [hfound] at hsome
    cases hsome
  | some o =>
    rw [hfound] at hsome
    simp only [Option.map_some', Option.some.injEq] at hsome
    subst hsome
    have hmem := List.mem_iff_getElem?.2 ⟨_, hfound⟩
    by_cases hg : neighbour.2 = true
    · rw [if_pos hg] at hmem
      exact hghosts o hmem
    · rw [if_neg hg] at hmem
      exact hoctants o hmem

theorem raiseMarkers_marked (t : LocalTree) (doNew doInterior : Bool)
    (hoctants : ∀ o ∈ t.m_octants, o.level ≤ t.m_treeConstants.maxLevel)
    (hghosts : ∀ o ∈ t.m_ghosts, o.level ≤ t.m_treeConstants.maxLevel)
    (hproduces : t.producesMarkers doNew doInterior = true) :
    ∃ o ∈ (t.raiseMarkers doNew doInterior).m_octants,
      0 < o.marker ∧ o.level < t.m_treeConstants.maxLevel := by
  unfold LocalTree.producesMarkers at hproduces
  rw [List.any_eq_true] at hproduces
  obtain ⟨oct, hoct, hcond⟩ := hproduces
  rw [Bool.and_eq_true] at hcond
  obtain ⟨hcandidate, hneeds⟩ := hcond
  have hlevel : oct.level < t.m_treeConstants.maxLevel := by
    unfold LocalTree.needsRefinement at hneeds
    rw [List.any_eq_true] at hneeds
    obtain ⟨direction, _, hany⟩ := hneeds
    rw [List.any_eq_true] at hany
    obtain ⟨level, hmem, hfiner⟩ := hany
    have := neighbourLevels_bound t hoctants hghosts oct direction level hmem
    have hlt : oct.level + 1 < level := by simpa using hfiner
    omega
  by_cases hmarker : oct.marker < 1
  · refine ⟨{ oct with marker := 1 }, ?_, Int.one_pos, hlevel⟩
    unfold LocalTree.raiseMarkers
    simp only
    refine List.mem_map.2 ⟨oct, hoct, ?_⟩
    rw [hcandidate, hneeds, decide_eq_true hmarker]
    rfl
  · refine ⟨oct, ?_, by omega, hlevel⟩
    unfold LocalTree.raiseMarkers
    simp only
    refine List.mem_map.2 ⟨oct, hoct, ?_⟩
    rw [hcandidate, hneeds, decide_eq_false hmarker]
    rfl

theorem raiseMarkers_weight (t : LocalTree) (doNew doInterior : Bool) :
    refinementWeight t.m_treeConstants (t.raiseMarkers doNew doInterior).m_octants =
      refinementWeight t.m_treeConstants t.m_octants ∧
    ((∀ o ∈ t.m_octants, o.level ≤ t.m_treeConstants.maxLevel) →
      ∀ o ∈ (t.raiseMarkers doNew doInterior).m_octants, o.level ≤ t.m_treeConstants.maxLevel) := by
  unfold LocalTree.raiseMarkers
  simp only
  constructor
  · unfold refinementWeight
    rw [List.map_map]
    congr 1
    apply List.map_congr_left
    intro o _
    simp only [Function.comp]
    split <;> rfl
  · intro hbound o ho
    obtain ⟨original, horiginal, rfl⟩ := List.mem_map.1 ho
    have := hbound original horiginal
    split <;> exact this

theorem localBalance_converges :
    ∀ (fuel : Nat) (t : LocalTree) (doNew doInterior : Bool),
      refinementWeight t.m_treeConstants t.m_octants < fuel →
      (∀ o ∈ t.m_octants, o.level ≤ t.m_treeConstants.maxLevel) →
      (∀ o ∈ t.m_ghosts, o.level ≤ t.m_treeConstants.maxLevel) →
      ∃ balanced, LocalTree.localBalance fuel t doNew doInterior = some balanced := by
  intro fuel
  induction fuel with
  | zero => intro t doNew doInterior h; omega
  | succ fuel ih =>
    intro t doNew doInterior hweight hoctants hghosts
    unfold LocalTree.localBalance
    by_cases hproduces : t.producesMarkers doNew doInterior = true
    · rw [if_pos hproduces]
      obtain ⟨hsame, hlevels⟩ := raiseMarkers_weight t doNew doInterior
      have hmarked := raiseMarkers_marked t doNew doInterior hoctants hghosts hproduces
      have hless := (refinementWeight_refine t.m_treeConstants
        (t.raiseMarkers doNew doInterior).m_octants).2 hmarked
      rw [hsame] at hless
      exact ih _ doNew doInterior (by
          show refinementWeight t.m_treeConstants
            (refineOctants t.m_treeConstants (t.raiseMarkers doNew doInterior).m_octants) < fuel
          omega)
        (refineOctants_levels t.m_treeConstants _ (hlevels hoctants)) hghosts
    · rw [if_neg hproduces]
      exact ⟨t, rfl⟩

/-! ### The ghosts under the local operations -/

theorem localBalance_ghosts :
    ∀ (fuel : Nat) (t : LocalTree) (doNew doInterior : Bool) (balanced : LocalTree),
      LocalTree.localBalance fuel t doNew doInterior = some balanced →
      balanced.m_ghosts = t.m_ghosts ∧ balanced.m_globalIdxGhosts = t.m_globalIdxGhosts := by
  intro fuel
  induction fuel with
  | zero =>
    intro t doNew doInterior balanced h
    cases h
  | succ fuel ih =>
    intro t doNew doInterior balanced h
    unfold LocalTree.localBalance at h
    by_cases hp : t.producesMarkers doNew doInterior = true
    · rw [if_pos hp] at h
      obtain ⟨h1, h2⟩ := ih (t.raiseMarkers doNew doInterior).refine doNew doInterior balanced h
      exact ⟨h1, h2⟩
    · rw [if_neg hp] at h
      cases h
      exact ⟨rfl, rfl⟩

theorem adapt_ghosts (t : LocalTree) (operation : Adaption) :
    (t.adapt operation).m_ghosts = t.m_ghosts ∧
      (t.adapt operation).m_globalIdxGhosts = t.m_globalIdxGhosts := by
  cases operation <;> exact ⟨rfl, rfl⟩

theorem foldl_adapt_ghosts (operations : List Adaption) :
    ∀ t : LocalTree, (operations.foldl LocalTree.adapt t).m_ghosts = t.m_ghosts ∧
      (operations.foldl LocalTree.adapt t).m_globalIdxGhosts = t.m_globalIdxGhosts := by
  induction operations with
  | nil => intro t; exact ⟨rfl, rfl⟩
  | cons operation rest ih =>
    intro t
    rw [List.foldl_cons]
    obtain ⟨h1, h2⟩ := ih (t.adapt operation)
    obtain ⟨h3, h4⟩ := adapt_ghosts t operation
    exact ⟨h1.trans h3, h2.trans h4⟩

/-- C21: `refine`, `coarse`, `globalRefine`, `globalCoarse`, both forms of
`preBalance21` and `localBalance` leave the sequence of the ghosts and the
sequence of their global indices as they are: the same octants in the same
order.  This holds after any sequence of the four operations of the mutation
engine, and for the tree that `localBalance` returns, which it does on a tree
whose octants and ghosts have levels up to `maxLevel`. -/
theorem ghost_frame (t : LocalTree) :
    (t.refine.m_ghosts = t.m_ghosts ∧ t.refine.m_globalIdxGhosts = t.m_globalIdxGhosts) ∧
    (t.coarse.m_ghosts = t.m_ghosts ∧ t.coarse.m_globalIdxGhosts = t.m_globalIdxGhosts) ∧
    (t.globalRefine.m_ghosts = t.m_ghosts ∧
      t.globalRefine.m_globalIdxGhosts = t.m_globalIdxGhosts) ∧
    (t.globalCoarse.m_ghosts = t.m_ghosts ∧
      t.globalCoarse.m_globalIdxGhosts = t.m_globalIdxGhosts) ∧
    (∀ operations : List Adaption,
      (operations.foldl LocalTree.adapt t).m_ghosts = t.m_ghosts ∧
      (operations.foldl LocalTree.adapt t).m_globalIdxGhosts = t.m_globalIdxGhosts) ∧
    (∀ internal : Bool, (t.preBalance21 internal).m_ghosts = t.m_ghosts ∧
      (t.preBalance21 internal).m_globalIdxGhosts = t.m_globalIdxGhosts) ∧
    (∀ newmodified : List Nat, (t.preBalance21Modified newmodified).m_ghosts = t.m_ghosts ∧
      (t.preBalance21Modified newmodified).m_globalIdxGhosts = t.m_globalIdxGhosts) ∧
    (∀ (fuel : Nat) (doNew doInterior : Bool) (balanced : LocalTree),
      LocalTree.localBalance fuel t doNew doInterior = some balanced →
      balanced.m_ghosts = t.m_ghosts ∧ balanced.m_globalIdxGhosts = t.m_globalIdxGhosts) ∧
    ((∀ o ∈ t.m_octants, o.level ≤ t.m_treeConstants.maxLevel) →
      (∀ o ∈ t.m_ghosts, o.level ≤ t.m_treeConstants.maxLevel) →
      ∀ doNew doInterior : Bool, ∃ fuel balanced,
        LocalTree.localBalance fuel t doNew doInterior = some balanced ∧
        balanced.m_ghosts = t.m_ghosts ∧ balanced.m_globalIdxGhosts = t.m_globalIdxGhosts) := by
  refine ⟨⟨rfl, rfl⟩, ⟨rfl, rfl⟩, ⟨rfl, rfl⟩, ⟨rfl, rfl⟩, fun operations =>
    foldl_adapt_ghosts operations t, fun _ => ⟨rfl, rfl⟩, fun _ => ⟨rfl, rfl⟩,
    fun fuel doNew doInterior balanced h => localBalance_ghosts fuel t doNew doInterior balanced h,
    ?_⟩
  intro hoctants hghosts doNew doInterior
  obtain ⟨balanced, hbalanced⟩ :=
    localBalance_converges _ t doNew doInterior (Nat.lt_succ_self _) hoctants hghosts
  exact ⟨_, balanced, hbalanced, localBalance_ghosts _ t doNew doInterior balanced hbalanced⟩

theorem ghost_frame_witness :
    borderTree.m_ghosts = [⟨0, 0, 0, 3, 0, true, false⟩, ⟨1, 0, 0, 3, -1, false, true⟩] ∧
    borderTree.m_globalIdxGhosts = [17, 18] ∧
    (borderTree.globalCoarse.m_ghosts = borderTree.m_ghosts ∧
      borderTree.globalCoarse.m_globalIdxGhosts = borderTree.m_globalIdxGhosts) ∧
    (∀ (fuel : Nat) (doNew doInterior : Bool) (balanced : LocalTree),
      LocalTree.localBalance fuel borderTree doNew doInterior = some balanced →
      balanced.m_ghosts = borderTree.m_ghosts ∧
        balanced.m_globalIdxGhosts = borderTree.m_globalIdxGhosts) :=
  ⟨rfl, rfl, (ghost_frame borderTree).2.2.2.1, (ghost_frame borderTree).2.2.2.2.2.2.2.1⟩

theorem ghost_frame_sample :
    (borderTree.preBalance21 true).m_octants.map (fun o => o.marker) =
      [1, 0, 0, 0, 0, 0, 0, 0, 0, 0] ∧
    (borderTree.preBalance21Modified [1, 2]).m_octants.map (fun o => o.marker) =
      [0, 0, 0, 0, 0, 0, 0, 0, 0, 0] ∧
    (borderTree.preBalance21Modified [0]).m_octants.map (fun o => o.marker) =
      [1, 0, 0, 0, 0, 0, 0, 0, 0, 0] ∧
    ((LocalTree.localBalance 3 borderTree true true).map (fun balanced =>
      (balanced.m_octants.length, balanced.m_ghosts, balanced.m_globalIdxGhosts)) =
      some (13, borderTree.m_ghosts, [17, 18])) := by
  decide

end bitpit
